import Mathlib

/-!
# Session relay of `server.js`

A shallow embedding of the socket handlers of `src/server.js` (the session map
`gameSessions`, the per-socket tags `gameCode`, `role`, `playerName`, and the
seven handlers `createGame`, `joinGame`, `buzzIn`, `hostAction`, `syncState`,
`playerWallAction`, `disconnect`), followed by the properties proved of them.

Every handler is a pure function from the session map and the calling socket to
the new session map, the new socket and the list of messages it emits.  The one
handler that can throw is `joinGame`, whose parameter list destructures the
payload: `onJoinGamePayload` and `Server.receive` return `none` there, the
exception being uncaught and the process ended.  As long as the process lives
its states are those of `Server.run` (`Server.receiveAll_run`).
-/

namespace OnlyConnect

/-! ## Data model -/

/-- A JavaScript value as it travels through the relay (`gameState` snapshots
and action payloads).  The relay never computes with it. -/
inductive JsValue where
  | undefined : JsValue
  | null : JsValue
  | bool (b : Bool) : JsValue
  | number (n : Int) : JsValue
  | string (s : String) : JsValue
  | array (items : List JsValue) : JsValue
  | object (fields : List (String × JsValue)) : JsValue

/-- Property lookup `o[k]` on an object literal; `none` when `o` is not an
object or has no such key. -/
def JsValue.field : JsValue → String → Option JsValue
  | .object fields, k => (fields.find? (fun kv => kv.1 = k)).map (fun kv => kv.2)
  | _, _ => none

/-- The record `playerData` pushed on `session.players` (server.js 81-86). -/
structure Player where
  id : String
  name : String
  number : Nat
  role : String
deriving DecidableEq, Repr

/-- The object stored in `gameSessions` (server.js 27-60). -/
structure Session where
  host : String
  players : List Player
  gameState : JsValue

/-- The `gameSessions` map, kept in insertion order as a JS `Map` is. -/
abbrev SessionMap := List (String × Session)

/-- A connected socket: its id, the tags the handlers attach to it
(`socket.gameCode`, `socket.role`, `socket.playerName`, `undefined` being
`none`) and the rooms it has joined. -/
structure Socket where
  id : String
  gameCode : Option String
  role : Option String
  playerName : Option String
  rooms : List String
deriving DecidableEq, Repr

/-- Where a message is sent: `socket.emit` (the socket alone),
`io.to(room).emit` (everyone in the room) or `socket.to(room).emit` (everyone
in the room but the socket). -/
inductive Target where
  | socket (id : String) : Target
  | room (code : String) : Target
  | roomExcept (code : String) (id : String) : Target
deriving DecidableEq, Repr

/-- The server-to-client messages of server.js. -/
inductive Msg where
  | gameCodeExists : Msg
  | gameCreated (gameCode : String) (role : String) : Msg
  | gameNotFound : Msg
  | gameJoined (gameCode : String) (role : Option String) (playerNumber : Nat)
      (playerName : String) : Msg
  | playersUpdated (players : List Player) : Msg
  | syncGameState (gameState : JsValue) : Msg
  | playerBuzzed (playerName : Option String) (playerId : String) : Msg
  | gameAction (action : JsValue) : Msg
  | wallAction (playerId : String) (playerName : Option String) (action : JsValue) : Msg
  | hostDisconnected : Msg

/-- One emitted message with its addressee. -/
abbrev Emit := Target × Msg

/-- Whether a message sent to target `t` is delivered to socket `s`. -/
def Target.delivers : Target → Socket → Bool
  | .socket id, s => decide (s.id = id)
  | .room code, s => decide (code ∈ s.rooms)
  | .roomExcept code id, s => decide (code ∈ s.rooms) && !decide (s.id = id)

/-! ## The `Map` operations used by the handlers -/

/-- Lookup `gameSessions.get(code)`. -/
def SessionMap.get : SessionMap → String → Option Session
  | [], _ => none
  | (k, v) :: rest, code => if k = code then some v else SessionMap.get rest code

/-- Membership `gameSessions.has(code)`. -/
def SessionMap.has (m : SessionMap) (code : String) : Bool :=
  (m.get code).isSome

/-- Update `gameSessions.set(code, v)`: an existing key keeps its place, a new
key goes last.  Also used for the in-place mutation of a stored session. -/
def SessionMap.set : SessionMap → String → Session → SessionMap
  | [], code, v => [(code, v)]
  | (k, x) :: rest, code, v =>
    if k = code then (k, v) :: rest else (k, x) :: SessionMap.set rest code v

/-- Removal `gameSessions.delete(code)`. -/
def SessionMap.delete : SessionMap → String → SessionMap
  | [], _ => []
  | (k, x) :: rest, code =>
    if k = code then SessionMap.delete rest code else (k, x) :: SessionMap.delete rest code

/-- Effect of `socket.join(room)`: rooms are a set. -/
def joinRoom (rooms : List String) (room : String) : List String :=
  if room ∈ rooms then rooms else rooms ++ [room]

/-- The literal `gameState` of a new session (server.js 30-59). -/
def defaultGameState : JsValue :=
  .object [
    ("score", .number 0),
    ("view", .string "rounds"),
    ("currentRound", .null),
    ("currentQuestion", .null),
    ("cluesRevealed", .number 0),
    ("answerRevealed", .bool false),
    ("completedQuestions", .array []),
    ("timerStartTime", .null),
    ("timerStopped", .bool false),
    ("timerElapsedWhenStopped", .number 0),
    ("wallTiles", .array []),
    ("selectedTiles", .array []),
    ("solvedGroups", .array []),
    ("wallLives", .number 3),
    ("wallPhase", .string "solving"),
    ("connectionGuesses", .array []),
    ("wallTimerReady", .bool false),
    ("showTimeUpModal", .bool false),
    ("showWallFrozenModal", .bool false),
    ("vowelsCurrentCategory", .number 0),
    ("vowelsCurrentClue", .number 0),
    ("vowelsCategoryRevealed", .bool false),
    ("vowelsCategoryAnimating", .bool false),
    ("vowelsClueRevealed", .bool false),
    ("vowelsAnswerRevealed", .bool false),
    ("vowelsShowTimeUpModal", .bool false)]

/-- The template literal that makes `playerData.role` (server.js 85). -/
def playerLabel (playerNumber : Nat) : String :=
  "Player " ++ toString playerNumber

/-- The template literal that makes `socket.role` of a joiner (server.js 91). -/
def playerRole (playerNumber : Nat) : String :=
  "player" ++ toString playerNumber

/-- JavaScript truthiness of `socket.gameCode`: `undefined` and the empty
string are falsy. -/
def truthy : Option String → Bool
  | none => false
  | some s => decide (s ≠ "")

/-- The session of the socket: `gameSessions.get(socket.gameCode)`.  All keys
are strings, so an `undefined` tag finds nothing. -/
def sessionOf (gameSessions : SessionMap) (socket : Socket) : Option (String × Session) :=
  match socket.gameCode with
  | none => none
  | some code => (gameSessions.get code).map (fun session => (code, session))

/-! ## The handlers -/

/-- Handler `socket.on('createGame')`, server.js 20-68. -/
def onCreateGame (gameSessions : SessionMap) (socket : Socket) (gameCode : String) :
    SessionMap × Socket × List Emit :=
  if gameSessions.has gameCode then
    (gameSessions, socket, [(.socket socket.id, .gameCodeExists)])
  else
    (gameSessions.set gameCode
        { host := socket.id, players := [], gameState := defaultGameState },
      { socket with
        rooms := joinRoom socket.rooms gameCode
        gameCode := some gameCode
        role := some "host" },
      [(.socket socket.id, .gameCreated gameCode "host")])

/-- Body of the handler `socket.on('joinGame')`, server.js 72-110, run on the two
fields `gameCode` and `playerName` that the parameter list (server.js 71) has
taken out of the payload; `onJoinGamePayload` below is the handler with its
parameter list. -/
def onJoinGame (gameSessions : SessionMap) (socket : Socket) (gameCode playerName : String) :
    SessionMap × Socket × List Emit :=
  match gameSessions.get gameCode with
  | none => (gameSessions, socket, [(.socket socket.id, .gameNotFound)])
  | some session =>
    let playerNumber := session.players.length + 1
    let playerData : Player :=
      { id := socket.id, name := playerName, number := playerNumber,
        role := playerLabel playerNumber }
    let players := session.players ++ [playerData]
    (gameSessions.set gameCode { session with players := players },
      { socket with
        rooms := joinRoom socket.rooms gameCode
        gameCode := some gameCode
        role := some (playerRole playerNumber)
        playerName := some playerName },
      [(.socket socket.id,
          .gameJoined gameCode (some (playerRole playerNumber)) playerNumber playerName),
        (.room gameCode, .playersUpdated players),
        (.socket socket.id, .syncGameState session.gameState)])

/-- Handler `socket.on('joinGame')`, server.js 71-111, on the payload as it
arrives: `none` is a `joinGame` sent with no payload or with `null`.  The
parameter list `({ gameCode, playerName })` destructures the payload, which
throws a TypeError on `undefined` and `null`; the result is then `none`, and
nothing in server.js catches the exception. -/
def onJoinGamePayload (gameSessions : SessionMap) (socket : Socket) :
    Option (String × String) → Option (SessionMap × Socket × List Emit)
  | none => none
  | some (gameCode, playerName) => some (onJoinGame gameSessions socket gameCode playerName)

/-- Handler `socket.on('buzzIn')`, server.js 114-123. -/
def onBuzzIn (gameSessions : SessionMap) (socket : Socket) :
    SessionMap × Socket × List Emit :=
  match sessionOf gameSessions socket with
  | none => (gameSessions, socket, [])
  | some (code, _) =>
    if socket.role = some "host" then (gameSessions, socket, [])
    else (gameSessions, socket, [(.room code, .playerBuzzed socket.playerName socket.id)])

/-- Handler `socket.on('hostAction')`, server.js 126-132. -/
def onHostAction (gameSessions : SessionMap) (socket : Socket) (action : JsValue) :
    SessionMap × Socket × List Emit :=
  match sessionOf gameSessions socket with
  | none => (gameSessions, socket, [])
  | some (code, _) =>
    if socket.role ≠ some "host" then (gameSessions, socket, [])
    else (gameSessions, socket, [(.room code, .gameAction action)])

/-- Handler `socket.on('syncState')`, server.js 135-144. -/
def onSyncState (gameSessions : SessionMap) (socket : Socket) (gameState : JsValue) :
    SessionMap × Socket × List Emit :=
  match sessionOf gameSessions socket with
  | none => (gameSessions, socket, [])
  | some (code, session) =>
    if socket.role ≠ some "host" then (gameSessions, socket, [])
    else
      (gameSessions.set code { session with gameState := gameState },
        socket,
        [(.roomExcept code socket.id, .syncGameState gameState)])

/-- Handler `socket.on('playerWallAction')`, server.js 147-157. -/
def onPlayerWallAction (gameSessions : SessionMap) (socket : Socket) (action : JsValue) :
    SessionMap × Socket × List Emit :=
  match sessionOf gameSessions socket with
  | none => (gameSessions, socket, [])
  | some (code, _) =>
    if socket.role = some "host" then (gameSessions, socket, [])
    else
      (gameSessions, socket,
        [(.room code, .wallAction socket.id socket.playerName action)])

/-- Handler `socket.on('disconnect')`, server.js 160-183. -/
def onDisconnect (gameSessions : SessionMap) (socket : Socket) :
    SessionMap × Socket × List Emit :=
  if truthy socket.gameCode then
    match sessionOf gameSessions socket with
    | none => (gameSessions, socket, [])
    | some (code, session) =>
      if socket.role = some "host" then
        (gameSessions.delete code, socket, [(.room code, .hostDisconnected)])
      else
        let players := session.players.filter (fun p => p.id ≠ socket.id)
        (gameSessions.set code { session with players := players },
          socket,
          [(.room code, .playersUpdated players)])
  else (gameSessions, socket, [])

/-! ## The server as a whole -/

/-- What can happen to the server: a client connects, or a connected client
sends one of the seven events. -/
inductive Event where
  | connect (id : String) : Event
  | createGame (id : String) (gameCode : String) : Event
  | joinGame (id : String) (gameCode : String) (playerName : String) : Event
  | buzzIn (id : String) : Event
  | hostAction (id : String) (action : JsValue) : Event
  | syncState (id : String) (gameState : JsValue) : Event
  | playerWallAction (id : String) (action : JsValue) : Event
  | disconnect (id : String) : Event

/-- The whole server: the session map, the sockets now connected, and the ids
of the sockets that have disconnected. -/
structure Server where
  gameSessions : SessionMap
  sockets : List Socket
  closed : List String

/-- The server at start-up (server.js 14). -/
def Server.init : Server :=
  { gameSessions := [], sockets := [], closed := [] }

/-- The connected socket with the given id. -/
def Server.socket? (w : Server) (id : String) : Option Socket :=
  w.sockets.find? (fun s => s.id = id)

/-- A socket as `io.on('connection')` receives it: no tag set, and in the room
named by its own id. -/
def Socket.fresh (id : String) : Socket :=
  { id := id, gameCode := none, role := none, playerName := none, rooms := [id] }

/-- Store the outcome of a handler run for socket `id`. -/
def Server.commit (w : Server) (id : String) (r : SessionMap × Socket × List Emit) :
    Server × List Emit :=
  ({ w with
      gameSessions := r.1
      sockets := w.sockets.map (fun t => if t.id = id then r.2.1 else t) },
    r.2.2)

/-- One event.  Socket ids are unique and a socket that has disconnected sends
nothing more: a `connect` with an id already seen, and an event from an id that
is not connected, do nothing. -/
def Server.step (w : Server) : Event → Server × List Emit
  | .connect id =>
    if id ∈ w.sockets.map (fun s => s.id) ∨ id ∈ w.closed then (w, [])
    else ({ w with sockets := w.sockets ++ [Socket.fresh id] }, [])
  | .createGame id gameCode =>
    match w.socket? id with
    | none => (w, [])
    | some s => w.commit id (onCreateGame w.gameSessions s gameCode)
  | .joinGame id gameCode playerName =>
    match w.socket? id with
    | none => (w, [])
    | some s => w.commit id (onJoinGame w.gameSessions s gameCode playerName)
  | .buzzIn id =>
    match w.socket? id with
    | none => (w, [])
    | some s => w.commit id (onBuzzIn w.gameSessions s)
  | .hostAction id action =>
    match w.socket? id with
    | none => (w, [])
    | some s => w.commit id (onHostAction w.gameSessions s action)
  | .syncState id gameState =>
    match w.socket? id with
    | none => (w, [])
    | some s => w.commit id (onSyncState w.gameSessions s gameState)
  | .playerWallAction id action =>
    match w.socket? id with
    | none => (w, [])
    | some s => w.commit id (onPlayerWallAction w.gameSessions s action)
  | .disconnect id =>
    match w.socket? id with
    | none => (w, [])
    | some s =>
      let r := onDisconnect w.gameSessions s
      ({ gameSessions := r.1
         sockets := w.sockets.filter (fun t => t.id ≠ id)
         closed := w.closed ++ [id] },
        r.2.2)

/-- The server after a sequence of events. -/
def Server.run (w : Server) : List Event → Server
  | [] => w
  | e :: es => Server.run (w.step e).1 es

/-- The messages emitted along a sequence of events, in order. -/
def Server.output (w : Server) : List Event → List Emit
  | [] => []
  | e :: es => (w.step e).2 ++ Server.output (w.step e).1 es

/-! ## Definitions used in the statements -/

/-- The events of a game created under the empty code, joined by Alice, who
then leaves. -/
def emptyCodePlayerLeaves : List Event :=
  [.connect "h", .createGame "h" "", .connect "a", .joinGame "a" "" "Alice", .disconnect "a"]

/-- The events of a game created under the empty code whose host leaves, after
which Bob tries to join. -/
def emptyCodeHostLeaves : List Event :=
  [.connect "h", .createGame "h" "", .disconnect "h", .connect "b", .joinGame "b" "" "Bob"]

/-- The handler run by a client event, as `Server.step` dispatches it. -/
def handle (gameSessions : SessionMap) (socket : Socket) : Event → SessionMap × Socket × List Emit
  | .connect _ => (gameSessions, socket, [])
  | .createGame _ gameCode => onCreateGame gameSessions socket gameCode
  | .joinGame _ gameCode playerName => onJoinGame gameSessions socket gameCode playerName
  | .buzzIn _ => onBuzzIn gameSessions socket
  | .hostAction _ action => onHostAction gameSessions socket action
  | .syncState _ gameState => onSyncState gameSessions socket gameState
  | .playerWallAction _ action => onPlayerWallAction gameSessions socket action
  | .disconnect _ => onDisconnect gameSessions socket

/-- The socket an event comes from. -/
def Event.sender : Event → String
  | .connect id => id
  | .createGame id _ => id
  | .joinGame id _ _ => id
  | .buzzIn id => id
  | .hostAction id _ => id
  | .syncState id _ => id
  | .playerWallAction id _ => id
  | .disconnect id => id

/-- Whether the event is a client message (neither connect nor disconnect). -/
def Event.isMessage : Event → Bool
  | .connect _ => false
  | .disconnect _ => false
  | _ => true

/-- A socket tagged `host` of a code is the recorded host of the session stored
under that code. -/
def HostTagged (gameSessions : SessionMap) (s : Socket) : Prop :=
  s.role = some "host" → ∀ code, s.gameCode = some code →
    ∃ session, gameSessions.get code = some session ∧ session.host = s.id

/-- Every session of the first map is still in the second, with the same host. -/
def HostsKept (before after : SessionMap) : Prop :=
  ∀ code session, before.get code = some session →
    ∃ session', after.get code = some session' ∧ session'.host = session.host

/-- The invariant of the reachable states used below: connected sockets have
distinct ids, and each socket tagged `host` is the recorded host of its
session. -/
def Server.Inv (w : Server) : Prop :=
  (w.sockets.map (fun s => s.id)).Nodup ∧ ∀ s ∈ w.sockets, HostTagged w.gameSessions s

/-- Host, Alice and Bob join `ABCD`, Alice leaves, Carol joins. -/
def carolAfterAlice : List Event :=
  [.connect "h", .createGame "h" "ABCD", .connect "a", .joinGame "a" "ABCD" "Alice",
    .connect "b", .joinGame "b" "ABCD" "Bob", .disconnect "a",
    .connect "c", .joinGame "c" "ABCD" "Carol"]

/-- Host and Alice join `ABCD`, Alice leaves, Bob joins. -/
def bobAfterAlice : List Event :=
  [.connect "h", .createGame "h" "ABCD", .connect "a", .joinGame "a" "ABCD" "Alice",
    .disconnect "a", .connect "b", .joinGame "b" "ABCD" "Bob"]

/-- The payload of the event when it is a `syncState` accepted for session
`code`: sent by a connected socket tagged `host` of `code` while `code` is a
key. -/
def Server.accepted (w : Server) (code : String) : Event → Option JsValue
  | .syncState id P =>
    match w.socket? id with
    | some s =>
      if s.role = some "host" ∧ s.gameCode = some code ∧ w.gameSessions.has code = true
      then some P else none
    | none => none
  | _ => none

/-- Whether the event creates session `code`: a `createGame` for `code` from a
connected socket while `code` is not a key. -/
def Server.creates (w : Server) (code : String) : Event → Bool
  | .createGame id gameCode =>
    decide (gameCode = code) && (w.socket? id).isSome && !w.gameSessions.has code
  | _ => false

/-- The snapshot session `code` is to hold after the events, in the words of
the specification: the payload of the last `syncState` accepted from its host
since the session was created, or the default document when there was none.
`current` is the value before the events. -/
def Server.lastSnapshot (w : Server) (code : String) (current : JsValue) : List Event → JsValue
  | [] => current
  | e :: es =>
    Server.lastSnapshot (w.step e).1 code
      (match w.accepted code e with
        | some P => P
        | none => if w.creates code e then defaultGameState else current)
      es

/-- The scenario of the specification up to the host's snapshot: `ABCD` is
created, Alice and Bob join, the host sends a snapshot with score 5. -/
def scoreFive : List Event :=
  [.connect "h", .createGame "h" "ABCD", .connect "a", .joinGame "a" "ABCD" "Alice",
    .connect "b", .joinGame "b" "ABCD" "Bob",
    .syncState "h" (.object [("score", .number 5)])]

/-- A socket tagged with a code is in the room of that code. -/
def Socket.InRoom (s : Socket) : Prop :=
  ∀ code, s.gameCode = some code → code ∈ s.rooms

/-- A socket tagged with a code in a role other than `host` carries a player
name. -/
def Socket.Named (s : Socket) : Prop :=
  s.gameCode ≠ none → s.role ≠ some "host" → s.playerName ≠ none

/-- The code an event from socket `s` is about: the code argument of
`createGame` and `joinGame`, the code tag of the socket for the other client
events. -/
def Socket.eventCode (s : Socket) : Event → Option String
  | .connect _ => none
  | .createGame _ gameCode => some gameCode
  | .joinGame _ gameCode _ => some gameCode
  | _ => s.gameCode

/-- The code an event is about, the sender being looked up among the connected
sockets. -/
def Server.eventCode (w : Server) : Event → Option String
  | .connect _ => none
  | .createGame _ gameCode => some gameCode
  | .joinGame _ gameCode _ => some gameCode
  | e => (w.socket? e.sender).bind (fun s => s.gameCode)

/-- The name on record for socket `id` after one event: the name of the event
when it is a `joinGame` from `id` that is answered `gameJoined` (the socket
connected, the code a key), else the name on record before. -/
def Server.nameAfter (w : Server) (id : String) (current : Option String) :
    Event → Option String
  | .joinGame sender gameCode playerName =>
    if sender = id ∧ (w.socket? id).isSome = true ∧ w.gameSessions.has gameCode = true
    then some playerName else current
  | _ => current

/-- The name socket `id` gave in its latest `joinGame` that was answered
`gameJoined`, along the events; `current` is the value before the events. -/
def Server.joinedName (w : Server) (id : String) (current : Option String) :
    List Event → Option String
  | [] => current
  | e :: es => Server.joinedName (w.step e).1 id (w.nameAfter id current e) es

/-- The scenario of the specification up to Bob's join: `ABCD` is created,
Alice and Bob join. -/
def aliceAndBob : List Event :=
  [.connect "h", .createGame "h" "ABCD", .connect "a", .joinGame "a" "ABCD" "Alice",
    .connect "b", .joinGame "b" "ABCD" "Bob"]

/-- The host of `ABCD` creates a second game `WXYZ`. -/
def hostCreatesTwice : List Event :=
  [.connect "h", .createGame "h" "ABCD", .createGame "h" "WXYZ"]

/-- The host of `ABCD` joins its own game as a player. -/
def hostJoinsOwnGame : List Event :=
  [.connect "h", .createGame "h" "ABCD", .joinGame "h" "ABCD" "Hal"]

/-- The host of `ABCD` creates a second game `WXYZ` and then disconnects. -/
def hostCreatesTwiceAndLeaves : List Event :=
  [.connect "h", .createGame "h" "ABCD", .createGame "h" "WXYZ", .disconnect "h"]

/-- Alice joins `ABCD`, its host leaves, a new host creates `ABCD` again. -/
def aliceOutlivesGame : List Event :=
  [.connect "h", .createGame "h" "ABCD", .connect "a", .joinGame "a" "ABCD" "Alice",
    .disconnect "h", .connect "g", .createGame "g" "ABCD"]

/-- Every player record stored under `code` in the first map is still stored
under `code` in the second. -/
def RecordsKept (code : String) (before after : SessionMap) : Prop :=
  ∀ session p, before.get code = some session → p ∈ session.players →
    ∃ session', after.get code = some session' ∧ p ∈ session'.players

/-- Whether the event binds a socket that is already bound: a `createGame` on a
free code, or a `joinGame` on a code that is a key, from a connected socket
that already carries a code tag. -/
def Server.rebinds (w : Server) : Event → Bool
  | .createGame id gameCode =>
    match w.socket? id with
    | some s => s.gameCode.isSome && !w.gameSessions.has gameCode
    | none => false
  | .joinGame id gameCode _ =>
    match w.socket? id with
    | some s => s.gameCode.isSome && w.gameSessions.has gameCode
    | none => false
  | _ => false

/-- No event along the sequence (run from `w`) binds a socket that is already
bound. -/
def Server.boundOnce (w : Server) : List Event → Bool
  | [] => true
  | e :: es => !w.rebinds e && Server.boundOnce (w.step e).1 es

/-- The records of a session stored under `code` name sockets of the list that
are tagged with `code`: the host one tagged `host`, each player one tagged with
another role. -/
def Backed (sockets : List Socket) (code : String) (session : Session) : Prop :=
  (∃ s ∈ sockets, s.id = session.host ∧ s.gameCode = some code ∧ s.role = some "host") ∧
    ∀ p ∈ session.players,
      ∃ s ∈ sockets, s.id = p.id ∧ s.gameCode = some code ∧ s.role ≠ some "host"

/-- No connected socket has an id among the disconnected ones, and every
session stored under a non-empty code is backed by connected sockets. -/
def Server.Live (w : Server) : Prop :=
  (∀ s ∈ w.sockets, s.id ∉ w.closed) ∧
    ∀ code session, code ≠ "" → w.gameSessions.get code = some session →
      Backed w.sockets code session

/-! ## Inputs without payload -/

/-- What reaches the server from the network: one of the events above, or a
`joinGame` that carries no payload (or `null`). -/
inductive Input where
  | event (e : Event) : Input
  | joinGameNoPayload (id : String) : Input

/-- The socket an input comes from. -/
def Input.sender : Input → String
  | .event e => e.sender
  | .joinGameNoPayload id => id

/-- One input.  The result is `none` when the handler throws: the exception is
uncaught, so the process ends and with it the session map and every
connection.  A `joinGame` without payload from an id that is not connected
reaches no handler. -/
def Server.receive (w : Server) : Input → Option (Server × List Emit)
  | .event e => some (w.step e)
  | .joinGameNoPayload id =>
    match w.socket? id with
    | none => some (w, [])
    | some s => (onJoinGamePayload w.gameSessions s none).map (fun r => w.commit id r)

/-- The server after a sequence of inputs, `none` once the process has ended. -/
def Server.receiveAll (w : Server) : List Input → Option Server
  | [] => some w
  | i :: rest =>
    match w.receive i with
    | none => none
    | some r => Server.receiveAll r.1 rest

/-- The code an input is about: the code of the event; a `joinGame` without
payload names none. -/
def Server.inputCode (w : Server) : Input → Option String
  | .event e => w.eventCode e
  | .joinGameNoPayload _ => none

/-- Two games `ABCD` and `WXYZ` are running and a third socket has connected. -/
def twoGames : List Event :=
  [.connect "h", .createGame "h" "ABCD", .connect "g", .createGame "g" "WXYZ", .connect "a"]

/-- Whether the event deletes the session stored under `code`: the code is a
key before the event and not after. -/
def Server.deletes (w : Server) (code : String) (e : Event) : Bool :=
  w.gameSessions.has code && !(w.step e).1.gameSessions.has code

/-- Whether, after one event, socket `id` has joined the session now stored
under `code`: no once that session is deleted, yes once a `joinGame` for `code`
from `id` is answered `gameJoined`, else as before. -/
def Server.joinedAfter (w : Server) (id code : String) (current : Bool) (e : Event) : Bool :=
  if w.deletes code e then false
  else
    match e with
    | .joinGame sender gameCode _ =>
      if sender = id ∧ gameCode = code ∧ (w.socket? id).isSome = true ∧
          w.gameSessions.has code = true
      then true else current
    | _ => current

/-- Whether, after the events, the latest answered `joinGame` of socket `id`
for `code` is later than the latest deletion of a session stored under `code`:
the socket has joined the session that is stored now. -/
def Server.joinedCurrent (w : Server) (id code : String) (current : Bool) :
    List Event → Bool
  | [] => current
  | e :: es => Server.joinedCurrent (w.step e).1 id code (w.joinedAfter id code current e) es

/-- Socket `id`, when connected and tagged with `code` in a role other than
`host`, has a record in the players of the session stored under `code`. -/
def Server.ListedSocket (w : Server) (id code : String) : Prop :=
  ∀ s, w.socket? id = some s → s.gameCode = some code → s.role ≠ some "host" →
    ∃ session p, w.gameSessions.get code = some session ∧ p ∈ session.players ∧ p.id = id

/-- Alice joins `ABCD`, its host leaves, a new host creates `ABCD` again and
Bob joins it. -/
def bobJoinsNewGame : List Event :=
  [.connect "h", .createGame "h" "ABCD", .connect "a", .joinGame "a" "ABCD" "Alice",
    .disconnect "h", .connect "g", .createGame "g" "ABCD",
    .connect "b", .joinGame "b" "ABCD" "Bob"]

/-- The players list of the session stored under `code`, if any. -/
def Server.players (w : Server) (code : String) : Option (List Player) :=
  (w.gameSessions.get code).map (fun s => s.players)

/-- The number of player records stored under `code` (0 when no session is). -/
def Server.playerCount (w : Server) (code : String) : Nat :=
  match w.players code with
  | some l => l.length
  | none => 0

/-- Whether the event creates the session stored under `code`: no session is
stored under `code` before the event and one is after. -/
def Server.opens (w : Server) (code : String) (e : Event) : Bool :=
  (w.players code).isNone && ((w.step e).1.players code).isSome

/-- Whether the event adds a record to the players stored under `code`. -/
def Server.playerAdded (w : Server) (code : String) (e : Event) : Bool :=
  decide (w.playerCount code < (w.step e).1.playerCount code)

/-- Whether the event takes a record away from the players stored under
`code`. -/
def Server.playerRemoved (w : Server) (code : String) (e : Event) : Bool :=
  decide ((w.step e).1.playerCount code < w.playerCount code)

/-- Whether, after one event, a record has been taken away from the players of
the session stored under `code` since that session was created. -/
def Server.leftAfter (w : Server) (code : String) (left : Bool) (e : Event) : Bool :=
  if w.opens code e then false else left || w.playerRemoved code e

/-- No record is added to the players stored under `code` after one has been
taken away from them, counted for each session from its creation, along the
events (run from `w`, where `left` tells whether one has been taken away
already). -/
def Server.joinsBeforeLeaves (w : Server) (code : String) (left : Bool) : List Event → Bool
  | [] => true
  | e :: es =>
    !(left && w.playerAdded code e)
      && Server.joinsBeforeLeaves (w.step e).1 code (w.leftAfter code left e) es

/-- The number of the last record of the players stored under `code`. -/
def Server.lastNumber (w : Server) (code : String) : List Nat :=
  match w.players code with
  | some l => (l.getLast?.map (fun p => p.number)).toList
  | none => []

/-- The numbers given to the joiners of the session stored under `code` since
it was created, after one event: none when the event creates the session, one
more (that of the record just added) when the event adds a record. -/
def Server.givenAfter (w : Server) (code : String) (given : List Nat) (e : Event) : List Nat :=
  if w.opens code e then []
  else if w.playerAdded code e then given ++ (w.step e).1.lastNumber code
  else given

/-- The numbers given, in order, to the joiners of the session stored under
`code` since it was created, along the events. -/
def Server.numbersGiven (w : Server) (code : String) (given : List Nat) :
    List Event → List Nat
  | [] => given
  | e :: es => Server.numbersGiven (w.step e).1 code (w.givenAfter code given e) es

/-- The numbers given so far are 1, 2, ..., the stored numbers increase along
the list, and while no record has been taken away they are the numbers
given. -/
def Server.Counted (w : Server) (code : String) (left : Bool) (given : List Nat) : Prop :=
  given = List.range' 1 given.length ∧
    ∀ l, w.players code = some l →
      (l.map (fun p => p.number)).Pairwise (fun x y => x < y) ∧
        (left = false → l.map (fun p => p.number) = given)

/-- Alice, Bob and Carol join `ABCD`, then Alice leaves. -/
def aliceLeavesThree : List Event :=
  [.connect "h", .createGame "h" "ABCD", .connect "a", .joinGame "a" "ABCD" "Alice",
    .connect "b", .joinGame "b" "ABCD" "Bob", .connect "c", .joinGame "c" "ABCD" "Carol",
    .disconnect "a"]

/-! ## Lemmas on the map operations -/

theorem SessionMap.get_set_self (m : SessionMap) (code : String) (v : Session) :
    (m.set code v).get code = some v := by
  induction m with
  | nil => simp [SessionMap.set, SessionMap.get]
  | cons kv rest ih =>
    obtain ⟨k, x⟩ := kv
    by_cases hk : k = code
    · simp [SessionMap.set, SessionMap.get, hk]
    · simp [SessionMap.set, SessionMap.get, hk, ih]

theorem SessionMap.get_set_ne (m : SessionMap) (code other : String) (v : Session)
    (hne : other ≠ code) : (m.set code v).get other = m.get other := by
  induction m with
  | nil =>
    have : ¬ code = other := fun h => hne h.symm
    simp [SessionMap.set, SessionMap.get, this]
  | cons kv rest ih =>
    obtain ⟨k, x⟩ := kv
    by_cases hk : k = code
    · have : ¬ code = other := fun h => hne h.symm
      simp [SessionMap.set, SessionMap.get, hk, this]
    · by_cases hko : k = other
      · subst hko
        simp [SessionMap.set, SessionMap.get, hk]
      · simp [SessionMap.set, SessionMap.get, hk, hko, ih]

theorem SessionMap.set_of_get_none (m : SessionMap) (code : String) (v : Session)
    (hnone : m.get code = none) : m.set code v = m ++ [(code, v)] := by
  induction m with
  | nil => rfl
  | cons kv rest ih =>
    obtain ⟨k, x⟩ := kv
    by_cases hk : k = code
    · simp [SessionMap.get, hk] at hnone
    · simp only [SessionMap.get, hk, if_false] at hnone
      simp [SessionMap.set, hk, ih hnone]

theorem SessionMap.keys_set_of_get_some (m : SessionMap) (code : String) (v x : Session)
    (hsome : m.get code = some x) :
    (m.set code v).map Prod.fst = m.map Prod.fst := by
  induction m with
  | nil => simp [SessionMap.get] at hsome
  | cons kv rest ih =>
    obtain ⟨k, y⟩ := kv
    by_cases hk : k = code
    · simp [SessionMap.set, hk]
    · simp only [SessionMap.get, hk, if_false] at hsome
      simp [SessionMap.set, hk, ih hsome]

theorem SessionMap.get_delete_self (m : SessionMap) (code : String) :
    (m.delete code).get code = none := by
  induction m with
  | nil => rfl
  | cons kv rest ih =>
    obtain ⟨k, x⟩ := kv
    by_cases hk : k = code
    · simp [SessionMap.delete, hk, ih]
    · simp [SessionMap.delete, SessionMap.get, hk, ih]

theorem SessionMap.get_delete_ne (m : SessionMap) (code other : String)
    (hne : other ≠ code) : (m.delete code).get other = m.get other := by
  induction m with
  | nil => rfl
  | cons kv rest ih =>
    obtain ⟨k, x⟩ := kv
    by_cases hk : k = code
    · have : ¬ code = other := fun h => hne h.symm
      simp [SessionMap.delete, SessionMap.get, hk, ih, this]
    · by_cases hko : k = other
      · subst hko
        simp [SessionMap.delete, SessionMap.get, hk]
      · simp [SessionMap.delete, SessionMap.get, hk, hko, ih]

theorem SessionMap.has_eq_false_iff (m : SessionMap) (code : String) :
    m.has code = false ↔ m.get code = none := by
  unfold SessionMap.has
  cases m.get code <;> simp

theorem playerRole_ne_host (n : Nat) : playerRole n ≠ "host" := by
  intro h
  have hdata := congrArg String.data h
  simp [playerRole] at hdata

theorem sessionOf_eq_some (gameSessions : SessionMap) (socket : Socket) (code : String)
    (session : Session) (hcode : socket.gameCode = some code)
    (hsess : gameSessions.get code = some session) :
    sessionOf gameSessions socket = some (code, session) := by
  simp [sessionOf, hcode, hsess]

theorem sessionOf_some_iff (gameSessions : SessionMap) (socket : Socket) (code : String)
    (session : Session) :
    sessionOf gameSessions socket = some (code, session) ↔
      socket.gameCode = some code ∧ gameSessions.get code = some session := by
  unfold sessionOf
  cases hg : socket.gameCode with
  | none => simp
  | some c =>
    by_cases hc : c = code
    · subst hc
      cases hs : gameSessions.get c <;> simp [hs]
    · cases hs : gameSessions.get c <;> simp [hc]

/-! ## The handlers, one call at a time -/

/-- C2: a `syncState` with payload `P` from the socket tagged host of an existing
session `code` stores exactly `P` as that session's `gameState` (host and
players kept), changes no other session and no key, leaves the socket as it is,
and emits one `syncGameState P` to the room of `code` except the sender, which
is not delivered to the sender. -/
theorem syncState_host_replaces (gameSessions : SessionMap) (socket : Socket) (code : String)
    (session : Session) (P : JsValue)
    (hcode : socket.gameCode = some code) (hrole : socket.role = some "host")
    (hsess : gameSessions.get code = some session) :
    (onSyncState gameSessions socket P).1.get code
        = some { host := session.host, players := session.players, gameState := P } ∧
      (∀ other, other ≠ code →
        (onSyncState gameSessions socket P).1.get other = gameSessions.get other) ∧
      (onSyncState gameSessions socket P).1.map Prod.fst = gameSessions.map Prod.fst ∧
      (onSyncState gameSessions socket P).2.1 = socket ∧
      (onSyncState gameSessions socket P).2.2
        = [(Target.roomExcept code socket.id, Msg.syncGameState P)] ∧
      ∀ e ∈ (onSyncState gameSessions socket P).2.2, e.1.delivers socket = false := by
  have hrun : onSyncState gameSessions socket P
      = (gameSessions.set code { session with gameState := P }, socket,
          [(Target.roomExcept code socket.id, Msg.syncGameState P)]) := by
    simp [onSyncState, sessionOf_eq_some gameSessions socket code session hcode hsess, hrole]
  rw [hrun]
  refine ⟨SessionMap.get_set_self _ _ _, ?_, ?_, rfl, rfl, ?_⟩
  · intro other hne
    exact SessionMap.get_set_ne _ _ _ _ hne
  · exact SessionMap.keys_set_of_get_some _ _ _ _ hsess
  · intro e he
    simp only [List.mem_singleton] at he
    subst he
    simp [Target.delivers]

/-- C3: `createGame` with a code that is already a key returns the session map
and the caller untouched and emits the single message `gameCodeExists` to the
caller, which reaches no socket with another id; hence two `createGame` calls
with one code from the empty map leave exactly one session, hosted by the
first caller. -/
theorem createGame_existing (gameSessions : SessionMap) (socket : Socket) (gameCode : String)
    (hhas : gameSessions.has gameCode = true) :
    onCreateGame gameSessions socket gameCode
        = (gameSessions, socket, [(Target.socket socket.id, Msg.gameCodeExists)]) ∧
      (∀ t : Socket, (Target.socket socket.id).delivers t = true → t.id = socket.id) ∧
      ∀ first second : Socket,
        (onCreateGame (onCreateGame [] first gameCode).1 second gameCode).1
            = [(gameCode, { host := first.id, players := [], gameState := defaultGameState })] ∧
          (onCreateGame (onCreateGame [] first gameCode).1 second gameCode).2.1 = second ∧
          (onCreateGame (onCreateGame [] first gameCode).1 second gameCode).2.2
            = [(Target.socket second.id, Msg.gameCodeExists)] := by
  refine ⟨by simp [onCreateGame, hhas], ?_, ?_⟩
  · intro t ht
    simpa [Target.delivers] using ht
  · intro first second
    simp [onCreateGame, SessionMap.has, SessionMap.get, SessionMap.set]

/-- C3 at a concrete map. -/
theorem createGame_existing_witness :
    SessionMap.has [("ABCD", { host := "h", players := [], gameState := defaultGameState })]
        "ABCD" = true ∧
      onCreateGame [("ABCD", { host := "h", players := [], gameState := defaultGameState })]
          (Socket.fresh "x") "ABCD"
        = ([("ABCD", { host := "h", players := [], gameState := defaultGameState })],
            Socket.fresh "x", [(Target.socket "x", Msg.gameCodeExists)]) :=
  ⟨by decide,
    (createGame_existing
      [("ABCD", { host := "h", players := [], gameState := defaultGameState })]
      (Socket.fresh "x") "ABCD" (by decide)).1⟩

/-- C2 at a concrete map. -/
theorem syncState_host_replaces_witness :
    (onSyncState [("ABCD", { host := "h", players := [], gameState := defaultGameState })]
        { id := "h", gameCode := some "ABCD", role := some "host", playerName := none,
          rooms := ["h", "ABCD"] }
        (JsValue.object [("score", JsValue.number 5)])).2.2
      = [(Target.roomExcept "ABCD" "h",
          Msg.syncGameState (JsValue.object [("score", JsValue.number 5)]))] :=
  (syncState_host_replaces
    [("ABCD", { host := "h", players := [], gameState := defaultGameState })]
    { id := "h", gameCode := some "ABCD", role := some "host", playerName := none,
      rooms := ["h", "ABCD"] }
    "ABCD" { host := "h", players := [], gameState := defaultGameState }
    (JsValue.object [("score", JsValue.number 5)]) rfl rfl (by simp [SessionMap.get])).2.2.2.2.1

/-- C4: `createGame` with a code that is not yet a key appends that code to the
session map, bound to a session hosted by the caller, with no players and the
default `gameState`; every other code keeps its session; the caller is tagged
with the code and role `host` (id and player name kept, room joined) and gets
the single message `gameCreated` with that code and role `host`.  The default
document has the listed field values and does not depend on caller or code. -/
theorem createGame_new (gameSessions : SessionMap) (socket : Socket) (gameCode : String)
    (hnew : gameSessions.has gameCode = false) :
    (onCreateGame gameSessions socket gameCode).1
        = gameSessions ++
          [(gameCode, { host := socket.id, players := [], gameState := defaultGameState })] ∧
      (∀ other, other ≠ gameCode →
        (onCreateGame gameSessions socket gameCode).1.get other = gameSessions.get other) ∧
      (onCreateGame gameSessions socket gameCode).2.1
        = { id := socket.id, gameCode := some gameCode, role := some "host",
            playerName := socket.playerName, rooms := joinRoom socket.rooms gameCode } ∧
      gameCode ∈ (onCreateGame gameSessions socket gameCode).2.1.rooms ∧
      (onCreateGame gameSessions socket gameCode).2.2
        = [(Target.socket socket.id, Msg.gameCreated gameCode "host")] ∧
      defaultGameState.field "score" = some (JsValue.number 0) ∧
      defaultGameState.field "view" = some (JsValue.string "rounds") ∧
      defaultGameState.field "currentRound" = some JsValue.null ∧
      defaultGameState.field "currentQuestion" = some JsValue.null ∧
      defaultGameState.field "cluesRevealed" = some (JsValue.number 0) ∧
      defaultGameState.field "wallLives" = some (JsValue.number 3) ∧
      defaultGameState.field "wallPhase" = some (JsValue.string "solving") ∧
      (∀ flag ∈ ["answerRevealed", "timerStopped", "wallTimerReady", "showTimeUpModal",
          "showWallFrozenModal", "vowelsCategoryRevealed", "vowelsCategoryAnimating",
          "vowelsClueRevealed", "vowelsAnswerRevealed", "vowelsShowTimeUpModal"],
        defaultGameState.field flag = some (JsValue.bool false)) ∧
      (∀ list ∈ ["completedQuestions", "wallTiles", "selectedTiles", "solvedGroups",
          "connectionGuesses"],
        defaultGameState.field list = some (JsValue.array [])) ∧
      defaultGameState.field "vowelsCurrentCategory" = some (JsValue.number 0) ∧
      defaultGameState.field "vowelsCurrentClue" = some (JsValue.number 0) := by
  have hnone : gameSessions.get gameCode = none :=
    (SessionMap.has_eq_false_iff gameSessions gameCode).1 hnew
  have hrun : onCreateGame gameSessions socket gameCode
      = (gameSessions.set gameCode
            { host := socket.id, players := [], gameState := defaultGameState },
          { socket with
            rooms := joinRoom socket.rooms gameCode
            gameCode := some gameCode
            role := some "host" },
          [(Target.socket socket.id, Msg.gameCreated gameCode "host")]) := by
    simp [onCreateGame, hnew]
  rw [hrun]
  refine ⟨SessionMap.set_of_get_none _ _ _ hnone, ?_, rfl, ?_, rfl, rfl, rfl, rfl, rfl, rfl,
    rfl, rfl, ?_, ?_, rfl, rfl⟩
  · intro other hne
    exact SessionMap.get_set_ne _ _ _ _ hne
  · show gameCode ∈ joinRoom socket.rooms gameCode
    unfold joinRoom
    split <;> simp_all
  · intro flag hflag
    simp only [List.mem_cons, List.mem_singleton, List.not_mem_nil, or_false] at hflag
    rcases hflag with h | h | h | h | h | h | h | h | h | h <;> subst h <;> rfl
  · intro list hlist
    simp only [List.mem_cons, List.mem_singleton, List.not_mem_nil, or_false] at hlist
    rcases hlist with h | h | h | h | h <;> subst h <;> rfl

/-- C4 at the empty map. -/
theorem createGame_new_witness :
    SessionMap.has [] "ABCD" = false ∧
      (onCreateGame [] (Socket.fresh "h") "ABCD").1
        = [] ++ [("ABCD", { host := "h", players := [], gameState := defaultGameState })] :=
  ⟨by decide, (createGame_new [] (Socket.fresh "h") "ABCD" (by decide)).1⟩

/-- C10: `joinGame` with a code that is not a key returns the session map and
the caller (all its tags) untouched and emits the single message
`gameNotFound`, addressed to the caller, which reaches no socket with another
id. -/
theorem joinGame_unknown (gameSessions : SessionMap) (socket : Socket)
    (gameCode playerName : String) (hnew : gameSessions.has gameCode = false) :
    onJoinGame gameSessions socket gameCode playerName
        = (gameSessions, socket, [(Target.socket socket.id, Msg.gameNotFound)]) ∧
      ∀ t : Socket, (Target.socket socket.id).delivers t = true → t.id = socket.id := by
  have hnone : gameSessions.get gameCode = none :=
    (SessionMap.has_eq_false_iff gameSessions gameCode).1 hnew
  refine ⟨by simp [onJoinGame, hnone], ?_⟩
  intro t ht
  simpa [Target.delivers] using ht

/-- C10 at a concrete map. -/
theorem joinGame_unknown_witness :
    SessionMap.has [("ABCD", { host := "h", players := [], gameState := defaultGameState })]
        "WXYZ" = false ∧
      onJoinGame [("ABCD", { host := "h", players := [], gameState := defaultGameState })]
          (Socket.fresh "a") "WXYZ" "Alice"
        = ([("ABCD", { host := "h", players := [], gameState := defaultGameState })],
            Socket.fresh "a", [(Target.socket "a", Msg.gameNotFound)]) :=
  ⟨by decide,
    (joinGame_unknown
      [("ABCD", { host := "h", players := [], gameState := defaultGameState })]
      (Socket.fresh "a") "WXYZ" "Alice" (by decide)).1⟩

theorem onJoinGame_of_get_some (gameSessions : SessionMap) (socket : Socket)
    (gameCode playerName : String) (session : Session)
    (hsess : gameSessions.get gameCode = some session) :
    onJoinGame gameSessions socket gameCode playerName
      = (gameSessions.set gameCode
            { session with
              players := session.players ++
                [{ id := socket.id, name := playerName, number := session.players.length + 1,
                   role := playerLabel (session.players.length + 1) }] },
          { socket with
            rooms := joinRoom socket.rooms gameCode
            gameCode := some gameCode
            role := some (playerRole (session.players.length + 1))
            playerName := some playerName },
          [(Target.socket socket.id,
              Msg.gameJoined gameCode (some (playerRole (session.players.length + 1)))
                (session.players.length + 1) playerName),
            (Target.room gameCode,
              Msg.playersUpdated (session.players ++
                [{ id := socket.id, name := playerName, number := session.players.length + 1,
                   role := playerLabel (session.players.length + 1) }])),
            (Target.socket socket.id, Msg.syncGameState session.gameState)]) := by
  simp [onJoinGame, hsess]

theorem onJoinGame_get_self (gameSessions : SessionMap) (socket : Socket)
    (gameCode playerName : String) (session : Session)
    (hsess : gameSessions.get gameCode = some session) :
    (onJoinGame gameSessions socket gameCode playerName).1.get gameCode
      = some { host := session.host,
               players := session.players ++
                 [{ id := socket.id, name := playerName,
                    number := session.players.length + 1,
                    role := "Player " ++ toString (session.players.length + 1) }],
               gameState := session.gameState } := by
  rw [onJoinGame_of_get_some gameSessions socket gameCode playerName session hsess]
  exact SessionMap.get_set_self _ _ _

/-- C5: `joinGame` on an existing session with players `L`, whatever the name,
stores `L ++ [r]` with `r` the record of the joiner (its id, the name, number
`length L + 1`, role `"Player "` followed by that number), keeps host and
`gameState`, changes no other session, and replies `gameJoined` with that
number and name (never `gameNotFound`).  Joining "A", "B", "C" in this order
into a new session gives numbers 1, 2, 3 and roles "Player 1", "Player 2",
"Player 3" in list order. -/
theorem joinGame_appends (gameSessions : SessionMap) (socket : Socket)
    (gameCode playerName : String) (session : Session)
    (hsess : gameSessions.get gameCode = some session) :
    (onJoinGame gameSessions socket gameCode playerName).1.get gameCode
        = some { host := session.host,
                 players := session.players ++
                   [{ id := socket.id, name := playerName,
                      number := session.players.length + 1,
                      role := "Player " ++ toString (session.players.length + 1) }],
                 gameState := session.gameState } ∧
      (∀ other, other ≠ gameCode →
        (onJoinGame gameSessions socket gameCode playerName).1.get other
          = gameSessions.get other) ∧
      (onJoinGame gameSessions socket gameCode playerName).2.2
        = [(Target.socket socket.id,
              Msg.gameJoined gameCode (some ("player" ++ toString (session.players.length + 1)))
                (session.players.length + 1) playerName),
            (Target.room gameCode,
              Msg.playersUpdated (session.players ++
                [{ id := socket.id, name := playerName,
                   number := session.players.length + 1,
                   role := "Player " ++ toString (session.players.length + 1) }])),
            (Target.socket socket.id, Msg.syncGameState session.gameState)] ∧
      ∀ (m : SessionMap) (code : String) (h a b c : Socket), m.has code = false →
        ((onJoinGame
            (onJoinGame
              (onJoinGame (onCreateGame m h code).1 a code "A").1 b code "B").1
            c code "C").1.get code).map (fun s => s.players)
          = some [{ id := a.id, name := "A", number := 1, role := "Player 1" },
                  { id := b.id, name := "B", number := 2, role := "Player 2" },
                  { id := c.id, name := "C", number := 3, role := "Player 3" }] := by
  rw [onJoinGame_of_get_some gameSessions socket gameCode playerName session hsess]
  refine ⟨SessionMap.get_set_self _ _ _, ?_, rfl, ?_⟩
  · intro other hne
    exact SessionMap.get_set_ne _ _ _ _ hne
  · intro m code h a b c hnew
    have h0 : (onCreateGame m h code).1.get code
        = some { host := h.id, players := [], gameState := defaultGameState } := by
      simp [onCreateGame, hnew, SessionMap.get_set_self]
    have h1 := onJoinGame_get_self _ a code "A" _ h0
    have h2 := onJoinGame_get_self _ b code "B" _ h1
    have h3 := onJoinGame_get_self _ c code "C" _ h2
    have l1 : "Player " ++ toString (0 + 1) = "Player 1" := by decide
    have l2 : "Player " ++ toString (1 + 1) = "Player 2" := by decide
    have l3 : "Player " ++ toString (2 + 1) = "Player 3" := by decide
    rw [h3]
    simp only [Option.map_some', List.nil_append, List.length_nil, List.length_cons,
      List.length_append, List.cons_append, l1, l2, l3]

/-- C5 at a concrete session. -/
theorem joinGame_appends_witness :
    (onJoinGame
        [("ABCD", { host := "h",
                    players := [{ id := "a", name := "Alice", number := 1, role := "Player 1" }],
                    gameState := defaultGameState })]
        (Socket.fresh "b") "ABCD" "Alice").1.get "ABCD"
      = some { host := "h",
               players := [{ id := "a", name := "Alice", number := 1, role := "Player 1" },
                           { id := "b", name := "Alice", number := 2, role := "Player 2" }],
               gameState := defaultGameState } :=
  (joinGame_appends
    [("ABCD", { host := "h",
                players := [{ id := "a", name := "Alice", number := 1, role := "Player 1" }],
                gameState := defaultGameState })]
    (Socket.fresh "b") "ABCD" "Alice"
    { host := "h",
      players := [{ id := "a", name := "Alice", number := 1, role := "Player 1" }],
      gameState := defaultGameState }
    (by simp [SessionMap.get])).1

/-! ## Disconnect -/

/-- A socket tagged with a non-empty code of an existing session and a role
other than `host` leaves: its records are filtered out of that session's
players, with host, `gameState`, the other records and the other sessions as
they were, and the new list is broadcast to the room. -/
theorem onDisconnect_player (gameSessions : SessionMap) (socket : Socket) (code : String)
    (session : Session) (hcode : socket.gameCode = some code) (hne : code ≠ "")
    (hrole : socket.role ≠ some "host") (hsess : gameSessions.get code = some session) :
    (onDisconnect gameSessions socket).1.get code
        = some { host := session.host,
                 players := session.players.filter (fun p => p.id ≠ socket.id),
                 gameState := session.gameState } ∧
      (∀ other, other ≠ code →
        (onDisconnect gameSessions socket).1.get other = gameSessions.get other) ∧
      (onDisconnect gameSessions socket).2.2
        = [(Target.room code,
            Msg.playersUpdated (session.players.filter (fun p => p.id ≠ socket.id)))] := by
  have hrun : onDisconnect gameSessions socket
      = (gameSessions.set code
            { session with players := session.players.filter (fun p => p.id ≠ socket.id) },
          socket,
          [(Target.room code,
            Msg.playersUpdated (session.players.filter (fun p => p.id ≠ socket.id)))]) := by
    simp [onDisconnect, truthy, sessionOf_eq_some gameSessions socket code session hcode hsess,
      hcode, hne, hrole]
  rw [hrun]
  exact ⟨SessionMap.get_set_self _ _ _, fun other h => SessionMap.get_set_ne _ _ _ _ h, rfl⟩

/-- The socket tagged host of an existing session with a non-empty code leaves:
`hostDisconnected` goes to the room, the code is no longer a key, the other
sessions are as they were, and a later `joinGame` for the code replies
`gameNotFound`. -/
theorem onDisconnect_host (gameSessions : SessionMap) (socket : Socket) (code : String)
    (session : Session) (hcode : socket.gameCode = some code) (hne : code ≠ "")
    (hrole : socket.role = some "host") (hsess : gameSessions.get code = some session) :
    (onDisconnect gameSessions socket).1.get code = none ∧
      (∀ other, other ≠ code →
        (onDisconnect gameSessions socket).1.get other = gameSessions.get other) ∧
      (onDisconnect gameSessions socket).2.2 = [(Target.room code, Msg.hostDisconnected)] ∧
      ∀ (joiner : Socket) (playerName : String),
        (onJoinGame (onDisconnect gameSessions socket).1 joiner code playerName).2.2
          = [(Target.socket joiner.id, Msg.gameNotFound)] := by
  have hrun : onDisconnect gameSessions socket
      = (gameSessions.delete code, socket, [(Target.room code, Msg.hostDisconnected)]) := by
    simp [onDisconnect, truthy, sessionOf_eq_some gameSessions socket code session hcode hsess,
      hcode, hne, hrole]
  rw [hrun]
  refine ⟨SessionMap.get_delete_self _ _, fun other h => SessionMap.get_delete_ne _ _ _ h,
    rfl, ?_⟩
  intro joiner playerName
  simp [onJoinGame, SessionMap.get_delete_self]

/-- A socket whose code tag is the empty string is treated by `disconnect` as
untagged: nothing changes and nothing is emitted. -/
theorem onDisconnect_empty_code (gameSessions : SessionMap) (socket : Socket)
    (hcode : socket.gameCode = some "") :
    onDisconnect gameSessions socket = (gameSessions, socket, []) := by
  simp [onDisconnect, truthy, hcode]

/-- C7 at the empty code: after Alice, a player of the session created under
code `""`, has disconnected, her record is still in the players list and the
whole run has emitted no `playersUpdated` but the one of her joining. -/
theorem disconnect_player_empty_code_keeps_record :
    ((Server.init.run emptyCodePlayerLeaves).gameSessions.get "").map (fun s => s.players)
        = some [{ id := "a", name := "Alice", number := 1, role := "Player 1" }] ∧
      (Server.init.run emptyCodePlayerLeaves).sockets.map (fun s => s.id) = ["h"] ∧
      ((Server.init.run (emptyCodePlayerLeaves.take 4)).step (.disconnect "a")).2 = [] := by
  refine ⟨by decide, by decide, rfl⟩

/-- C8 at the empty code: after the host of the session created under code `""`
has disconnected, nothing was broadcast, the code is still a key, and Bob's
`joinGame` is answered `gameJoined`, not `gameNotFound`. -/
theorem disconnect_host_empty_code_keeps_session :
    ((Server.init.run (emptyCodeHostLeaves.take 2)).step (.disconnect "h")).2 = [] ∧
      (Server.init.run (emptyCodeHostLeaves.take 3)).gameSessions.has "" = true ∧
      (Server.init.run (emptyCodeHostLeaves.take 3)).sockets = [] ∧
      ((Server.init.run (emptyCodeHostLeaves.take 4)).step (.joinGame "b" "" "Bob")).2
        = [(Target.socket "b", Msg.gameJoined "" (some "player1") 1 "Bob"),
            (Target.room "",
              Msg.playersUpdated [{ id := "b", name := "Bob", number := 1, role := "Player 1" }]),
            (Target.socket "b", Msg.syncGameState defaultGameState)] := by
  refine ⟨rfl, by decide, by decide, rfl⟩

/-! ## Reachable states -/

theorem Server.step_of_socket_none (w : Server) (e : Event) (hmsg : e ≠ .connect e.sender)
    (hnone : w.socket? e.sender = none) : w.step e = (w, []) := by
  cases e <;> simp_all [Server.step, Event.sender]

theorem Server.step_of_message (w : Server) (e : Event) (s : Socket)
    (hmsg : e.isMessage = true) (hsome : w.socket? e.sender = some s) :
    w.step e = w.commit e.sender (handle w.gameSessions s e) := by
  cases e <;> simp_all [Server.step, Event.sender, Event.isMessage, handle]

theorem Server.step_disconnect (w : Server) (id : String) (s : Socket)
    (hsome : w.socket? id = some s) :
    w.step (.disconnect id)
      = ({ gameSessions := (onDisconnect w.gameSessions s).1
           sockets := w.sockets.filter (fun t => t.id ≠ id)
           closed := w.closed ++ [id] },
          (onDisconnect w.gameSessions s).2.2) := by
  simp [Server.step, hsome]

theorem Server.socket?_some (w : Server) (id : String) (s : Socket)
    (hsome : w.socket? id = some s) : s ∈ w.sockets ∧ s.id = id := by
  unfold Server.socket? at hsome
  refine ⟨List.mem_of_find?_eq_some hsome, ?_⟩
  simpa using List.find?_some hsome

theorem HostsKept.refl (m : SessionMap) : HostsKept m m :=
  fun _ session h => ⟨session, h, rfl⟩

theorem HostsKept.set_same_host (m : SessionMap) (code : String) (session v : Session)
    (hsess : m.get code = some session) (hhost : v.host = session.host) :
    HostsKept m (m.set code v) := by
  intro c x hx
  by_cases hc : c = code
  · subst hc
    rw [hsess] at hx
    cases hx
    exact ⟨v, SessionMap.get_set_self _ _ _, hhost⟩
  · exact ⟨x, by rw [SessionMap.get_set_ne _ _ _ _ hc]; exact hx, rfl⟩

theorem HostsKept.set_new (m : SessionMap) (code : String) (v : Session)
    (hnone : m.get code = none) : HostsKept m (m.set code v) := by
  intro c x hx
  have hc : c ≠ code := by
    intro h; subst h; rw [hnone] at hx; cases hx
  exact ⟨x, by rw [SessionMap.get_set_ne _ _ _ _ hc]; exact hx, rfl⟩

theorem handle_id (m : SessionMap) (s : Socket) (e : Event) : (handle m s e).2.1.id = s.id := by
  cases e <;> simp only [handle]
  · unfold onCreateGame; split <;> rfl
  · unfold onJoinGame; split <;> rfl
  · unfold onBuzzIn; split <;> [rfl; (split <;> rfl)]
  · unfold onHostAction; split <;> [rfl; (split <;> rfl)]
  · unfold onSyncState; split <;> [rfl; (split <;> rfl)]
  · unfold onPlayerWallAction; split <;> [rfl; (split <;> rfl)]
  · unfold onDisconnect; split <;> [(split <;> [rfl; (split <;> rfl)]); rfl]

theorem onSyncState_cases (m : SessionMap) (s : Socket) (P : JsValue) :
    onSyncState m s P = (m, s, []) ∨
      ∃ code session, s.gameCode = some code ∧ m.get code = some session ∧
        s.role = some "host" ∧
        onSyncState m s P
          = (m.set code { session with gameState := P }, s,
              [(Target.roomExcept code s.id, Msg.syncGameState P)]) := by
  unfold onSyncState
  cases hso : sessionOf m s with
  | none => exact Or.inl rfl
  | some cs =>
    obtain ⟨code, session⟩ := cs
    have hcs := (sessionOf_some_iff m s code session).1 hso
    by_cases hrole : s.role = some "host"
    · exact Or.inr ⟨code, session, hcs.1, hcs.2, hrole, by simp [hrole]⟩
    · exact Or.inl (by simp [hrole])

theorem onDisconnect_cases (m : SessionMap) (s : Socket) :
    onDisconnect m s = (m, s, []) ∨
      (∃ code session, s.gameCode = some code ∧ code ≠ "" ∧ m.get code = some session ∧
        s.role = some "host" ∧
        onDisconnect m s = (m.delete code, s, [(Target.room code, Msg.hostDisconnected)])) ∨
      ∃ code session, s.gameCode = some code ∧ code ≠ "" ∧ m.get code = some session ∧
        s.role ≠ some "host" ∧
        onDisconnect m s
          = (m.set code
                { session with players := session.players.filter (fun p => p.id ≠ s.id) },
              s,
              [(Target.room code,
                Msg.playersUpdated (session.players.filter (fun p => p.id ≠ s.id)))]) := by
  unfold onDisconnect
  by_cases ht : truthy s.gameCode = true
  · cases hso : sessionOf m s with
    | none => exact Or.inl (by simp [ht])
    | some cs =>
      obtain ⟨code, session⟩ := cs
      have hcs := (sessionOf_some_iff m s code session).1 hso
      have hne : code ≠ "" := by
        have := ht
        rw [hcs.1] at this
        simpa [truthy] using this
      by_cases hrole : s.role = some "host"
      · exact Or.inr (Or.inl ⟨code, session, hcs.1, hne, hcs.2, hrole, by simp [ht, hrole]⟩)
      · exact Or.inr (Or.inr ⟨code, session, hcs.1, hne, hcs.2, hrole, by simp [ht, hrole]⟩)
  · exact Or.inl (by simp [ht])

theorem handle_hostsKept (m : SessionMap) (s : Socket) (e : Event)
    (hmsg : e.isMessage = true) : HostsKept m (handle m s e).1 := by
  cases e with
  | connect id => exact HostsKept.refl m
  | createGame id gameCode =>
    simp only [handle, onCreateGame]
    cases hhas : m.has gameCode with
    | true => simpa using HostsKept.refl m
    | false =>
      simpa using HostsKept.set_new m gameCode _ ((SessionMap.has_eq_false_iff m gameCode).1 hhas)
  | joinGame id gameCode playerName =>
    simp only [handle]
    cases hsess : m.get gameCode with
    | none => simpa [onJoinGame, hsess] using HostsKept.refl m
    | some session =>
      rw [onJoinGame_of_get_some m s gameCode playerName session hsess]
      exact HostsKept.set_same_host m gameCode session _ hsess rfl
  | buzzIn id =>
    simp only [handle, onBuzzIn]
    split <;> [exact HostsKept.refl m; (split <;> exact HostsKept.refl m)]
  | hostAction id action =>
    simp only [handle, onHostAction]
    split <;> [exact HostsKept.refl m; (split <;> exact HostsKept.refl m)]
  | syncState id P =>
    simp only [handle]
    rcases onSyncState_cases m s P with h | ⟨code, session, _, hsess, _, h⟩
    · rw [h]; exact HostsKept.refl m
    · rw [h]; exact HostsKept.set_same_host m code session _ hsess rfl
  | playerWallAction id action =>
    simp only [handle, onPlayerWallAction]
    split <;> [exact HostsKept.refl m; (split <;> exact HostsKept.refl m)]
  | disconnect id => simp [Event.isMessage] at hmsg

theorem HostTagged.of_hostsKept (m m' : SessionMap) (s : Socket) (hkept : HostsKept m m')
    (htag : HostTagged m s) : HostTagged m' s := by
  intro hrole code hcode
  obtain ⟨session, hsess, hhost⟩ := htag hrole code hcode
  obtain ⟨session', hsess', hhost'⟩ := hkept code session hsess
  exact ⟨session', hsess', hhost'.trans hhost⟩

theorem handle_hostTagged (m : SessionMap) (s : Socket) (e : Event)
    (hmsg : e.isMessage = true) (htag : HostTagged m s) :
    HostTagged (handle m s e).1 (handle m s e).2.1 := by
  have hkept := handle_hostsKept m s e hmsg
  cases e with
  | connect id => exact htag
  | createGame id gameCode =>
    simp only [handle, onCreateGame] at hkept ⊢
    cases hhas : m.has gameCode with
    | true => simpa using htag
    | false =>
      simp only [Bool.false_eq_true, if_false]
      intro _ code hcode
      simp only [Option.some.injEq] at hcode
      subst hcode
      exact ⟨_, SessionMap.get_set_self _ _ _, rfl⟩
  | joinGame id gameCode playerName =>
    simp only [handle] at hkept ⊢
    cases hsess : m.get gameCode with
    | none => simpa [onJoinGame, hsess] using htag
    | some session =>
      rw [onJoinGame_of_get_some m s gameCode playerName session hsess]
      intro hrole
      simp only [Option.some.injEq] at hrole
      exact absurd hrole (playerRole_ne_host _)
  | buzzIn id =>
    have hs : (handle m s (.buzzIn id)).2.1 = s := by
      simp only [handle, onBuzzIn]; split <;> [rfl; (split <;> rfl)]
    rw [hs]; exact HostTagged.of_hostsKept _ _ _ hkept htag
  | hostAction id action =>
    have hs : (handle m s (.hostAction id action)).2.1 = s := by
      simp only [handle, onHostAction]; split <;> [rfl; (split <;> rfl)]
    rw [hs]; exact HostTagged.of_hostsKept _ _ _ hkept htag
  | syncState id P =>
    have hs : (handle m s (.syncState id P)).2.1 = s := by
      simp only [handle, onSyncState]; split <;> [rfl; (split <;> rfl)]
    rw [hs]; exact HostTagged.of_hostsKept _ _ _ hkept htag
  | playerWallAction id action =>
    have hs : (handle m s (.playerWallAction id action)).2.1 = s := by
      simp only [handle, onPlayerWallAction]; split <;> [rfl; (split <;> rfl)]
    rw [hs]; exact HostTagged.of_hostsKept _ _ _ hkept htag
  | disconnect id => simp [Event.isMessage] at hmsg

theorem commit_ids (sockets : List Socket) (id : String) (s' : Socket) (hid : s'.id = id) :
    (sockets.map (fun t => if t.id = id then s' else t)).map (fun s => s.id)
      = sockets.map (fun s => s.id) := by
  rw [List.map_map]
  apply List.map_congr_left
  intro t _
  by_cases h : t.id = id
  · simp [h, hid]
  · simp [h]

theorem mem_commit (sockets : List Socket) (id : String) (s' t : Socket)
    (hmem : t ∈ sockets.map (fun t => if t.id = id then s' else t)) :
    t = s' ∨ (t ∈ sockets ∧ t.id ≠ id) := by
  rw [List.mem_map] at hmem
  obtain ⟨u, hu, hut⟩ := hmem
  by_cases h : u.id = id
  · left; simpa [h] using hut.symm
  · right
    simp only [h, if_false] at hut
    subst hut
    exact ⟨hu, h⟩

theorem Server.Inv.init : Server.init.Inv := by
  refine ⟨by simp [Server.init], ?_⟩
  intro s hs
  simp [Server.init] at hs

theorem Server.Inv.step (w : Server) (e : Event) (hinv : w.Inv) : (w.step e).1.Inv := by
  obtain ⟨hnodup, htags⟩ := hinv
  by_cases hconn : e = .connect e.sender
  · -- a new socket
    rw [hconn]
    simp only [Server.step]
    split
    · exact ⟨hnodup, htags⟩
    · rename_i hfresh
      have hnew : e.sender ∉ w.sockets.map (fun s => s.id) := fun h => hfresh (Or.inl h)
      refine ⟨?_, ?_⟩
      · simp only [List.map_append, List.map_cons, List.map_nil]
        rw [List.nodup_append]
        refine ⟨hnodup, by simp, ?_⟩
        intro a ha hb
        simp only [List.mem_singleton] at hb
        subst hb
        exact hnew ha
      · intro s hs
        simp only [List.mem_append, List.mem_singleton] at hs
        rcases hs with hs | hs
        · exact htags s hs
        · subst hs
          intro hrole
          simp [Socket.fresh] at hrole
  · cases hso : w.socket? e.sender with
    | none =>
      rw [Server.step_of_socket_none w e hconn hso]
      exact ⟨hnodup, htags⟩
    | some s =>
      obtain ⟨hsmem, hsid⟩ := Server.socket?_some w e.sender s hso
      by_cases hmsg : e.isMessage = true
      · rw [Server.step_of_message w e s hmsg hso]
        have hid : (handle w.gameSessions s e).2.1.id = e.sender :=
          (handle_id w.gameSessions s e).trans hsid
        refine ⟨?_, ?_⟩
        · simp only [Server.commit]
          rw [commit_ids _ _ _ hid]
          exact hnodup
        · intro t ht
          simp only [Server.commit] at ht ⊢
          rcases mem_commit _ _ _ _ ht with ht | ⟨ht, _⟩
          · subst ht
            exact handle_hostTagged _ _ _ hmsg (htags s hsmem)
          · exact HostTagged.of_hostsKept _ _ _ (handle_hostsKept _ s e hmsg) (htags t ht)
      · -- disconnect
        have hdis : e = .disconnect e.sender := by
          cases e <;> simp_all [Event.isMessage, Event.sender]
        rw [hdis, Server.step_disconnect w e.sender s hso]
        refine ⟨?_, ?_⟩
        · exact List.Nodup.sublist
            (List.Sublist.map (fun s : Socket => s.id) (List.filter_sublist w.sockets)) hnodup
        · intro t ht
          simp only [List.mem_filter, decide_eq_true_eq] at ht
          obtain ⟨htmem, htid⟩ := ht
          have httag := htags t htmem
          rcases onDisconnect_cases w.gameSessions s with h | ⟨code, session, hcode, _, hsess, hrole, h⟩
              | ⟨code, session, _, _, hsess, _, h⟩
          · simp only [h]; exact httag
          · simp only [h]
            intro htrole c htcode
            obtain ⟨x, hx, hxhost⟩ := httag htrole c htcode
            by_cases hc : c = code
            · subst hc
              obtain ⟨y, hy, hyhost⟩ := htags s hsmem hrole c hcode
              rw [hx] at hy
              cases hy
              exact absurd (hxhost.symm.trans (hyhost.trans hsid)) htid
            · exact ⟨x, by rw [SessionMap.get_delete_ne _ _ _ hc]; exact hx, hxhost⟩
          · simp only [h]
            exact HostTagged.of_hostsKept _ _ _
              (HostsKept.set_same_host _ code session _ hsess rfl) httag

theorem Server.Inv.run (es : List Event) (w : Server) (hinv : w.Inv) : (w.run es).Inv := by
  induction es generalizing w with
  | nil => exact hinv
  | cons e es ih => exact ih _ (Server.Inv.step w e hinv)

/-- C1: in every state reached from the empty server, a `syncState` event from
socket `id` changes the stored `gameState` only of a session whose recorded
host is `id`, and every message it emits is a `syncGameState` to the room of
such a session, sender excepted.  A `syncState` handled for a socket whose role
is a player role, or whose code tag names no stored session, returns the
session map and the socket as they were and emits nothing. -/
theorem syncState_only_from_host (es : List Event) (id : String) (P : JsValue) :
    (∀ code before after,
        (Server.init.run es).gameSessions.get code = some before →
        ((Server.init.run es).step (.syncState id P)).1.gameSessions.get code = some after →
        after.gameState ≠ before.gameState → before.host = id) ∧
      (∀ e ∈ ((Server.init.run es).step (.syncState id P)).2,
        ∃ code session, e = (Target.roomExcept code id, Msg.syncGameState P) ∧
          (Server.init.run es).gameSessions.get code = some session ∧ session.host = id) ∧
      (∀ code, (((Server.init.run es).step (.syncState id P)).1.gameSessions.get code).isSome
          = ((Server.init.run es).gameSessions.get code).isSome) ∧
      ∀ (gameSessions : SessionMap) (socket : Socket),
        ((∃ n : Nat, socket.role = some ("player" ++ toString n)) ∨
            (∀ code, socket.gameCode = some code → gameSessions.get code = none)) →
          onSyncState gameSessions socket P = (gameSessions, socket, []) := by
  have hinv := Server.Inv.run es Server.init Server.Inv.init
  generalize Server.init.run es = w at hinv ⊢
  refine ⟨?_, ?_, ?_, ?_⟩
  · intro code before after hbefore hafter hne
    cases hso : w.socket? id with
    | none =>
      rw [Server.step_of_socket_none w (.syncState id P) (by simp) hso, hbefore] at hafter
      cases hafter
      exact absurd rfl hne
    | some s =>
      obtain ⟨hsmem, hsid⟩ := Server.socket?_some w id s hso
      rw [Server.step_of_message w (.syncState id P) s rfl hso] at hafter
      simp only [Server.commit, handle] at hafter
      rcases onSyncState_cases w.gameSessions s P with h | ⟨c, session, hcode, hsess, hrole, h⟩
      · rw [h, hbefore] at hafter
        cases hafter
        exact absurd rfl hne
      · rw [h] at hafter
        by_cases hc : code = c
        · subst hc
          obtain ⟨x, hx, hxhost⟩ := hinv.2 s hsmem hrole code hcode
          rw [hbefore] at hx
          cases hx
          exact hxhost.trans hsid
        · rw [SessionMap.get_set_ne _ _ _ _ hc, hbefore] at hafter
          cases hafter
          exact absurd rfl hne
  · intro e he
    cases hso : w.socket? id with
    | none =>
      rw [Server.step_of_socket_none w (.syncState id P) (by simp) hso] at he
      simp at he
    | some s =>
      obtain ⟨hsmem, hsid⟩ := Server.socket?_some w id s hso
      rw [Server.step_of_message w (.syncState id P) s rfl hso] at he
      simp only [Server.commit, handle] at he
      rcases onSyncState_cases w.gameSessions s P with h | ⟨c, session, hcode, hsess, hrole, h⟩
      · rw [h] at he; simp at he
      · rw [h] at he
        simp only [List.mem_singleton] at he
        obtain ⟨x, hx, hxhost⟩ := hinv.2 s hsmem hrole c hcode
        exact ⟨c, x, by rw [he, hsid], hx, hxhost.trans hsid⟩
  · intro code
    cases hso : w.socket? id with
    | none => rw [Server.step_of_socket_none w (.syncState id P) (by simp) hso]
    | some s =>
      rw [Server.step_of_message w (.syncState id P) s rfl hso]
      simp only [Server.commit, handle]
      rcases onSyncState_cases w.gameSessions s P with h | ⟨c, session, hcode, hsess, hrole, h⟩
      · rw [h]
      · rw [h]
        by_cases hc : code = c
        · subst hc; rw [SessionMap.get_set_self, hsess]; rfl
        · rw [SessionMap.get_set_ne _ _ _ _ hc]
  · intro gameSessions socket hcond
    rcases onSyncState_cases gameSessions socket P with h | ⟨c, session, hcode, hsess, hrole, h⟩
    · exact h
    · rcases hcond with ⟨n, hn⟩ | hnone
      · rw [hn] at hrole
        simp only [Option.some.injEq] at hrole
        exact absurd hrole (playerRole_ne_host n)
      · rw [hnone c hcode] at hsess
        cases hsess

/-- C1 at a concrete player socket. -/
theorem syncState_only_from_host_witness :
    onSyncState [("ABCD", { host := "h", players := [], gameState := defaultGameState })]
        { id := "a", gameCode := some "ABCD", role := some "player1",
          playerName := some "Alice", rooms := ["a", "ABCD"] }
        (JsValue.object [("score", JsValue.number 5)])
      = ([("ABCD", { host := "h", players := [], gameState := defaultGameState })],
          { id := "a", gameCode := some "ABCD", role := some "player1",
            playerName := some "Alice", rooms := ["a", "ABCD"] }, []) :=
  (syncState_only_from_host [] "a" (JsValue.object [("score", JsValue.number 5)])).2.2.2
    [("ABCD", { host := "h", players := [], gameState := defaultGameState })]
    { id := "a", gameCode := some "ABCD", role := some "player1",
      playerName := some "Alice", rooms := ["a", "ABCD"] }
    (Or.inl ⟨1, by decide⟩)

/-! ## Player numbers -/

/-- C6 fails: after Alice (1) and Bob (2) have joined, Alice has left and Carol
has joined, the players list holds Bob and Carol both with number 2, so the
numbers of a reachable players list need be neither distinct nor increasing;
and after Alice (1) has left an otherwise empty session, Bob joins with her
number 1. -/
theorem player_numbers_repeat_after_leave :
    ((Server.init.run carolAfterAlice).gameSessions.get "ABCD").map (fun s => s.players)
        = some [{ id := "b", name := "Bob", number := 2, role := "Player 2" },
                { id := "c", name := "Carol", number := 2, role := "Player 2" }] ∧
      ¬ (∀ (es : List Event) (code : String) (session : Session),
          (Server.init.run es).gameSessions.get code = some session →
            (session.players.map (fun p => p.number)).Nodup ∧
              (session.players.map (fun p => p.number)).Pairwise (fun x y => x < y)) ∧
      ((Server.init.run (bobAfterAlice.take 4)).gameSessions.get "ABCD").map (fun s => s.players)
        = some [{ id := "a", name := "Alice", number := 1, role := "Player 1" }] ∧
      ((Server.init.run bobAfterAlice).gameSessions.get "ABCD").map (fun s => s.players)
        = some [{ id := "b", name := "Bob", number := 1, role := "Player 1" }] := by
  refine ⟨by decide, ?_, by decide, by decide⟩
  intro hall
  have hget : (Server.init.run carolAfterAlice).gameSessions.get "ABCD"
      = some { host := "h",
               players := [{ id := "b", name := "Bob", number := 2, role := "Player 2" },
                           { id := "c", name := "Carol", number := 2, role := "Player 2" }],
               gameState := defaultGameState } := rfl
  have hnodup := (hall carolAfterAlice "ABCD" _ hget).1
  revert hnodup
  decide

/-! ## The stored snapshot -/

theorem syncState_accepted_emits (m : SessionMap) (s : Socket) (code : String)
    (session : Session) (P : JsValue) (hcode : s.gameCode = some code)
    (hrole : s.role = some "host") (hsess : m.get code = some session) :
    (onSyncState m s P).2.2 = [(Target.roomExcept code s.id, Msg.syncGameState P)] := by
  simp [onSyncState, sessionOf_eq_some m s code session hcode hsess, hrole]

theorem Server.step_snapshot (w : Server) (e : Event) (code : String) (current : JsValue)
    (hcur : ∀ session, w.gameSessions.get code = some session → session.gameState = current) :
    ∀ session, (w.step e).1.gameSessions.get code = some session →
      session.gameState
        = (match w.accepted code e with
            | some P => P
            | none => if w.creates code e then defaultGameState else current) := by
  by_cases hconn : e = .connect e.sender
  · rw [hconn]
    simp only [Server.step, Server.accepted, Server.creates]
    split <;> simpa using hcur
  · cases hso : w.socket? e.sender with
    | none =>
      rw [Server.step_of_socket_none w e hconn hso]
      have hacc : w.accepted code e = none := by
        cases e <;> simp_all [Server.accepted, Event.sender]
      have hcre : w.creates code e = false := by
        cases e <;> simp_all [Server.creates, Event.sender]
      simpa [hacc, hcre] using hcur
    | some s =>
      cases e with
      | connect id => exact absurd rfl hconn
      | createGame id gameCode =>
        simp only [Event.sender] at hso
        rw [Server.step_of_message w (.createGame id gameCode) s rfl hso]
        simp only [Server.commit, handle, Server.accepted, Server.creates, hso,
          Option.isSome_some, Bool.and_true]
        intro session hsession
        unfold onCreateGame at hsession
        by_cases hc : gameCode = code
        · subst hc
          cases hhas : w.gameSessions.has gameCode with
          | true =>
            simp only [hhas, if_true] at hsession
            simpa [hhas] using hcur session hsession
          | false =>
            simp only [hhas, Bool.false_eq_true, if_false, SessionMap.get_set_self,
              Option.some.injEq] at hsession
            subst hsession
            simp [hhas]
        · have hget : (if w.gameSessions.has gameCode = true then
                (w.gameSessions, s, [(Target.socket s.id, Msg.gameCodeExists)])
              else
                (w.gameSessions.set gameCode
                    { host := s.id, players := [], gameState := defaultGameState },
                  { s with
                    rooms := joinRoom s.rooms gameCode
                    gameCode := some gameCode
                    role := some "host" },
                  [(Target.socket s.id, Msg.gameCreated gameCode "host")])).1.get code
              = w.gameSessions.get code := by
            split
            · rfl
            · exact SessionMap.get_set_ne _ _ _ _ (fun h => hc h.symm)
          rw [hget] at hsession
          simpa [hc] using hcur session hsession
      | joinGame id gameCode playerName =>
        simp only [Event.sender] at hso
        rw [Server.step_of_message w (.joinGame id gameCode playerName) s rfl hso]
        simp only [Server.commit, handle, Server.accepted, Server.creates]
        intro session hsession
        cases hsess : w.gameSessions.get gameCode with
        | none =>
          simp only [onJoinGame, hsess] at hsession
          simpa using hcur session hsession
        | some old =>
          rw [onJoinGame_of_get_some _ s gameCode playerName old hsess] at hsession
          by_cases hc : code = gameCode
          · subst hc
            rw [SessionMap.get_set_self] at hsession
            cases hsession
            simpa using hcur old hsess
          · rw [SessionMap.get_set_ne _ _ _ _ hc] at hsession
            simpa using hcur session hsession
      | buzzIn id =>
        simp only [Event.sender] at hso
        rw [Server.step_of_message w (.buzzIn id) s rfl hso]
        have hm : (handle w.gameSessions s (.buzzIn id)).1 = w.gameSessions := by
          simp only [handle, onBuzzIn]; split <;> [rfl; (split <;> rfl)]
        simp only [Server.commit, hm, Server.accepted, Server.creates]
        simpa using hcur
      | hostAction id action =>
        simp only [Event.sender] at hso
        rw [Server.step_of_message w (.hostAction id action) s rfl hso]
        have hm : (handle w.gameSessions s (.hostAction id action)).1 = w.gameSessions := by
          simp only [handle, onHostAction]; split <;> [rfl; (split <;> rfl)]
        simp only [Server.commit, hm, Server.accepted, Server.creates]
        simpa using hcur
      | syncState id P =>
        simp only [Event.sender] at hso
        rw [Server.step_of_message w (.syncState id P) s rfl hso]
        simp only [Server.commit, handle, Server.accepted, Server.creates, hso]
        intro session hsession
        rcases onSyncState_cases w.gameSessions s P with h | ⟨c, old, hcode, hsess, hrole, h⟩
        · rw [h] at hsession
          have hnot : ¬ (s.role = some "host" ∧ s.gameCode = some code ∧
              w.gameSessions.has code = true) := by
            rintro ⟨hrole, hcode, _⟩
            have hrun : (onSyncState w.gameSessions s P).2.2
                = [(Target.roomExcept code s.id, Msg.syncGameState P)] :=
              (syncState_accepted_emits w.gameSessions s code session P hcode hrole hsession)
            rw [h] at hrun
            cases hrun
          simpa [hnot] using hcur session hsession
        · rw [h] at hsession
          by_cases hc : code = c
          · subst hc
            rw [SessionMap.get_set_self] at hsession
            cases hsession
            have hhas : w.gameSessions.has code = true := by
              simp [SessionMap.has, hsess]
            simp [hrole, hcode, hhas]
          · rw [SessionMap.get_set_ne _ _ _ _ hc] at hsession
            have hnot : ¬ (s.role = some "host" ∧ s.gameCode = some code ∧
                w.gameSessions.has code = true) := by
              rintro ⟨_, hcode', _⟩
              rw [hcode] at hcode'
              exact hc (Option.some.inj hcode').symm
            simpa [hnot] using hcur session hsession
      | playerWallAction id action =>
        simp only [Event.sender] at hso
        rw [Server.step_of_message w (.playerWallAction id action) s rfl hso]
        have hm : (handle w.gameSessions s (.playerWallAction id action)).1 = w.gameSessions := by
          simp only [handle, onPlayerWallAction]; split <;> [rfl; (split <;> rfl)]
        simp only [Server.commit, hm, Server.accepted, Server.creates]
        simpa using hcur
      | disconnect id =>
        simp only [Event.sender] at hso
        rw [Server.step_disconnect w id s hso]
        simp only [Server.accepted, Server.creates]
        intro session hsession
        rcases onDisconnect_cases w.gameSessions s with h | ⟨c, old, _, _, _, _, h⟩
            | ⟨c, old, _, _, hsess, _, h⟩
        · rw [h] at hsession
          simpa using hcur session hsession
        · rw [h] at hsession
          by_cases hc : code = c
          · subst hc
            rw [SessionMap.get_delete_self] at hsession
            cases hsession
          · rw [SessionMap.get_delete_ne _ _ _ hc] at hsession
            simpa using hcur session hsession
        · rw [h] at hsession
          by_cases hc : code = c
          · subst hc
            rw [SessionMap.get_set_self] at hsession
            cases hsession
            simpa using hcur old hsess
          · rw [SessionMap.get_set_ne _ _ _ _ hc] at hsession
            simpa using hcur session hsession

theorem Server.run_snapshot (es : List Event) (w : Server) (code : String) (current : JsValue)
    (hcur : ∀ session, w.gameSessions.get code = some session → session.gameState = current) :
    ∀ session, (w.run es).gameSessions.get code = some session →
      session.gameState = w.lastSnapshot code current es := by
  induction es generalizing w current with
  | nil => exact hcur
  | cons e es ih =>
    intro session hsession
    exact ih (w.step e).1 _ (Server.step_snapshot w e code current hcur) session hsession

/-- C9: after any sequence of events from the empty server, the `gameState`
stored for a session is the payload of the last `syncState` accepted from its
host since the session was created, or the default document when there was
none; a `syncState` accepted for the session comes from its recorded host and
counts with its own payload.  A `joinGame` into an existing session keeps its stored `gameState`, and
the only `syncGameState` it emits is addressed to the joiner alone and carries
that stored value. -/
theorem gameState_is_last_accepted_snapshot (es : List Event) (code : String)
    (session : Session)
    (hsession : (Server.init.run es).gameSessions.get code = some session) :
    session.gameState = Server.init.lastSnapshot code defaultGameState es ∧
      (∀ (id : String) (P Q : JsValue),
        (Server.init.run es).accepted code (.syncState id P) = some Q →
          Q = P ∧ session.host = id) ∧
      ∀ (m : SessionMap) (joiner : Socket) (gameCode playerName : String) (old : Session),
        m.get gameCode = some old →
          ((onJoinGame m joiner gameCode playerName).1.get gameCode).map (fun s => s.gameState)
              = some old.gameState ∧
            (Target.socket joiner.id, Msg.syncGameState old.gameState)
              ∈ (onJoinGame m joiner gameCode playerName).2.2 ∧
            ∀ t g, (t, Msg.syncGameState g) ∈ (onJoinGame m joiner gameCode playerName).2.2 →
              t = Target.socket joiner.id ∧ g = old.gameState := by
  refine ⟨Server.run_snapshot es Server.init code defaultGameState
    (by intro s hs; simp [Server.init, SessionMap.get] at hs) session hsession, ?_, ?_⟩
  · intro id P Q hacc
    have hinv := Server.Inv.run es Server.init Server.Inv.init
    generalize Server.init.run es = w at hinv hsession hacc
    simp only [Server.accepted] at hacc
    cases hso : w.socket? id with
    | none => simp [hso] at hacc
    | some s =>
      obtain ⟨hsmem, hsid⟩ := Server.socket?_some w id s hso
      simp only [hso] at hacc
      split at hacc
      · rename_i hcond
        obtain ⟨x, hx, hxhost⟩ := hinv.2 s hsmem hcond.1 code hcond.2.1
        rw [hsession] at hx
        cases hx
        exact ⟨(Option.some.inj hacc).symm, hxhost.trans hsid⟩
      · cases hacc
  intro m joiner gameCode playerName old hold
  rw [onJoinGame_of_get_some m joiner gameCode playerName old hold]
  refine ⟨by rw [SessionMap.get_set_self]; rfl, by simp, ?_⟩
  intro t g hmem
  simp only [List.mem_cons, Prod.mk.injEq, Msg.syncGameState.injEq, List.mem_singleton,
    List.not_mem_nil, or_false, reduceCtorEq, and_false, false_or] at hmem
  exact hmem

/-- C9 at the scenario of the specification: after the host's snapshot with
score 5 the stored `gameState` of `ABCD` is that snapshot. -/
theorem gameState_is_last_accepted_snapshot_witness :
    (Server.init.run scoreFive).gameSessions.get "ABCD"
        = some { host := "h",
                 players := [{ id := "a", name := "Alice", number := 1, role := "Player 1" },
                             { id := "b", name := "Bob", number := 2, role := "Player 2" }],
                 gameState := JsValue.object [("score", JsValue.number 5)] } ∧
      JsValue.object [("score", JsValue.number 5)]
        = Server.init.lastSnapshot "ABCD" defaultGameState scoreFive :=
  ⟨rfl,
    (gameState_is_last_accepted_snapshot scoreFive "ABCD"
      { host := "h",
        players := [{ id := "a", name := "Alice", number := 1, role := "Player 1" },
                    { id := "b", name := "Bob", number := 2, role := "Player 2" }],
        gameState := JsValue.object [("score", JsValue.number 5)] }
      rfl).1⟩

/-! ## What a handler does to the calling socket -/

theorem handle_socket_cases (m : SessionMap) (s : Socket) (e : Event) :
    (handle m s e).2.1 = s ∨
      (∃ code, m.get code = none ∧ e = .createGame e.sender code ∧
        (handle m s e).2.1
          = { id := s.id, gameCode := some code, role := some "host",
              playerName := s.playerName, rooms := joinRoom s.rooms code }) ∨
      ∃ code name session, m.get code = some session ∧ e = .joinGame e.sender code name ∧
        (handle m s e).2.1
          = { id := s.id, gameCode := some code,
              role := some (playerRole (session.players.length + 1)),
              playerName := some name, rooms := joinRoom s.rooms code } := by
  cases e with
  | connect id => exact Or.inl rfl
  | createGame id gameCode =>
    simp only [handle, onCreateGame]
    cases hhas : m.has gameCode with
    | true => exact Or.inl (by simp)
    | false =>
      exact Or.inr (Or.inl ⟨gameCode, (SessionMap.has_eq_false_iff m gameCode).1 hhas, rfl,
        by simp⟩)
  | joinGame id gameCode playerName =>
    simp only [handle]
    cases hsess : m.get gameCode with
    | none => exact Or.inl (by simp [onJoinGame, hsess])
    | some session =>
      rw [onJoinGame_of_get_some m s gameCode playerName session hsess]
      exact Or.inr (Or.inr ⟨gameCode, playerName, session, hsess, rfl, rfl⟩)
  | buzzIn id =>
    left; simp only [handle, onBuzzIn]; split <;> [rfl; (split <;> rfl)]
  | hostAction id action =>
    left; simp only [handle, onHostAction]; split <;> [rfl; (split <;> rfl)]
  | syncState id P =>
    left; simp only [handle, onSyncState]; split <;> [rfl; (split <;> rfl)]
  | playerWallAction id action =>
    left; simp only [handle, onPlayerWallAction]; split <;> [rfl; (split <;> rfl)]
  | disconnect id =>
    left; simp only [handle, onDisconnect]
    split <;> [(split <;> [rfl; (split <;> rfl)]); rfl]

theorem mem_joinRoom (rooms : List String) (code : String) : code ∈ joinRoom rooms code := by
  unfold joinRoom
  split <;> simp_all

theorem Server.forall_sockets_step (P : Socket → Prop) (hfresh : ∀ id, P (Socket.fresh id))
    (hhandle : ∀ m s e, P s → P (handle m s e).2.1) (w : Server) (e : Event)
    (hw : ∀ s ∈ w.sockets, P s) : ∀ s ∈ (w.step e).1.sockets, P s := by
  by_cases hconn : e = .connect e.sender
  · rw [hconn]
    simp only [Server.step]
    split
    · exact hw
    · intro s hs
      simp only [List.mem_append, List.mem_singleton] at hs
      rcases hs with hs | hs
      · exact hw s hs
      · subst hs; exact hfresh _
  · cases hso : w.socket? e.sender with
    | none => rw [Server.step_of_socket_none w e hconn hso]; exact hw
    | some s =>
      obtain ⟨hsmem, _⟩ := Server.socket?_some w e.sender s hso
      by_cases hmsg : e.isMessage = true
      · rw [Server.step_of_message w e s hmsg hso]
        intro t ht
        simp only [Server.commit] at ht
        rcases mem_commit _ _ _ _ ht with ht | ⟨ht, _⟩
        · subst ht; exact hhandle _ _ _ (hw s hsmem)
        · exact hw t ht
      · have hdis : e = .disconnect e.sender := by
          cases e <;> simp_all [Event.isMessage, Event.sender]
        rw [hdis, Server.step_disconnect w e.sender s hso]
        intro t ht
        simp only [List.mem_filter] at ht
        exact hw t ht.1

theorem Server.forall_sockets_run (P : Socket → Prop) (hfresh : ∀ id, P (Socket.fresh id))
    (hhandle : ∀ m s e, P s → P (handle m s e).2.1) (es : List Event) (w : Server)
    (hw : ∀ s ∈ w.sockets, P s) : ∀ s ∈ (w.run es).sockets, P s := by
  induction es generalizing w with
  | nil => exact hw
  | cons e es ih => exact ih _ (Server.forall_sockets_step P hfresh hhandle w e hw)

theorem Server.inRoom_run (es : List Event) :
    ∀ s ∈ (Server.init.run es).sockets, s.InRoom := by
  refine Server.forall_sockets_run Socket.InRoom ?_ ?_ es Server.init ?_
  · intro id code h
    simp [Socket.fresh] at h
  · intro m s e hs
    rcases handle_socket_cases m s e with h | ⟨code, _, _, h⟩ | ⟨code, name, session, _, _, h⟩
    · rw [h]; exact hs
    · rw [h]; intro c hc
      simp only [Option.some.injEq] at hc
      subst hc; exact mem_joinRoom _ _
    · rw [h]; intro c hc
      simp only [Option.some.injEq] at hc
      subst hc; exact mem_joinRoom _ _
  · intro s hs
    simp [Server.init] at hs

theorem Server.named_run (es : List Event) :
    ∀ s ∈ (Server.init.run es).sockets, s.Named := by
  refine Server.forall_sockets_run Socket.Named ?_ ?_ es Server.init ?_
  · intro id h
    simp [Socket.fresh] at h
  · intro m s e hs
    rcases handle_socket_cases m s e with h | ⟨code, _, _, h⟩ | ⟨code, name, session, _, _, h⟩
    · rw [h]; exact hs
    · rw [h]; intro _ hrole
      exact absurd rfl hrole
    · rw [h]; intro _ _
      simp
  · intro s hs
    simp [Server.init] at hs

/-! ## The event paths -/

theorem Server.step_message_sessions (w : Server) (e : Event) (hmsg : e.isMessage = true)
    (hkeep : ∀ s, (handle w.gameSessions s e).1 = w.gameSessions) :
    (w.step e).1.gameSessions = w.gameSessions := by
  cases hso : w.socket? e.sender with
  | none =>
    rw [Server.step_of_socket_none w e (by cases e <;> simp_all [Event.isMessage]) hso]
  | some s =>
    rw [Server.step_of_message w e s hmsg hso]
    exact hkeep s

/-- C12: `hostAction` returns the session map and the socket as they were; for
a socket tagged `host` of a code that is a key it emits the single message
`gameAction` with the given payload to the room of that code, and in every
other case it emits nothing.  In every state reached from the empty server the
step leaves the session map as it was, and a message to the room of a code is
delivered to every connected socket tagged with that code, the sender
included. -/
theorem hostAction_broadcast (es : List Event) (id : String) (a : JsValue) :
    (∀ (m : SessionMap) (s : Socket),
        (onHostAction m s a).1 = m ∧ (onHostAction m s a).2.1 = s) ∧
      (∀ (m : SessionMap) (s : Socket) (code : String) (session : Session),
        s.role = some "host" → s.gameCode = some code → m.get code = some session →
          (onHostAction m s a).2.2 = [(Target.room code, Msg.gameAction a)]) ∧
      (∀ (m : SessionMap) (s : Socket),
        ¬ (s.role = some "host" ∧
            ∃ code session, s.gameCode = some code ∧ m.get code = some session) →
          (onHostAction m s a).2.2 = []) ∧
      ((Server.init.run es).step (.hostAction id a)).1.gameSessions
        = (Server.init.run es).gameSessions ∧
      ∀ s ∈ (Server.init.run es).sockets, ∀ code, s.gameCode = some code →
        (Target.room code).delivers s = true := by
  have hkeep : ∀ (m : SessionMap) (s : Socket),
      (onHostAction m s a).1 = m ∧ (onHostAction m s a).2.1 = s := by
    intro m s
    unfold onHostAction
    split <;> [exact ⟨rfl, rfl⟩; (split <;> exact ⟨rfl, rfl⟩)]
  refine ⟨hkeep, ?_, ?_, ?_, ?_⟩
  · intro m s code session hrole hcode hsess
    simp [onHostAction, sessionOf_eq_some m s code session hcode hsess, hrole]
  · intro m s hnot
    unfold onHostAction
    cases hso : sessionOf m s with
    | none => rfl
    | some cs =>
      obtain ⟨code, session⟩ := cs
      have hcs := (sessionOf_some_iff m s code session).1 hso
      have hrole : s.role ≠ some "host" := fun h => hnot ⟨h, code, session, hcs.1, hcs.2⟩
      simp [hrole]
  · exact Server.step_message_sessions _ (.hostAction id a) rfl (fun s => (hkeep _ s).1)
  · intro s hs code hcode
    simpa [Target.delivers] using Server.inRoom_run es s hs code hcode

/-- C12 at a concrete host socket. -/
theorem hostAction_broadcast_witness :
    (onHostAction [("ABCD", { host := "h", players := [], gameState := defaultGameState })]
        { id := "h", gameCode := some "ABCD", role := some "host", playerName := none,
          rooms := ["h", "ABCD"] }
        (JsValue.string "next")).2.2
      = [(Target.room "ABCD", Msg.gameAction (JsValue.string "next"))] :=
  (hostAction_broadcast [] "h" (JsValue.string "next")).2.1
    [("ABCD", { host := "h", players := [], gameState := defaultGameState })]
    { id := "h", gameCode := some "ABCD", role := some "host", playerName := none,
      rooms := ["h", "ABCD"] }
    "ABCD" { host := "h", players := [], gameState := defaultGameState } rfl rfl
    (by simp [SessionMap.get])

/-- C13: `playerWallAction` returns the session map and the socket as they
were; for a socket whose code tag is a key and whose role is not `host` it
emits the single message `wallAction` with the sender's id, the sender's
player name and the given payload to the room of that code; for a socket
tagged `host`, or whose code tag names no stored session, it emits nothing.
In every state reached from the empty server the step leaves the session map
as it was, and a message to the room of a code is delivered to every connected
socket tagged with that code. -/
theorem playerWallAction_broadcast (es : List Event) (id : String) (a : JsValue) :
    (∀ (m : SessionMap) (s : Socket),
        (onPlayerWallAction m s a).1 = m ∧ (onPlayerWallAction m s a).2.1 = s) ∧
      (∀ (m : SessionMap) (s : Socket) (code : String) (session : Session),
        s.role ≠ some "host" → s.gameCode = some code → m.get code = some session →
          (onPlayerWallAction m s a).2.2
            = [(Target.room code, Msg.wallAction s.id s.playerName a)]) ∧
      (∀ (m : SessionMap) (s : Socket),
        (s.role = some "host" ∨ ∀ code, s.gameCode = some code → m.get code = none) →
          (onPlayerWallAction m s a).2.2 = []) ∧
      ((Server.init.run es).step (.playerWallAction id a)).1.gameSessions
        = (Server.init.run es).gameSessions ∧
      ∀ s ∈ (Server.init.run es).sockets, ∀ code, s.gameCode = some code →
        (Target.room code).delivers s = true := by
  have hkeep : ∀ (m : SessionMap) (s : Socket),
      (onPlayerWallAction m s a).1 = m ∧ (onPlayerWallAction m s a).2.1 = s := by
    intro m s
    unfold onPlayerWallAction
    split <;> [exact ⟨rfl, rfl⟩; (split <;> exact ⟨rfl, rfl⟩)]
  refine ⟨hkeep, ?_, ?_, ?_, ?_⟩
  · intro m s code session hrole hcode hsess
    simp [onPlayerWallAction, sessionOf_eq_some m s code session hcode hsess, hrole]
  · intro m s hcond
    unfold onPlayerWallAction
    cases hso : sessionOf m s with
    | none => rfl
    | some cs =>
      obtain ⟨code, session⟩ := cs
      have hcs := (sessionOf_some_iff m s code session).1 hso
      rcases hcond with hrole | hnone
      · simp [hrole]
      · rw [hnone code hcs.1] at hcs
        exact absurd hcs.2 (by simp)
  · exact Server.step_message_sessions _ (.playerWallAction id a) rfl (fun s => (hkeep _ s).1)
  · intro s hs code hcode
    simpa [Target.delivers] using Server.inRoom_run es s hs code hcode

/-- C13 at a concrete player socket. -/
theorem playerWallAction_broadcast_witness :
    (onPlayerWallAction
        [("ABCD", { host := "h", players := [], gameState := defaultGameState })]
        { id := "a", gameCode := some "ABCD", role := some "player1",
          playerName := some "Alice", rooms := ["a", "ABCD"] }
        (JsValue.string "tile")).2.2
      = [(Target.room "ABCD", Msg.wallAction "a" (some "Alice") (JsValue.string "tile"))] :=
  (playerWallAction_broadcast [] "a" (JsValue.string "tile")).2.1
    [("ABCD", { host := "h", players := [], gameState := defaultGameState })]
    { id := "a", gameCode := some "ABCD", role := some "player1",
      playerName := some "Alice", rooms := ["a", "ABCD"] }
    "ABCD" { host := "h", players := [], gameState := defaultGameState } (by decide) rfl
    (by simp [SessionMap.get])

/-! ## Frame of one event -/

theorem onBuzzIn_cases (m : SessionMap) (s : Socket) :
    onBuzzIn m s = (m, s, []) ∨
      ∃ code session, s.gameCode = some code ∧ m.get code = some session ∧
        s.role ≠ some "host" ∧
        onBuzzIn m s = (m, s, [(Target.room code, Msg.playerBuzzed s.playerName s.id)]) := by
  unfold onBuzzIn
  cases hso : sessionOf m s with
  | none => exact Or.inl rfl
  | some cs =>
    obtain ⟨code, session⟩ := cs
    have hcs := (sessionOf_some_iff m s code session).1 hso
    by_cases hrole : s.role = some "host"
    · exact Or.inl (by simp [hrole])
    · exact Or.inr ⟨code, session, hcs.1, hcs.2, hrole, by simp [hrole]⟩

theorem onPlayerWallAction_cases (m : SessionMap) (s : Socket) (a : JsValue) :
    onPlayerWallAction m s a = (m, s, []) ∨
      ∃ code session, s.gameCode = some code ∧ m.get code = some session ∧
        s.role ≠ some "host" ∧
        onPlayerWallAction m s a
          = (m, s, [(Target.room code, Msg.wallAction s.id s.playerName a)]) := by
  unfold onPlayerWallAction
  cases hso : sessionOf m s with
  | none => exact Or.inl rfl
  | some cs =>
    obtain ⟨code, session⟩ := cs
    have hcs := (sessionOf_some_iff m s code session).1 hso
    by_cases hrole : s.role = some "host"
    · exact Or.inl (by simp [hrole])
    · exact Or.inr ⟨code, session, hcs.1, hcs.2, hrole, by simp [hrole]⟩

theorem onHostAction_cases (m : SessionMap) (s : Socket) (a : JsValue) :
    onHostAction m s a = (m, s, []) ∨
      ∃ code session, s.gameCode = some code ∧ m.get code = some session ∧
        s.role = some "host" ∧
        onHostAction m s a = (m, s, [(Target.room code, Msg.gameAction a)]) := by
  unfold onHostAction
  cases hso : sessionOf m s with
  | none => exact Or.inl rfl
  | some cs =>
    obtain ⟨code, session⟩ := cs
    have hcs := (sessionOf_some_iff m s code session).1 hso
    by_cases hrole : s.role = some "host"
    · exact Or.inr ⟨code, session, hcs.1, hcs.2, hrole, by simp [hrole]⟩
    · exact Or.inl (by simp [hrole])

theorem onCreateGame_cases (m : SessionMap) (s : Socket) (gameCode : String) :
    (m.get gameCode ≠ none ∧
        onCreateGame m s gameCode = (m, s, [(Target.socket s.id, Msg.gameCodeExists)])) ∨
      (m.get gameCode = none ∧
        onCreateGame m s gameCode
          = (m.set gameCode { host := s.id, players := [], gameState := defaultGameState },
              { id := s.id, gameCode := some gameCode, role := some "host",
                playerName := s.playerName, rooms := joinRoom s.rooms gameCode },
              [(Target.socket s.id, Msg.gameCreated gameCode "host")])) := by
  unfold onCreateGame
  cases hhas : m.has gameCode with
  | true =>
    left
    refine ⟨?_, by simp⟩
    intro hnone
    rw [← SessionMap.has_eq_false_iff, hhas] at hnone
    cases hnone
  | false =>
    right
    exact ⟨(SessionMap.has_eq_false_iff m gameCode).1 hhas, by simp⟩

theorem onJoinGame_of_get_none (m : SessionMap) (s : Socket) (gameCode playerName : String)
    (hnone : m.get gameCode = none) :
    onJoinGame m s gameCode playerName = (m, s, [(Target.socket s.id, Msg.gameNotFound)]) := by
  simp [onJoinGame, hnone]

theorem handle_get_other (m : SessionMap) (s : Socket) (e : Event) (other : String)
    (hother : s.eventCode e ≠ some other) : (handle m s e).1.get other = m.get other := by
  cases e with
  | connect id => rfl
  | createGame id gameCode =>
    have hne : other ≠ gameCode := fun h => hother (by simp [Socket.eventCode, h])
    simp only [handle]
    rcases onCreateGame_cases m s gameCode with ⟨_, h⟩ | ⟨_, h⟩
    · rw [h]
    · rw [h]; exact SessionMap.get_set_ne _ _ _ _ hne
  | joinGame id gameCode playerName =>
    have hne : other ≠ gameCode := fun h => hother (by simp [Socket.eventCode, h])
    simp only [handle]
    cases hsess : m.get gameCode with
    | none => rw [onJoinGame_of_get_none m s gameCode playerName hsess]
    | some session =>
      rw [onJoinGame_of_get_some m s gameCode playerName session hsess]
      exact SessionMap.get_set_ne _ _ _ _ hne
  | buzzIn id =>
    simp only [handle]
    rcases onBuzzIn_cases m s with h | ⟨_, _, _, _, _, h⟩ <;> rw [h]
  | hostAction id action =>
    simp only [handle]
    rcases onHostAction_cases m s action with h | ⟨_, _, _, _, _, h⟩ <;> rw [h]
  | syncState id P =>
    simp only [handle]
    rcases onSyncState_cases m s P with h | ⟨c, session, hcode, _, _, h⟩
    · rw [h]
    · rw [h]
      have hne : other ≠ c := fun hc => hother (by simp [Socket.eventCode, hcode, hc])
      exact SessionMap.get_set_ne _ _ _ _ hne
  | playerWallAction id action =>
    simp only [handle]
    rcases onPlayerWallAction_cases m s action with h | ⟨_, _, _, _, _, h⟩ <;> rw [h]
  | disconnect id =>
    simp only [handle]
    rcases onDisconnect_cases m s with h | ⟨c, session, hcode, _, _, _, h⟩
        | ⟨c, session, hcode, _, _, _, h⟩
    · rw [h]
    · rw [h]
      have hne : other ≠ c := fun hc => hother (by simp [Socket.eventCode, hcode, hc])
      exact SessionMap.get_delete_ne _ _ _ hne
    · rw [h]
      have hne : other ≠ c := fun hc => hother (by simp [Socket.eventCode, hcode, hc])
      exact SessionMap.get_set_ne _ _ _ _ hne

theorem handle_targets (m : SessionMap) (s : Socket) (e : Event) :
    ∀ em ∈ (handle m s e).2.2,
      em.1 = Target.socket s.id ∨
        ∃ code, s.eventCode e = some code ∧
          (em.1 = Target.room code ∨ em.1 = Target.roomExcept code s.id) := by
  intro em hem
  cases e with
  | connect id => simp [handle] at hem
  | createGame id gameCode =>
    simp only [handle] at hem
    rcases onCreateGame_cases m s gameCode with ⟨_, h⟩ | ⟨_, h⟩ <;>
      · rw [h] at hem
        simp only [List.mem_singleton] at hem
        subst hem
        exact Or.inl rfl
  | joinGame id gameCode playerName =>
    simp only [handle] at hem
    cases hsess : m.get gameCode with
    | none =>
      rw [onJoinGame_of_get_none m s gameCode playerName hsess] at hem
      simp only [List.mem_singleton] at hem
      subst hem
      exact Or.inl rfl
    | some session =>
      rw [onJoinGame_of_get_some m s gameCode playerName session hsess] at hem
      simp only [List.mem_cons, List.mem_singleton, List.not_mem_nil, or_false] at hem
      rcases hem with hem | hem | hem
      · subst hem; exact Or.inl rfl
      · subst hem; exact Or.inr ⟨gameCode, rfl, Or.inl rfl⟩
      · subst hem; exact Or.inl rfl
  | buzzIn id =>
    simp only [handle] at hem
    rcases onBuzzIn_cases m s with h | ⟨c, _, hcode, _, _, h⟩
    · rw [h] at hem; simp at hem
    · rw [h] at hem
      simp only [List.mem_singleton] at hem
      subst hem
      exact Or.inr ⟨c, hcode, Or.inl rfl⟩
  | hostAction id action =>
    simp only [handle] at hem
    rcases onHostAction_cases m s action with h | ⟨c, _, hcode, _, _, h⟩
    · rw [h] at hem; simp at hem
    · rw [h] at hem
      simp only [List.mem_singleton] at hem
      subst hem
      exact Or.inr ⟨c, hcode, Or.inl rfl⟩
  | syncState id P =>
    simp only [handle] at hem
    rcases onSyncState_cases m s P with h | ⟨c, _, hcode, _, _, h⟩
    · rw [h] at hem; simp at hem
    · rw [h] at hem
      simp only [List.mem_singleton] at hem
      subst hem
      exact Or.inr ⟨c, hcode, Or.inr rfl⟩
  | playerWallAction id action =>
    simp only [handle] at hem
    rcases onPlayerWallAction_cases m s action with h | ⟨c, _, hcode, _, _, h⟩
    · rw [h] at hem; simp at hem
    · rw [h] at hem
      simp only [List.mem_singleton] at hem
      subst hem
      exact Or.inr ⟨c, hcode, Or.inl rfl⟩
  | disconnect id =>
    simp only [handle] at hem
    rcases onDisconnect_cases m s with h | ⟨c, _, hcode, _, _, _, h⟩ | ⟨c, _, hcode, _, _, _, h⟩
    · rw [h] at hem; simp at hem
    · rw [h] at hem
      simp only [List.mem_singleton] at hem
      subst hem
      exact Or.inr ⟨c, hcode, Or.inl rfl⟩
    · rw [h] at hem
      simp only [List.mem_singleton] at hem
      subst hem
      exact Or.inr ⟨c, hcode, Or.inl rfl⟩

theorem Server.step_sessions_cases (w : Server) (e : Event) :
    ((w.step e).1.gameSessions = w.gameSessions ∧ (w.step e).2 = []) ∨
      ∃ s, w.socket? e.sender = some s ∧ e ≠ .connect e.sender ∧
        (w.step e).1.gameSessions = (handle w.gameSessions s e).1 ∧
        (w.step e).2 = (handle w.gameSessions s e).2.2 := by
  by_cases hconn : e = .connect e.sender
  · left
    rw [hconn]
    simp only [Server.step]
    split <;> exact ⟨rfl, rfl⟩
  · cases hso : w.socket? e.sender with
    | none =>
      left
      rw [Server.step_of_socket_none w e hconn hso]
      exact ⟨rfl, rfl⟩
    | some s =>
      right
      refine ⟨s, rfl, hconn, ?_⟩
      by_cases hmsg : e.isMessage = true
      · rw [Server.step_of_message w e s hmsg hso]
        exact ⟨rfl, rfl⟩
      · have hdis : e = .disconnect e.sender := by
          cases e <;> simp_all [Event.isMessage, Event.sender]
        generalize e.sender = id at hdis hso
        subst hdis
        rw [Server.step_disconnect w id s hso]
        exact ⟨rfl, rfl⟩

theorem Server.eventCode_of_socket (w : Server) (e : Event) (s : Socket)
    (hso : w.socket? e.sender = some s) : w.eventCode e = s.eventCode e := by
  cases e <;> simp_all [Server.eventCode, Socket.eventCode, Event.sender]

theorem handle_host_fixed (m : SessionMap) (s : Socket) (e : Event) (code : String)
    (after : Session) (hafter : (handle m s e).1.get code = some after) :
    (∀ before, m.get code = some before → after.host = before.host) ∧
      (m.get code = none → e = .createGame e.sender code ∧ after.host = s.id) := by
  by_cases hother : s.eventCode e = some code
  · cases e with
    | connect id => simp [Socket.eventCode] at hother
    | createGame id gameCode =>
      simp only [Socket.eventCode, Option.some.injEq] at hother
      subst hother
      simp only [handle] at hafter
      rcases onCreateGame_cases m s gameCode with ⟨hex, h⟩ | ⟨hnone, h⟩
      · rw [h] at hafter
        refine ⟨?_, fun hn => absurd hn hex⟩
        intro before hb
        rw [hafter] at hb
        cases hb; rfl
      · rw [h, SessionMap.get_set_self] at hafter
        cases hafter
        refine ⟨?_, fun _ => ⟨rfl, rfl⟩⟩
        intro before hb
        rw [hnone] at hb
        cases hb
    | joinGame id gameCode playerName =>
      simp only [Socket.eventCode, Option.some.injEq] at hother
      subst hother
      simp only [handle] at hafter
      cases hsess : m.get gameCode with
      | none =>
        rw [onJoinGame_of_get_none m s gameCode playerName hsess, hsess] at hafter
        cases hafter
      | some session =>
        rw [onJoinGame_of_get_some m s gameCode playerName session hsess,
          SessionMap.get_set_self] at hafter
        cases hafter
        refine ⟨?_, fun hn => by cases hn⟩
        intro before hb
        cases hb; rfl
    | buzzIn id =>
      simp only [handle] at hafter
      have hm : (onBuzzIn m s).1 = m := by
        rcases onBuzzIn_cases m s with h | ⟨_, _, _, _, _, h⟩ <;> rw [h]
      rw [hm] at hafter
      exact ⟨fun before hb => by rw [hafter] at hb; cases hb; rfl,
        fun hn => by rw [hn] at hafter; cases hafter⟩
    | hostAction id action =>
      simp only [handle] at hafter
      have hm : (onHostAction m s action).1 = m := by
        rcases onHostAction_cases m s action with h | ⟨_, _, _, _, _, h⟩ <;> rw [h]
      rw [hm] at hafter
      exact ⟨fun before hb => by rw [hafter] at hb; cases hb; rfl,
        fun hn => by rw [hn] at hafter; cases hafter⟩
    | syncState id P =>
      simp only [handle] at hafter
      rcases onSyncState_cases m s P with h | ⟨c, session, hcode, hsess, _, h⟩
      · rw [h] at hafter
        exact ⟨fun before hb => by rw [hafter] at hb; cases hb; rfl,
          fun hn => by rw [hn] at hafter; cases hafter⟩
      · simp only [Socket.eventCode, hcode, Option.some.injEq] at hother
        subst hother
        rw [h, SessionMap.get_set_self] at hafter
        cases hafter
        exact ⟨fun before hb => by rw [hsess] at hb; cases hb; rfl,
          fun hn => by rw [hn] at hsess; cases hsess⟩
    | playerWallAction id action =>
      simp only [handle] at hafter
      have hm : (onPlayerWallAction m s action).1 = m := by
        rcases onPlayerWallAction_cases m s action with h | ⟨_, _, _, _, _, h⟩ <;> rw [h]
      rw [hm] at hafter
      exact ⟨fun before hb => by rw [hafter] at hb; cases hb; rfl,
        fun hn => by rw [hn] at hafter; cases hafter⟩
    | disconnect id =>
      simp only [handle] at hafter
      rcases onDisconnect_cases m s with h | ⟨c, session, hcode, _, hsess, _, h⟩
          | ⟨c, session, hcode, _, hsess, _, h⟩
      · rw [h] at hafter
        exact ⟨fun before hb => by rw [hafter] at hb; cases hb; rfl,
          fun hn => by rw [hn] at hafter; cases hafter⟩
      · simp only [Socket.eventCode, hcode, Option.some.injEq] at hother
        subst hother
        rw [h, SessionMap.get_delete_self] at hafter
        cases hafter
      · simp only [Socket.eventCode, hcode, Option.some.injEq] at hother
        subst hother
        rw [h, SessionMap.get_set_self] at hafter
        cases hafter
        exact ⟨fun before hb => by rw [hsess] at hb; cases hb; rfl,
          fun hn => by rw [hn] at hsess; cases hsess⟩
  · rw [handle_get_other m s e code hother] at hafter
    exact ⟨fun before hb => by rw [hafter] at hb; cases hb; rfl,
      fun hn => by rw [hn] at hafter; cases hafter⟩

/-- C17: whatever the state and the event, a session stored under a code both
before and after the event has the same `host` field after as before; and a
session stored under a code only after the event was put there by a
`createGame` for that code, with the sender as `host`. -/
theorem host_field_fixed (w : Server) (e : Event) (code : String) (after : Session)
    (hafter : (w.step e).1.gameSessions.get code = some after) :
    (∀ before, w.gameSessions.get code = some before → after.host = before.host) ∧
      (w.gameSessions.get code = none → e = .createGame after.host code) := by
  rcases Server.step_sessions_cases w e with ⟨hm, _⟩ | ⟨s, hso, _, hm, _⟩
  · rw [hm] at hafter
    exact ⟨fun before hb => by rw [hafter] at hb; cases hb; rfl,
      fun hn => by rw [hn] at hafter; cases hafter⟩
  · rw [hm] at hafter
    obtain ⟨hkeep, hnew⟩ := handle_host_fixed w.gameSessions s e code after hafter
    refine ⟨hkeep, ?_⟩
    intro hn
    obtain ⟨he, hhost⟩ := hnew hn
    rw [hhost, (Server.socket?_some w e.sender s hso).2]
    exact he

/-- C17 at the run in which Alice joins `ABCD`: the host stays `h`. -/
theorem host_field_fixed_witness :
    ((Server.init.run (carolAfterAlice.take 3)).step
          (.joinGame "a" "ABCD" "Alice")).1.gameSessions.get "ABCD"
        = some { host := "h",
                 players := [{ id := "a", name := "Alice", number := 1, role := "Player 1" }],
                 gameState := defaultGameState } ∧
      (Server.init.run (carolAfterAlice.take 3)).gameSessions.get "ABCD"
        = some { host := "h", players := [], gameState := defaultGameState } ∧
      Session.host
          { host := "h",
            players := [{ id := "a", name := "Alice", number := 1, role := "Player 1" }],
            gameState := defaultGameState }
        = Session.host { host := "h", players := [], gameState := defaultGameState } :=
  ⟨rfl, rfl,
    (host_field_fixed (Server.init.run (carolAfterAlice.take 3))
      (.joinGame "a" "ABCD" "Alice") "ABCD"
      { host := "h",
        players := [{ id := "a", name := "Alice", number := 1, role := "Player 1" }],
        gameState := defaultGameState }
      rfl).1 { host := "h", players := [], gameState := defaultGameState } rfl⟩

/-- One event of the server, whatever the state: every session stored under a
code other than the code the event is about (the code argument of `createGame`
and `joinGame`, the sender's code tag otherwise) is the same after the event as
before, present or absent alike; and every message the event emits is
addressed to the sender alone, to the room of that code, or to the room of
that code except the sender. -/
theorem step_touches_one_session (w : Server) (e : Event) :
    (∀ other, w.eventCode e ≠ some other →
        (w.step e).1.gameSessions.get other = w.gameSessions.get other) ∧
      ∀ em ∈ (w.step e).2,
        em.1 = Target.socket e.sender ∨
          ∃ code, w.eventCode e = some code ∧
            (em.1 = Target.room code ∨ em.1 = Target.roomExcept code e.sender) := by
  rcases Server.step_sessions_cases w e with ⟨hm, hout⟩ | ⟨s, hso, _, hm, hout⟩
  · rw [hm, hout]
    exact ⟨fun _ _ => rfl, fun em hem => by simp at hem⟩
  · rw [hm, hout, Server.eventCode_of_socket w e s hso]
    have hsid := (Server.socket?_some w e.sender s hso).2
    refine ⟨fun other hother => handle_get_other _ s e other hother, ?_⟩
    intro em hem
    have := handle_targets w.gameSessions s e em hem
    rw [hsid] at this
    exact this

/-! ## Looking a socket up after an event -/

theorem find?_commit (sockets : List Socket) (sender id : String) (s' : Socket)
    (hid : s'.id = sender) :
    (sockets.map (fun t => if t.id = sender then s' else t)).find? (fun s => s.id = id)
      = if id = sender then (sockets.find? (fun s => s.id = id)).map (fun _ => s')
        else sockets.find? (fun s => s.id = id) := by
  induction sockets with
  | nil => simp
  | cons t rest ih =>
    simp only [List.map_cons, List.find?_cons]
    by_cases hts : t.id = sender
    · rw [if_pos hts]
      by_cases hi : id = sender
      · have e1 : decide (s'.id = id) = true := decide_eq_true (hid.trans hi.symm)
        have e2 : decide (t.id = id) = true := decide_eq_true (hts.trans hi.symm)
        simp only [e1, e2, if_pos hi, Option.map_some']
      · have e1 : decide (s'.id = id) = false :=
          decide_eq_false (fun h => hi (h.symm.trans hid))
        have e2 : decide (t.id = id) = false :=
          decide_eq_false (fun h => hi (h.symm.trans hts))
        simp only [e1, e2, if_neg hi] at ih ⊢
        exact ih
    · rw [if_neg hts]
      by_cases hti : t.id = id
      · have hi : ¬ id = sender := fun h => hts (hti.trans h)
        have e2 : decide (t.id = id) = true := decide_eq_true hti
        simp only [e2, if_neg hi]
      · have e2 : decide (t.id = id) = false := decide_eq_false hti
        simp only [e2]
        exact ih

theorem find?_filter_ne (sockets : List Socket) (gone id : String) :
    (sockets.filter (fun t => t.id ≠ gone)).find? (fun s => s.id = id)
      = if id = gone then none else sockets.find? (fun s => s.id = id) := by
  induction sockets with
  | nil => simp
  | cons t rest ih =>
    by_cases htg : t.id = gone
    · have e0 : decide (t.id ≠ gone) = false := decide_eq_false (fun h => h htg)
      rw [List.filter_cons_of_neg (by simp [htg])]
      by_cases hi : id = gone
      · simp only [if_pos hi] at ih ⊢
        exact ih
      · have e2 : decide (t.id = id) = false :=
          decide_eq_false (fun h => hi (h.symm.trans htg))
        simp only [if_neg hi, List.find?_cons, e2] at ih ⊢
        exact ih
    · rw [List.filter_cons_of_pos (by simp [htg])]
      by_cases hti : t.id = id
      · have hi : ¬ id = gone := fun h => htg (hti.trans h)
        have e2 : decide (t.id = id) = true := decide_eq_true hti
        simp only [List.find?_cons, e2, if_neg hi]
      · have e2 : decide (t.id = id) = false := decide_eq_false hti
        simp only [List.find?_cons, e2]
        exact ih

theorem Server.socket?_eq_none_iff (w : Server) (id : String) :
    w.socket? id = none ↔ id ∉ w.sockets.map (fun s => s.id) := by
  unfold Server.socket?
  rw [List.find?_eq_none]
  simp only [decide_eq_true_eq, List.mem_map, not_exists, not_and]

theorem Server.socket?_step (w : Server) (e : Event) (id : String) :
    ((w.step e).1.socket? id = w.socket? id ∧
        (e.isMessage = true → e.sender = id → w.socket? id = none)) ∨
      (e = .connect id ∧ w.socket? id = none ∧ id ∉ w.closed ∧
        (w.step e).1.socket? id = some (Socket.fresh id)) ∨
      (e = .disconnect id ∧ (w.step e).1.socket? id = none ∧ id ∈ (w.step e).1.closed) ∨
      ∃ s, e.sender = id ∧ e.isMessage = true ∧ w.socket? id = some s ∧
        (w.step e).1.socket? id = some (handle w.gameSessions s e).2.1 := by
  by_cases hconn : e = .connect e.sender
  · rw [hconn]
    simp only [Server.step]
    split
    · exact Or.inl ⟨rfl, fun h => by simp [Event.isMessage] at h⟩
    · rename_i hfresh
      simp only [not_or] at hfresh
      by_cases hi : e.sender = id
      · right; left
        rw [hi] at hfresh ⊢
        have hnone := (Server.socket?_eq_none_iff w id).2 hfresh.1
        refine ⟨rfl, hnone, hfresh.2, ?_⟩
        unfold Server.socket? at hnone ⊢
        simp [List.find?_append, hnone, Socket.fresh]
      · left
        refine ⟨?_, fun h => by simp [Event.isMessage] at h⟩
        unfold Server.socket?
        simp [List.find?_append, Socket.fresh, hi]
  · cases hso : w.socket? e.sender with
    | none =>
      left
      rw [Server.step_of_socket_none w e hconn hso]
      exact ⟨rfl, fun _ hi => by rw [← hi]; exact hso⟩
    | some s =>
      obtain ⟨_, hsid⟩ := Server.socket?_some w e.sender s hso
      by_cases hmsg : e.isMessage = true
      · rw [Server.step_of_message w e s hmsg hso]
        have hid : (handle w.gameSessions s e).2.1.id = e.sender :=
          (handle_id w.gameSessions s e).trans hsid
        have hfind := find?_commit w.sockets e.sender id _ hid
        by_cases hi : id = e.sender
        · right; right; right
          subst hi
          refine ⟨s, rfl, hmsg, hso, ?_⟩
          have hso' : w.sockets.find? (fun s => s.id = e.sender) = some s := hso
          simp only [Server.commit, Server.socket?]
          rw [hfind, if_pos rfl, hso']
          rfl
        · left
          refine ⟨?_, fun _ h => absurd h.symm hi⟩
          simp only [Server.commit, Server.socket?]
          rw [hfind]
          simp [hi]
      · have hdis : e = .disconnect e.sender := by
          cases e <;> simp_all [Event.isMessage, Event.sender]
        generalize e.sender = gone at hdis hso
        subst hdis
        rw [Server.step_disconnect w gone s hso]
        have hfind := find?_filter_ne w.sockets gone id
        by_cases hi : id = gone
        · right; right; left
          subst hi
          refine ⟨rfl, ?_, by simp⟩
          simp only [Server.socket?]
          rw [hfind]; simp
        · left
          refine ⟨?_, fun h => by simp [Event.isMessage] at h⟩
          simp only [Server.socket?]
          rw [hfind]; simp [hi]

theorem Server.closed_step (w : Server) (e : Event) :
    ∀ x ∈ w.closed, x ∈ (w.step e).1.closed := by
  intro x hx
  by_cases hconn : e = .connect e.sender
  · rw [hconn]
    simp only [Server.step]
    split <;> exact hx
  · cases hso : w.socket? e.sender with
    | none => rw [Server.step_of_socket_none w e hconn hso]; exact hx
    | some s =>
      by_cases hmsg : e.isMessage = true
      · rw [Server.step_of_message w e s hmsg hso]
        exact hx
      · have hdis : e = .disconnect e.sender := by
          cases e <;> simp_all [Event.isMessage, Event.sender]
        generalize e.sender = gone at hdis hso
        subst hdis
        rw [Server.step_disconnect w gone s hso]
        exact List.mem_append_left _ hx

theorem Server.joinedName_step (w : Server) (e : Event) (id : String) (current : Option String)
    (hcur : ∀ s, w.socket? id = some s → s.playerName = current)
    (hnone : w.socket? id = none → id ∉ w.closed → current = none) :
    (∀ s, (w.step e).1.socket? id = some s → s.playerName = w.nameAfter id current e) ∧
      ((w.step e).1.socket? id = none → id ∉ (w.step e).1.closed →
        w.nameAfter id current e = none) := by
  rcases Server.socket?_step w e id with ⟨hsame, hnotfrom⟩ | ⟨he, hbefore, hclosed, hafter⟩
      | ⟨he, hafter, hclosed⟩ | ⟨s, hsender, hmsg, hbefore, hafter⟩
  · have hkeep : w.nameAfter id current e = current := by
      cases e with
      | joinGame sender gameCode playerName =>
        by_cases hi : sender = id
        · have := hnotfrom rfl hi
          simp [Server.nameAfter, this]
        · simp [Server.nameAfter, hi]
      | _ => rfl
    rw [hkeep, hsame]
    refine ⟨hcur, ?_⟩
    intro hn hc
    exact hnone hn (fun hx => hc (Server.closed_step w e id hx))
  · subst he
    rw [hafter]
    refine ⟨?_, fun h => by cases h⟩
    intro s hs
    cases hs
    exact (hnone hbefore hclosed).symm
  · subst he
    rw [hafter]
    exact ⟨fun s hs => (by cases hs), fun _ hc => absurd hclosed hc⟩
  · rw [hafter]
    refine ⟨?_, fun h => by cases h⟩
    intro s' hs'
    cases hs'
    have hprev := hcur s hbefore
    cases e with
    | joinGame sender gameCode playerName =>
      simp only [Event.sender] at hsender
      subst hsender
      simp only [handle]
      cases hsess : w.gameSessions.get gameCode with
      | none =>
        rw [onJoinGame_of_get_none _ s gameCode playerName hsess]
        have hhas : w.gameSessions.has gameCode = false :=
          (SessionMap.has_eq_false_iff _ _).2 hsess
        simpa [Server.nameAfter, hhas] using hprev
      | some session =>
        rw [onJoinGame_of_get_some _ s gameCode playerName session hsess]
        have hhas : w.gameSessions.has gameCode = true := by
          simp [SessionMap.has, hsess]
        simp [Server.nameAfter, hbefore, hhas]
    | connect x => simp [Event.isMessage] at hmsg
    | disconnect x => simp [Event.isMessage] at hmsg
    | createGame x gameCode =>
      rcases handle_socket_cases w.gameSessions s (.createGame x gameCode) with
        h | ⟨_, _, _, h⟩ | ⟨_, _, _, _, he, _⟩
      · rw [h]; exact hprev
      · rw [h]; exact hprev
      · cases he
    | buzzIn x =>
      rcases handle_socket_cases w.gameSessions s (.buzzIn x) with
        h | ⟨_, _, he, _⟩ | ⟨_, _, _, _, he, _⟩
      · rw [h]; exact hprev
      · cases he
      · cases he
    | hostAction x a =>
      rcases handle_socket_cases w.gameSessions s (.hostAction x a) with
        h | ⟨_, _, he, _⟩ | ⟨_, _, _, _, he, _⟩
      · rw [h]; exact hprev
      · cases he
      · cases he
    | syncState x P =>
      rcases handle_socket_cases w.gameSessions s (.syncState x P) with
        h | ⟨_, _, he, _⟩ | ⟨_, _, _, _, he, _⟩
      · rw [h]; exact hprev
      · cases he
      · cases he
    | playerWallAction x a =>
      rcases handle_socket_cases w.gameSessions s (.playerWallAction x a) with
        h | ⟨_, _, he, _⟩ | ⟨_, _, _, _, he, _⟩
      · rw [h]; exact hprev
      · cases he
      · cases he

theorem Server.joinedName_run (es : List Event) (w : Server) (id : String)
    (current : Option String)
    (hcur : ∀ s, w.socket? id = some s → s.playerName = current)
    (hnone : w.socket? id = none → id ∉ w.closed → current = none) :
    ∀ s, (w.run es).socket? id = some s → s.playerName = w.joinedName id current es := by
  induction es generalizing w current with
  | nil => exact hcur
  | cons e es ih =>
    obtain ⟨h1, h2⟩ := Server.joinedName_step w e id current hcur hnone
    exact ih (w.step e).1 _ h1 h2

/-- C11: `buzzIn` returns the session map and the socket as they were; for a
socket tagged `host`, or whose code tag names no stored session, it emits
nothing; for a socket whose code tag is a key and whose role is not `host` it
emits the single message `playerBuzzed` with the socket's player name and id
to the room of that code.  In every state reached from the empty server the
step leaves the session map as it was, the name so broadcast is the one the
sender gave in its latest answered `joinGame`, and a message to the room of a
code is delivered to every connected socket tagged with that code, host and
sender included. -/
theorem buzzIn_broadcast (es : List Event) (id : String) :
    (∀ (m : SessionMap) (s : Socket), (onBuzzIn m s).1 = m ∧ (onBuzzIn m s).2.1 = s) ∧
      (∀ (m : SessionMap) (s : Socket),
        (s.role = some "host" ∨ ∀ code, s.gameCode = some code → m.get code = none) →
          (onBuzzIn m s).2.2 = []) ∧
      (∀ (m : SessionMap) (s : Socket) (code : String) (session : Session),
        s.role ≠ some "host" → s.gameCode = some code → m.get code = some session →
          (onBuzzIn m s).2.2 = [(Target.room code, Msg.playerBuzzed s.playerName s.id)]) ∧
      ((Server.init.run es).step (.buzzIn id)).1.gameSessions
        = (Server.init.run es).gameSessions ∧
      (∀ (s : Socket) (code : String) (session : Session),
        (Server.init.run es).socket? id = some s → s.role ≠ some "host" →
        s.gameCode = some code → (Server.init.run es).gameSessions.get code = some session →
          ∃ name, Server.init.joinedName id none es = some name ∧
            ((Server.init.run es).step (.buzzIn id)).2
              = [(Target.room code, Msg.playerBuzzed (some name) id)]) ∧
      ∀ s ∈ (Server.init.run es).sockets, ∀ code, s.gameCode = some code →
        (Target.room code).delivers s = true := by
  have hkeep : ∀ (m : SessionMap) (s : Socket),
      (onBuzzIn m s).1 = m ∧ (onBuzzIn m s).2.1 = s := by
    intro m s
    rcases onBuzzIn_cases m s with h | ⟨_, _, _, _, _, h⟩ <;> rw [h] <;> exact ⟨rfl, rfl⟩
  have hemit : ∀ (m : SessionMap) (s : Socket) (code : String) (session : Session),
      s.role ≠ some "host" → s.gameCode = some code → m.get code = some session →
        (onBuzzIn m s).2.2 = [(Target.room code, Msg.playerBuzzed s.playerName s.id)] := by
    intro m s code session hrole hcode hsess
    simp [onBuzzIn, sessionOf_eq_some m s code session hcode hsess, hrole]
  refine ⟨hkeep, ?_, hemit, ?_, ?_, ?_⟩
  · intro m s hcond
    rcases onBuzzIn_cases m s with h | ⟨code, session, hcode, hsess, hrole, _⟩
    · rw [h]
    · rcases hcond with hhost | hnone
      · exact absurd hhost hrole
      · rw [hnone code hcode] at hsess
        cases hsess
  · exact Server.step_message_sessions _ (.buzzIn id) rfl (fun s => (hkeep _ s).1)
  · intro s code session hso hrole hcode hsess
    obtain ⟨hsmem, hsid⟩ := Server.socket?_some _ id s hso
    have hname : s.playerName = Server.init.joinedName id none es :=
      Server.joinedName_run es Server.init id none
        (by intro t ht; simp [Server.init, Server.socket?] at ht) (fun _ _ => rfl) s hso
    have hnamed : s.playerName ≠ none :=
      Server.named_run es s hsmem (by rw [hcode]; simp) hrole
    cases hpn : s.playerName with
    | none => exact absurd hpn hnamed
    | some name =>
      refine ⟨name, by rw [← hname, hpn], ?_⟩
      rw [Server.step_of_message _ (.buzzIn id) s rfl hso]
      simp only [Server.commit, handle]
      rw [hemit _ s code session hrole hcode hsess, hpn, hsid]
  · intro s hs code hcode
    simpa [Target.delivers] using Server.inRoom_run es s hs code hcode

/-- C11 at the scenario of the specification: Bob's buzz goes to the room of
`ABCD` with his id and the name he joined under. -/
theorem buzzIn_broadcast_witness :
    ∃ name, Server.init.joinedName "b" none aliceAndBob = some name ∧
      ((Server.init.run aliceAndBob).step (.buzzIn "b")).2
        = [(Target.room "ABCD", Msg.playerBuzzed (some name) "b")] :=
  (buzzIn_broadcast aliceAndBob "b").2.2.2.2.1
    { id := "b", gameCode := some "ABCD", role := some "player2",
      playerName := some "Bob", rooms := ["b", "ABCD"] }
    "ABCD"
    { host := "h",
      players := [{ id := "a", name := "Alice", number := 1, role := "Player 1" },
                  { id := "b", name := "Bob", number := 2, role := "Player 2" }],
      gameState := defaultGameState }
    (by decide) (by decide) rfl rfl

/-! ## Who holds the host role -/

theorem Server.eq_of_id_eq (w : Server) (hinv : w.Inv) (s t : Socket) (hs : s ∈ w.sockets)
    (ht : t ∈ w.sockets) (hid : s.id = t.id) : s = t :=
  List.inj_on_of_nodup_map hinv.1 hs ht hid

/-- C14 fails: after the host of `ABCD` has created a second game `WXYZ`, the
session `ABCD` is still stored with that host, yet the only connected socket is
tagged host of `WXYZ`, so no connected socket holds the host role for `ABCD`. -/
theorem no_host_after_second_create :
    ((Server.init.run hostCreatesTwice).gameSessions.get "ABCD").map (fun s => s.host)
        = some "h" ∧
      (Server.init.run hostCreatesTwice).sockets
        = [{ id := "h", gameCode := some "WXYZ", role := some "host", playerName := none,
             rooms := ["h", "ABCD", "WXYZ"] }] ∧
      ¬ (∀ (es : List Event) (code : String) (session : Session),
          (Server.init.run es).gameSessions.get code = some session →
            ∃ s ∈ (Server.init.run es).sockets,
              s.role = some "host" ∧ s.gameCode = some code ∧ s.id = session.host) := by
  refine ⟨by decide, by decide, ?_⟩
  intro hall
  have hget : (Server.init.run hostCreatesTwice).gameSessions.get "ABCD"
      = some { host := "h", players := [], gameState := defaultGameState } := rfl
  obtain ⟨s, hs, _, hcode, _⟩ := hall hostCreatesTwice "ABCD" _ hget
  have hsockets : (Server.init.run hostCreatesTwice).sockets
      = [{ id := "h", gameCode := some "WXYZ", role := some "host", playerName := none,
           rooms := ["h", "ABCD", "WXYZ"] }] := by decide
  rw [hsockets, List.mem_singleton] at hs
  subst hs
  revert hcode
  decide

/-- In every state reached from the empty server, two connected sockets that both
hold the host role for a code (role tag `host`, code tag the code) are one and
the same; the code is then a key of the session map, and the socket is the one
recorded in the `host` field of its session. -/
theorem host_role_unique (es : List Event) (code : String) (s t : Socket)
    (hs : s ∈ (Server.init.run es).sockets) (ht : t ∈ (Server.init.run es).sockets)
    (hsrole : s.role = some "host") (hscode : s.gameCode = some code)
    (htrole : t.role = some "host") (htcode : t.gameCode = some code) :
    s = t ∧
      ∃ session, (Server.init.run es).gameSessions.get code = some session ∧
        session.host = s.id := by
  have hinv := Server.Inv.run es Server.init Server.Inv.init
  obtain ⟨x, hx, hxhost⟩ := hinv.2 s hs hsrole code hscode
  obtain ⟨y, hy, hyhost⟩ := hinv.2 t ht htrole code htcode
  rw [hx] at hy
  cases hy
  exact ⟨Server.eq_of_id_eq _ hinv s t hs ht (hxhost.symm.trans hyhost), x, hx, hxhost⟩

/-! ## Binding a socket again -/

/-- C15 fails: the socket that created `ABCD` and is tagged its host sends
`joinGame` for `ABCD`; its role tag changes from `host` to `player1`, and the
session then records it both in `host` and in `players`. -/
theorem bound_host_joins_own_game :
    (Server.init.run (hostJoinsOwnGame.take 2)).sockets
        = [{ id := "h", gameCode := some "ABCD", role := some "host", playerName := none,
             rooms := ["h", "ABCD"] }] ∧
      (Server.init.run hostJoinsOwnGame).sockets
        = [{ id := "h", gameCode := some "ABCD", role := some "player1",
             playerName := some "Hal", rooms := ["h", "ABCD"] }] ∧
      ((Server.init.run hostJoinsOwnGame).gameSessions.get "ABCD").map
          (fun s => (s.host, s.players))
        = some ("h", [{ id := "h", name := "Hal", number := 1, role := "Player 1" }]) ∧
      ¬ (∀ (m : SessionMap) (s : Socket) (gameCode playerName : String),
          s.gameCode ≠ none →
            (onJoinGame m s gameCode playerName).2.1.role = s.role ∧
              (onCreateGame m s gameCode).2.1.gameCode = s.gameCode) := by
  refine ⟨by decide, by decide, by decide, ?_⟩
  intro hall
  have h := (hall [("ABCD", { host := "h", players := [], gameState := defaultGameState })]
    { id := "h", gameCode := some "ABCD", role := some "host", playerName := none,
      rooms := ["h", "ABCD"] } "ABCD" "Hal" (by decide)).1
  revert h
  decide

/-- C15 as amended: for every socket, bound or not, a `createGame` on a code
that is a key and a `joinGame` on a code that is not leave the socket (its code
and role tags) and the session map as they were; a `createGame` on a free code
tags the socket with that code and role `host` and stores it as host of the
new session; a `joinGame` on a code that is a key tags the socket with that
code and a player role and appends its record to that session; in both cases
every session under another code stays as it was.  The role tag of a socket is
never `host` and a player role at once. -/
theorem createGame_joinGame_rebind (m : SessionMap) (s : Socket)
    (gameCode playerName : String) :
    (m.get gameCode ≠ none →
        (onCreateGame m s gameCode).1 = m ∧ (onCreateGame m s gameCode).2.1 = s) ∧
      (m.get gameCode = none →
        (onCreateGame m s gameCode).2.1.gameCode = some gameCode ∧
          (onCreateGame m s gameCode).2.1.role = some "host" ∧
          (onCreateGame m s gameCode).2.1.id = s.id ∧
          (onCreateGame m s gameCode).1.get gameCode
            = some { host := s.id, players := [], gameState := defaultGameState } ∧
          ∀ other, other ≠ gameCode →
            (onCreateGame m s gameCode).1.get other = m.get other) ∧
      (m.get gameCode = none →
        (onJoinGame m s gameCode playerName).1 = m ∧
          (onJoinGame m s gameCode playerName).2.1 = s) ∧
      (∀ session, m.get gameCode = some session →
        (onJoinGame m s gameCode playerName).2.1.gameCode = some gameCode ∧
          (onJoinGame m s gameCode playerName).2.1.role
            = some ("player" ++ toString (session.players.length + 1)) ∧
          (onJoinGame m s gameCode playerName).2.1.id = s.id ∧
          (onJoinGame m s gameCode playerName).1.get gameCode
            = some { host := session.host,
                     players := session.players ++
                       [{ id := s.id, name := playerName,
                          number := session.players.length + 1,
                          role := "Player " ++ toString (session.players.length + 1) }],
                     gameState := session.gameState } ∧
          ∀ other, other ≠ gameCode →
            (onJoinGame m s gameCode playerName).1.get other = m.get other) ∧
      ¬ (s.role = some "host" ∧ ∃ n : Nat, s.role = some ("player" ++ toString n)) := by
  refine ⟨?_, ?_, ?_, ?_, ?_⟩
  · intro hex
    rcases onCreateGame_cases m s gameCode with ⟨_, h⟩ | ⟨hnone, _⟩
    · rw [h]; exact ⟨rfl, rfl⟩
    · exact absurd hnone hex
  · intro hnone
    rcases onCreateGame_cases m s gameCode with ⟨hex, _⟩ | ⟨_, h⟩
    · exact absurd hnone hex
    · rw [h]
      exact ⟨rfl, rfl, rfl, SessionMap.get_set_self _ _ _,
        fun other hne => SessionMap.get_set_ne _ _ _ _ hne⟩
  · intro hnone
    rw [onJoinGame_of_get_none m s gameCode playerName hnone]
    exact ⟨rfl, rfl⟩
  · intro session hsess
    rw [onJoinGame_of_get_some m s gameCode playerName session hsess]
    exact ⟨rfl, rfl, rfl, SessionMap.get_set_self _ _ _,
      fun other hne => SessionMap.get_set_ne _ _ _ _ hne⟩
  · rintro ⟨hhost, n, hn⟩
    rw [hhost] at hn
    exact playerRole_ne_host n (Option.some.inj hn).symm

/-- C15 as amended, at the host of `ABCD` joining `ABCD`: its role tag becomes
`player1`. -/
theorem createGame_joinGame_rebind_witness :
    (onJoinGame [("ABCD", { host := "h", players := [], gameState := defaultGameState })]
        { id := "h", gameCode := some "ABCD", role := some "host", playerName := none,
          rooms := ["h", "ABCD"] }
        "ABCD" "Hal").2.1.role
      = some ("player" ++ toString (0 + 1)) :=
  ((createGame_joinGame_rebind
      [("ABCD", { host := "h", players := [], gameState := defaultGameState })]
      { id := "h", gameCode := some "ABCD", role := some "host", playerName := none,
        rooms := ["h", "ABCD"] }
      "ABCD" "Hal").2.2.2.1
    { host := "h", players := [], gameState := defaultGameState }
    (by simp [SessionMap.get])).2.1

/-! ## Senders of the event paths and the players list -/

theorem RecordsKept.same (code : String) (m : SessionMap) : RecordsKept code m m :=
  fun session _ h hp => ⟨session, h, hp⟩

theorem RecordsKept.of_get_eq (code : String) (m m' : SessionMap)
    (h : m'.get code = m.get code) : RecordsKept code m m' :=
  fun session _ hs hp => ⟨session, h.trans hs, hp⟩

theorem handle_recordsKept (m : SessionMap) (s : Socket) (e : Event) (code : String)
    (hmsg : e.isMessage = true) : RecordsKept code m (handle m s e).1 := by
  by_cases hother : s.eventCode e = some code
  · cases e with
    | connect id => exact RecordsKept.same code m
    | disconnect id => simp [Event.isMessage] at hmsg
    | createGame id gameCode =>
      simp only [handle]
      rcases onCreateGame_cases m s gameCode with ⟨_, h⟩ | ⟨hnone, h⟩
      · rw [h]; exact RecordsKept.same code m
      · simp only [Socket.eventCode, Option.some.injEq] at hother
        subst hother
        intro session p hs
        rw [hnone] at hs
        cases hs
    | joinGame id gameCode playerName =>
      simp only [handle]
      cases hsess : m.get gameCode with
      | none =>
        rw [onJoinGame_of_get_none m s gameCode playerName hsess]
        exact RecordsKept.same code m
      | some old =>
        simp only [Socket.eventCode, Option.some.injEq] at hother
        subst hother
        rw [onJoinGame_of_get_some m s gameCode playerName old hsess]
        intro session p hs hp
        rw [hsess] at hs
        cases hs
        exact ⟨_, SessionMap.get_set_self _ _ _, List.mem_append_left _ hp⟩
    | buzzIn id =>
      simp only [handle]
      rcases onBuzzIn_cases m s with h | ⟨_, _, _, _, _, h⟩ <;> rw [h] <;>
        exact RecordsKept.same code m
    | hostAction id action =>
      simp only [handle]
      rcases onHostAction_cases m s action with h | ⟨_, _, _, _, _, h⟩ <;> rw [h] <;>
        exact RecordsKept.same code m
    | syncState id P =>
      simp only [handle]
      rcases onSyncState_cases m s P with h | ⟨c, old, hcode, hsess, _, h⟩
      · rw [h]; exact RecordsKept.same code m
      · simp only [Socket.eventCode, hcode, Option.some.injEq] at hother
        subst hother
        rw [h]
        intro session p hs hp
        rw [hsess] at hs
        cases hs
        exact ⟨_, SessionMap.get_set_self _ _ _, hp⟩
    | playerWallAction id action =>
      simp only [handle]
      rcases onPlayerWallAction_cases m s action with h | ⟨_, _, _, _, _, h⟩ <;> rw [h] <;>
        exact RecordsKept.same code m
  · exact RecordsKept.of_get_eq code m _ (handle_get_other m s e code hother)

/-- C19 fails: Alice joined `ABCD`, its host left (the session was deleted) and
another socket created `ABCD` again; Alice's `buzzIn` and `playerWallAction`
are broadcast to the room of the new `ABCD`, whose players list is empty. -/
theorem stale_player_broadcasts :
    ((Server.init.run aliceOutlivesGame).gameSessions.get "ABCD").map
          (fun s => (s.host, s.players))
        = some ("g", []) ∧
      ((Server.init.run aliceOutlivesGame).step (.buzzIn "a")).2
        = [(Target.room "ABCD", Msg.playerBuzzed (some "Alice") "a")] ∧
      ((Server.init.run aliceOutlivesGame).step
          (.playerWallAction "a" (JsValue.string "tile"))).2
        = [(Target.room "ABCD", Msg.wallAction "a" (some "Alice") (JsValue.string "tile"))] ∧
      ¬ (∀ (es : List Event) (id code : String) (em : Emit),
          em ∈ ((Server.init.run es).step (.buzzIn id)).2 → em.1 = Target.room code →
            ∃ session p, (Server.init.run es).gameSessions.get code = some session ∧
              p ∈ session.players ∧ p.id = id) := by
  refine ⟨by decide, rfl, rfl, ?_⟩
  intro hall
  have hout : ((Server.init.run aliceOutlivesGame).step (.buzzIn "a")).2
      = [(Target.room "ABCD", Msg.playerBuzzed (some "Alice") "a")] := rfl
  obtain ⟨session, p, hsess, hp, _⟩ := hall aliceOutlivesGame "a" "ABCD"
    (Target.room "ABCD", Msg.playerBuzzed (some "Alice") "a") (by rw [hout]; simp) rfl
  have hget : (Server.init.run aliceOutlivesGame).gameSessions.get "ABCD"
      = some { host := "g", players := [], gameState := defaultGameState } := rfl
  rw [hget] at hsess
  cases hsess
  simp at hp

/-! ## Records and lost connections -/

theorem mem_commit_of_ne (sockets : List Socket) (id : String) (s' t : Socket)
    (ht : t ∈ sockets) (hne : t.id ≠ id) :
    t ∈ sockets.map (fun t => if t.id = id then s' else t) :=
  List.mem_map.2 ⟨t, ht, by simp [hne]⟩

theorem mem_commit_self (sockets : List Socket) (id : String) (s' s : Socket)
    (hs : s ∈ sockets) (hid : s.id = id) :
    s' ∈ sockets.map (fun t => if t.id = id then s' else t) :=
  List.mem_map.2 ⟨s, hs, by simp [hid]⟩

theorem Backed.mono (sockets sockets' : List Socket) (code : String) (session : Session)
    (hsub : ∀ t ∈ sockets, t.gameCode = some code → t ∈ sockets')
    (hb : Backed sockets code session) : Backed sockets' code session := by
  obtain ⟨⟨s, hs, hsid, hscode, hsrole⟩, hplayers⟩ := hb
  refine ⟨⟨s, hsub s hs hscode, hsid, hscode, hsrole⟩, ?_⟩
  intro p hp
  obtain ⟨t, ht, htid, htcode, htrole⟩ := hplayers p hp
  exact ⟨t, hsub t ht htcode, htid, htcode, htrole⟩

theorem Backed.of_same_records (sockets : List Socket) (code : String)
    (session session' : Session) (hhost : session'.host = session.host)
    (hplayers : session'.players = session.players) (hb : Backed sockets code session) :
    Backed sockets code session' := by
  unfold Backed at hb ⊢
  rw [hhost, hplayers]
  exact hb

theorem onDisconnect_emits_of_bound (m : SessionMap) (s : Socket) (code : String)
    (session : Session) (hcode : s.gameCode = some code) (hne : code ≠ "")
    (hsess : m.get code = some session) : (onDisconnect m s).2.2 ≠ [] := by
  by_cases hrole : s.role = some "host"
  · rw [(onDisconnect_host m s code session hcode hne hrole hsess).2.2.1]
    simp
  · rw [(onDisconnect_player m s code session hcode hne hrole hsess).2.2]
    simp

theorem Server.live_commit_same (w : Server) (hinv : w.Inv) (hlive : w.Live) (s0 : Socket)
    (hs0 : s0 ∈ w.sockets) (id : String) (hid : s0.id = id) (m' : SessionMap)
    (out : List Emit)
    (hsame : ∀ code session', m'.get code = some session' →
      ∃ session, w.gameSessions.get code = some session ∧
        session'.host = session.host ∧ session'.players = session.players) :
    (w.commit id (m', s0, out)).1.Live := by
  have hsub : ∀ t ∈ w.sockets, t ∈ w.sockets.map (fun t => if t.id = id then s0 else t) := by
    intro t ht
    by_cases hti : t.id = id
    · have : t = s0 := Server.eq_of_id_eq w hinv t s0 ht hs0 (hti.trans hid.symm)
      rw [this]
      exact mem_commit_self _ _ _ s0 hs0 hid
    · exact mem_commit_of_ne _ _ _ _ ht hti
  refine ⟨?_, ?_⟩
  · intro t ht
    simp only [Server.commit] at ht ⊢
    rcases mem_commit _ _ _ _ ht with ht | ⟨ht, _⟩
    · subst ht; exact hlive.1 t hs0
    · exact hlive.1 t ht
  · intro code session' hne hget
    simp only [Server.commit] at hget ⊢
    obtain ⟨session, hsess, hhost, hplayers⟩ := hsame code session' hget
    exact Backed.of_same_records _ code session session' hhost hplayers
      (Backed.mono _ _ code session (fun t ht _ => hsub t ht) (hlive.2 code session hne hsess))

theorem Server.live_commit_unbound (w : Server) (hinv : w.Inv) (hlive : w.Live)
    (s0 s' : Socket) (hs0 : s0 ∈ w.sockets) (id : String) (hid : s0.id = id)
    (hid' : s'.id = id) (hunbound : s0.gameCode = none) (m' : SessionMap) (out : List Emit)
    (hrecords : ∀ code session', code ≠ "" → m'.get code = some session' →
      (∃ session, w.gameSessions.get code = some session ∧
          session'.host = session.host ∧ session'.players = session.players) ∨
        (s'.gameCode = some code ∧
          ((session'.host = s'.id ∧ s'.role = some "host" ∧ session'.players = []) ∨
            (s'.role ≠ some "host" ∧
              ∃ session, w.gameSessions.get code = some session ∧
                session'.host = session.host ∧
                ∃ p, p.id = s'.id ∧ session'.players = session.players ++ [p])))) :
    (w.commit id (m', s', out)).1.Live := by
  have hsub : ∀ code, ∀ t ∈ w.sockets, t.gameCode = some code →
      t ∈ w.sockets.map (fun t => if t.id = id then s' else t) := by
    intro code t ht htcode
    refine mem_commit_of_ne _ _ _ _ ht ?_
    intro hti
    have : t = s0 := Server.eq_of_id_eq w hinv t s0 ht hs0 (hti.trans hid.symm)
    rw [this, hunbound] at htcode
    cases htcode
  have hself : s' ∈ w.sockets.map (fun t => if t.id = id then s' else t) :=
    mem_commit_self _ _ _ s0 hs0 hid
  refine ⟨?_, ?_⟩
  · intro t ht
    simp only [Server.commit] at ht ⊢
    rcases mem_commit _ _ _ _ ht with ht | ⟨ht, _⟩
    · subst ht
      rw [hid', ← hid]
      exact hlive.1 s0 hs0
    · exact hlive.1 t ht
  · intro code session' hne hget
    simp only [Server.commit] at hget ⊢
    rcases hrecords code session' hne hget with
      ⟨session, hsess, hhost, hplayers⟩ | ⟨hcode, hcase⟩
    · exact Backed.of_same_records _ code session session' hhost hplayers
        (Backed.mono _ _ code session (hsub code) (hlive.2 code session hne hsess))
    · rcases hcase with ⟨hhost, hrole, hplayers⟩ | ⟨hrole, session, hsess, hhost, p, hpid, hplayers⟩
      · refine ⟨⟨s', hself, hhost.symm, hcode, hrole⟩, ?_⟩
        rw [hplayers]
        intro p hp
        simp at hp
      · have hold := Backed.mono _ _ code session (hsub code) (hlive.2 code session hne hsess)
        refine ⟨?_, ?_⟩
        · rw [hhost]; exact hold.1
        · rw [hplayers]
          intro q hq
          simp only [List.mem_append, List.mem_singleton] at hq
          rcases hq with hq | hq
          · exact hold.2 q hq
          · subst hq
            exact ⟨s', hself, hpid.symm, hcode, hrole⟩

theorem same_records_refl (m : SessionMap) :
    ∀ code session', m.get code = some session' →
      ∃ session, m.get code = some session ∧
        session'.host = session.host ∧ session'.players = session.players :=
  fun _ session' h => ⟨session', h, rfl, rfl⟩

theorem Server.live_step (w : Server) (e : Event) (hinv : w.Inv) (hlive : w.Live)
    (hno : w.rebinds e = false) : (w.step e).1.Live := by
  by_cases hconn : e = .connect e.sender
  · rw [hconn]
    simp only [Server.step]
    split
    · exact hlive
    · rename_i hfresh
      simp only [not_or] at hfresh
      refine ⟨?_, ?_⟩
      · intro s hs
        simp only [List.mem_append, List.mem_singleton] at hs
        rcases hs with hs | hs
        · exact hlive.1 s hs
        · subst hs; exact hfresh.2
      · intro code session hne hget
        exact Backed.mono _ _ code session
          (fun t ht _ => List.mem_append_left _ ht) (hlive.2 code session hne hget)
  · cases hso : w.socket? e.sender with
    | none => rw [Server.step_of_socket_none w e hconn hso]; exact hlive
    | some s0 =>
      obtain ⟨hs0, hs0id⟩ := Server.socket?_some w e.sender s0 hso
      cases e with
      | connect id => exact absurd rfl hconn
      | createGame id gameCode =>
        simp only [Event.sender] at hso hs0id
        rw [Server.step_of_message w (.createGame id gameCode) s0 rfl hso]
        simp only [handle]
        rcases onCreateGame_cases w.gameSessions s0 gameCode with ⟨_, h⟩ | ⟨hnone, h⟩
        · rw [h]
          exact Server.live_commit_same w hinv hlive s0 hs0 id hs0id _ _
            (same_records_refl _)
        · rw [h]
          have hhas : w.gameSessions.has gameCode = false :=
            (SessionMap.has_eq_false_iff _ _).2 hnone
          have hunbound : s0.gameCode = none := by
            simp only [Server.rebinds, hso, hhas, Bool.not_false, Bool.and_true] at hno
            cases hg : s0.gameCode with
            | none => rfl
            | some c => rw [hg] at hno; simp at hno
          refine Server.live_commit_unbound w hinv hlive s0 _ hs0 id hs0id (by exact hs0id)
            hunbound _ _ ?_
          intro code session' _ hget
          by_cases hc : code = gameCode
          · subst hc
            rw [SessionMap.get_set_self] at hget
            cases hget
            exact Or.inr ⟨rfl, Or.inl ⟨rfl, rfl, rfl⟩⟩
          · rw [SessionMap.get_set_ne _ _ _ _ hc] at hget
            exact Or.inl ⟨session', hget, rfl, rfl⟩
      | joinGame id gameCode playerName =>
        simp only [Event.sender] at hso hs0id
        rw [Server.step_of_message w (.joinGame id gameCode playerName) s0 rfl hso]
        simp only [handle]
        cases hsess : w.gameSessions.get gameCode with
        | none =>
          rw [onJoinGame_of_get_none _ s0 gameCode playerName hsess]
          exact Server.live_commit_same w hinv hlive s0 hs0 id hs0id _ _
            (same_records_refl _)
        | some old =>
          rw [onJoinGame_of_get_some _ s0 gameCode playerName old hsess]
          have hhas : w.gameSessions.has gameCode = true := by
            simp [SessionMap.has, hsess]
          have hunbound : s0.gameCode = none := by
            simp only [Server.rebinds, hso, hhas, Bool.and_true] at hno
            cases hg : s0.gameCode with
            | none => rfl
            | some c => rw [hg] at hno; simp at hno
          refine Server.live_commit_unbound w hinv hlive s0 _ hs0 id hs0id (by exact hs0id)
            hunbound _ _ ?_
          intro code session' _ hget
          by_cases hc : code = gameCode
          · subst hc
            rw [SessionMap.get_set_self] at hget
            cases hget
            refine Or.inr ⟨rfl, Or.inr ⟨?_, old, hsess, rfl, _, rfl, rfl⟩⟩
            intro hrole
            exact playerRole_ne_host _ (Option.some.inj hrole)
          · rw [SessionMap.get_set_ne _ _ _ _ hc] at hget
            exact Or.inl ⟨session', hget, rfl, rfl⟩
      | buzzIn id =>
        simp only [Event.sender] at hso hs0id
        rw [Server.step_of_message w (.buzzIn id) s0 rfl hso]
        simp only [handle]
        rcases onBuzzIn_cases w.gameSessions s0 with h | ⟨_, _, _, _, _, h⟩ <;> rw [h] <;>
          exact Server.live_commit_same w hinv hlive s0 hs0 id hs0id _ _
            (same_records_refl _)
      | hostAction id action =>
        simp only [Event.sender] at hso hs0id
        rw [Server.step_of_message w (.hostAction id action) s0 rfl hso]
        simp only [handle]
        rcases onHostAction_cases w.gameSessions s0 action with h | ⟨_, _, _, _, _, h⟩ <;>
          rw [h] <;>
          exact Server.live_commit_same w hinv hlive s0 hs0 id hs0id _ _
            (same_records_refl _)
      | playerWallAction id action =>
        simp only [Event.sender] at hso hs0id
        rw [Server.step_of_message w (.playerWallAction id action) s0 rfl hso]
        simp only [handle]
        rcases onPlayerWallAction_cases w.gameSessions s0 action with
          h | ⟨_, _, _, _, _, h⟩ <;> rw [h] <;>
          exact Server.live_commit_same w hinv hlive s0 hs0 id hs0id _ _
            (same_records_refl _)
      | syncState id P =>
        simp only [Event.sender] at hso hs0id
        rw [Server.step_of_message w (.syncState id P) s0 rfl hso]
        simp only [handle]
        rcases onSyncState_cases w.gameSessions s0 P with h | ⟨c, old, _, hold, _, h⟩
        · rw [h]
          exact Server.live_commit_same w hinv hlive s0 hs0 id hs0id _ _
            (same_records_refl _)
        · rw [h]
          refine Server.live_commit_same w hinv hlive s0 hs0 id hs0id _ _ ?_
          intro code session' hget
          by_cases hc : code = c
          · subst hc
            rw [SessionMap.get_set_self] at hget
            cases hget
            exact ⟨old, hold, rfl, rfl⟩
          · rw [SessionMap.get_set_ne _ _ _ _ hc] at hget
            exact ⟨session', hget, rfl, rfl⟩
      | disconnect id =>
        simp only [Event.sender] at hso hs0id
        rw [Server.step_disconnect w id s0 hso]
        have hstays : ∀ t ∈ w.sockets, t ≠ s0 →
            t ∈ w.sockets.filter (fun t => t.id ≠ id) := by
          intro t ht hne
          simp only [List.mem_filter, decide_eq_true_eq]
          refine ⟨ht, fun hti => hne ?_⟩
          exact Server.eq_of_id_eq w hinv t s0 ht hs0 (hti.trans hs0id.symm)
        refine ⟨?_, ?_⟩
        · intro t ht
          simp only [List.mem_filter, decide_eq_true_eq] at ht
          simp only [List.mem_append, List.mem_singleton, not_or]
          exact ⟨hlive.1 t ht.1, ht.2⟩
        · intro code session' hne hget
          simp only at hget ⊢
          rcases onDisconnect_cases w.gameSessions s0 with h | ⟨c, old, hc, _, _, hr, h⟩
              | ⟨c, old, hc, _, hold, hr, h⟩
          · rw [h] at hget
            refine Backed.mono _ _ code session' ?_ (hlive.2 code session' hne hget)
            intro t ht htcode
            refine hstays t ht ?_
            intro hts
            subst hts
            have := onDisconnect_emits_of_bound w.gameSessions t code session' htcode hne hget
            rw [h] at this
            exact this rfl
          · rw [h] at hget
            have hcc : code ≠ c := by
              intro hcc; subst hcc
              rw [SessionMap.get_delete_self] at hget
              cases hget
            rw [SessionMap.get_delete_ne _ _ _ hcc] at hget
            refine Backed.mono _ _ code session' ?_ (hlive.2 code session' hne hget)
            intro t ht htcode
            refine hstays t ht ?_
            intro hts
            subst hts
            rw [hc] at htcode
            exact hcc (Option.some.inj htcode).symm
          · rw [h] at hget
            by_cases hcc : code = c
            · subst hcc
              rw [SessionMap.get_set_self] at hget
              cases hget
              obtain ⟨⟨t, ht, htid, htcode, htrole⟩, hplayers⟩ := hlive.2 code old hne hold
              refine ⟨⟨t, hstays t ht ?_, htid, htcode, htrole⟩, ?_⟩
              · intro hts
                subst hts
                exact hr htrole
              · intro p hp
                simp only [List.mem_filter, decide_eq_true_eq] at hp
                obtain ⟨u, hu, huid, hucode, hurole⟩ := hplayers p hp.1
                refine ⟨u, hstays u hu ?_, huid, hucode, hurole⟩
                intro hus
                subst hus
                exact hp.2 huid.symm
            · rw [SessionMap.get_set_ne _ _ _ _ hcc] at hget
              refine Backed.mono _ _ code session' ?_ (hlive.2 code session' hne hget)
              intro t ht htcode
              refine hstays t ht ?_
              intro hts
              subst hts
              rw [hc] at htcode
              exact hcc (Option.some.inj htcode).symm

theorem Server.live_run (es : List Event) (w : Server) (hinv : w.Inv) (hlive : w.Live)
    (hbound : w.boundOnce es = true) : (w.run es).Live := by
  induction es generalizing w with
  | nil => exact hlive
  | cons e es ih =>
    simp only [Server.boundOnce, Bool.and_eq_true, Bool.not_eq_true'] at hbound
    exact ih (w.step e).1 (Server.Inv.step w e hinv)
      (Server.live_step w e hinv hlive hbound.1) hbound.2

/-- C16 fails: the socket that created `ABCD` creates `WXYZ` as well and then
disconnects; `WXYZ` is deleted, but `ABCD` stays stored with its `host` field
naming the disconnected socket. -/
theorem session_outlives_rebound_host :
    ((Server.init.run hostCreatesTwiceAndLeaves).gameSessions.get "ABCD").map
          (fun s => s.host)
        = some "h" ∧
      (Server.init.run hostCreatesTwiceAndLeaves).gameSessions.has "WXYZ" = false ∧
      (Server.init.run hostCreatesTwiceAndLeaves).closed = ["h"] ∧
      (Server.init.run hostCreatesTwiceAndLeaves).sockets = [] ∧
      ¬ (∀ (es : List Event) (code : String) (session : Session),
          (Server.init.run es).gameSessions.get code = some session →
            session.host ∉ (Server.init.run es).closed ∧
              ∀ p ∈ session.players, p.id ∉ (Server.init.run es).closed) := by
  refine ⟨by decide, by decide, by decide, by decide, ?_⟩
  intro hall
  have hget : (Server.init.run hostCreatesTwiceAndLeaves).gameSessions.get "ABCD"
      = some { host := "h", players := [], gameState := defaultGameState } := rfl
  have hhost := (hall hostCreatesTwiceAndLeaves "ABCD" _ hget).1
  revert hhost
  decide

/-- C16 as amended: in every state reached from the empty server by events
none of which binds an already bound socket, every session stored under a
non-empty code has a `host` field that names a connected socket, not a
disconnected one, and every record of its players list has the id of a
connected socket, not of a disconnected one. -/
theorem records_name_connected_sockets (es : List Event) (code : String) (session : Session)
    (hbound : Server.init.boundOnce es = true) (hne : code ≠ "")
    (hget : (Server.init.run es).gameSessions.get code = some session) :
    (session.host ∈ (Server.init.run es).sockets.map (fun s => s.id) ∧
        session.host ∉ (Server.init.run es).closed) ∧
      ∀ p ∈ session.players,
        p.id ∈ (Server.init.run es).sockets.map (fun s => s.id) ∧
          p.id ∉ (Server.init.run es).closed := by
  have hlive : (Server.init.run es).Live :=
    Server.live_run es Server.init Server.Inv.init
      ⟨by intro s hs; simp [Server.init] at hs,
        by intro c s _ hs; simp [Server.init, SessionMap.get] at hs⟩
      hbound
  obtain ⟨⟨s, hs, hsid, _, _⟩, hplayers⟩ := hlive.2 code session hne hget
  refine ⟨⟨List.mem_map.2 ⟨s, hs, hsid⟩, by rw [← hsid]; exact hlive.1 s hs⟩, ?_⟩
  intro p hp
  obtain ⟨t, ht, htid, _, _⟩ := hplayers p hp
  exact ⟨List.mem_map.2 ⟨t, ht, htid⟩, by rw [← htid]; exact hlive.1 t ht⟩

/-- C16 as amended, at the run in which Alice and Bob have joined `ABCD` and
Alice has left: host `h` is connected and not among the disconnected. -/
theorem records_name_connected_sockets_witness :
    Server.init.boundOnce (carolAfterAlice.take 7) = true ∧
      "h" ∈ (Server.init.run (carolAfterAlice.take 7)).sockets.map (fun s => s.id) ∧
      "h" ∉ (Server.init.run (carolAfterAlice.take 7)).closed :=
  ⟨by decide,
    (records_name_connected_sockets (carolAfterAlice.take 7) "ABCD"
      { host := "h",
        players := [{ id := "b", name := "Bob", number := 2, role := "Player 2" }],
        gameState := defaultGameState }
      (by decide) (by decide) rfl).1⟩

/-! ## Inputs whose handler throws -/

theorem Server.receive_joinGameNoPayload (w : Server) (id : String) :
    w.receive (.joinGameNoPayload id)
      = if (w.socket? id).isSome then none else some (w, []) := by
  unfold Server.receive
  cases hso : w.socket? id <;> simp [onJoinGamePayload, hso]

theorem Server.receiveAll_run (inputs : List Input) (w w' : Server)
    (h : w.receiveAll inputs = some w') : ∃ es : List Event, w' = w.run es := by
  induction inputs generalizing w with
  | nil =>
    simp only [Server.receiveAll, Option.some.injEq] at h
    exact ⟨[], h.symm⟩
  | cons i rest ih =>
    cases i with
    | event e =>
      simp only [Server.receiveAll, Server.receive] at h
      obtain ⟨es, hes⟩ := ih (w.step e).1 h
      exact ⟨e :: es, hes⟩
    | joinGameNoPayload id =>
      simp only [Server.receiveAll] at h
      rw [Server.receive_joinGameNoPayload] at h
      cases hso : (w.socket? id).isSome with
      | true => simp [hso] at h
      | false =>
        simp only [hso, Bool.false_eq_true, if_false] at h
        exact ih w h

/-- C18 fails: while the games `ABCD` and `WXYZ` are stored, a connected socket
bound to neither sends `joinGame` without payload; the handler throws while
destructuring it, nothing catches the exception, so the result is `none`: the
process ends and with it both sessions, where the claim has every session
unchanged. -/
theorem missing_payload_ends_process :
    ((Server.init.run twoGames).gameSessions.map Prod.fst = ["ABCD", "WXYZ"] ∧
        (Server.init.run twoGames).socket? "a" = some (Socket.fresh "a")) ∧
      (Server.init.run twoGames).receive (.joinGameNoPayload "a") = none ∧
      ¬ (∀ (w : Server) (i : Input),
          ∃ r, w.receive i = some r ∧
            ∀ other, w.inputCode i ≠ some other →
              r.1.gameSessions.get other = w.gameSessions.get other) := by
  refine ⟨⟨by decide, by decide⟩, rfl, ?_⟩
  intro hall
  obtain ⟨r, hr, _⟩ := hall (Server.init.run twoGames) (.joinGameNoPayload "a")
  have hnone : (Server.init.run twoGames).receive (.joinGameNoPayload "a") = none := rfl
  rw [hnone] at hr
  cases hr

/-- C18 as amended: whatever the state, the only input whose handler throws is
a `joinGame` without payload from a connected socket; every other input leaves
every session stored under a code other than the code it is about (the code
argument of `createGame` and `joinGame`, the sender's code tag otherwise) as it
was, present or absent alike, and every message it emits is addressed to the
sender alone, to the room of that code, or to the room of that code except the
sender. -/
theorem received_touches_one_session (w : Server) (i : Input) :
    (w.receive i = none ↔ ∃ id s, i = .joinGameNoPayload id ∧ w.socket? id = some s) ∧
      ∀ r, w.receive i = some r →
        (∀ other, w.inputCode i ≠ some other →
            r.1.gameSessions.get other = w.gameSessions.get other) ∧
          ∀ em ∈ r.2,
            em.1 = Target.socket i.sender ∨
              ∃ code, w.inputCode i = some code ∧
                (em.1 = Target.room code ∨ em.1 = Target.roomExcept code i.sender) := by
  cases i with
  | event e =>
    refine ⟨⟨fun h => by simp [Server.receive] at h, fun ⟨_, _, h, _⟩ => by cases h⟩, ?_⟩
    intro r hr
    simp only [Server.receive, Option.some.injEq] at hr
    subst hr
    exact step_touches_one_session w e
  | joinGameNoPayload id =>
    rw [Server.receive_joinGameNoPayload]
    cases hso : w.socket? id with
    | none =>
      refine ⟨⟨fun h => by simp at h, fun ⟨id', s, h, hs⟩ => ?_⟩, ?_⟩
      · cases h
        rw [hso] at hs
        cases hs
      · intro r hr
        simp only [Option.isSome_none, Bool.false_eq_true, if_false, Option.some.injEq] at hr
        subst hr
        exact ⟨fun _ _ => rfl, fun em hem => by simp at hem⟩
    | some s =>
      refine ⟨⟨fun _ => ⟨id, s, rfl, hso⟩, fun _ => by simp⟩, ?_⟩
      intro r hr
      simp at hr

/-- C18 as amended, at Alice joining `ABCD` while `WXYZ` is also stored: the
handler does not throw and `WXYZ` is untouched. -/
theorem received_touches_one_session_witness :
    ((Server.init.run twoGames).step (.joinGame "a" "ABCD" "Alice")).1.gameSessions.get "WXYZ"
      = (Server.init.run twoGames).gameSessions.get "WXYZ" :=
  ((received_touches_one_session (Server.init.run twoGames)
      (.event (.joinGame "a" "ABCD" "Alice"))).2
    ((Server.init.run twoGames).step (.joinGame "a" "ABCD" "Alice")) rfl).1
    "WXYZ" (by decide)

/-! ## Exactly one host -/

/-- C14 as amended: in every state reached from the empty server by events none
of which binds an already bound socket, every session stored under a non-empty
code has exactly one connected socket that holds the host role for it (role tag
`host`, code tag the code), and that socket is the one recorded in the
session's `host` field. -/
theorem exactly_one_host (es : List Event) (code : String) (session : Session)
    (hbound : Server.init.boundOnce es = true) (hne : code ≠ "")
    (hget : (Server.init.run es).gameSessions.get code = some session) :
    ∃ s ∈ (Server.init.run es).sockets,
      (s.role = some "host" ∧ s.gameCode = some code ∧ s.id = session.host) ∧
        ∀ t ∈ (Server.init.run es).sockets,
          t.role = some "host" → t.gameCode = some code → t = s := by
  have hinv := Server.Inv.run es Server.init Server.Inv.init
  have hlive : (Server.init.run es).Live :=
    Server.live_run es Server.init Server.Inv.init
      ⟨by intro s hs; simp [Server.init] at hs,
        by intro c s _ hs; simp [Server.init, SessionMap.get] at hs⟩
      hbound
  obtain ⟨⟨s, hs, hsid, hscode, hsrole⟩, _⟩ := hlive.2 code session hne hget
  refine ⟨s, hs, ⟨hsrole, hscode, hsid⟩, ?_⟩
  intro t ht htrole htcode
  obtain ⟨x, hx, hxhost⟩ := hinv.2 t ht htrole code htcode
  rw [hget] at hx
  cases hx
  exact Server.eq_of_id_eq _ hinv t s ht hs (hxhost.symm.trans hsid.symm)

/-- C14 as amended, at the scenario of the specification after Alice and Bob
have joined `ABCD`: one connected socket holds the host role for `ABCD`. -/
theorem exactly_one_host_witness :
    Server.init.boundOnce aliceAndBob = true ∧
      ∃ s ∈ (Server.init.run aliceAndBob).sockets,
        (s.role = some "host" ∧ s.gameCode = some "ABCD" ∧ s.id = "h") ∧
          ∀ t ∈ (Server.init.run aliceAndBob).sockets,
            t.role = some "host" → t.gameCode = some "ABCD" → t = s :=
  ⟨by decide,
    exactly_one_host aliceAndBob "ABCD"
      { host := "h",
        players := [{ id := "a", name := "Alice", number := 1, role := "Player 1" },
                    { id := "b", name := "Bob", number := 2, role := "Player 2" }],
        gameState := defaultGameState }
      (by decide) (by decide) rfl⟩

/-! ## Senders that joined the stored session -/

theorem Server.socket?_disconnect_self (w : Server) (id : String) (s : Socket)
    (hso : w.socket? id = some s) : (w.step (.disconnect id)).1.socket? id = none := by
  rw [Server.step_disconnect w id s hso]
  simp only [Server.socket?]
  rw [find?_filter_ne]
  simp

theorem Server.step_record_cases (w : Server) (e : Event) (code : String) (session : Session)
    (p : Player) (hsess : w.gameSessions.get code = some session) (hp : p ∈ session.players) :
    (∃ session', (w.step e).1.gameSessions.get code = some session' ∧ p ∈ session'.players) ∨
      (w.step e).1.gameSessions.get code = none ∨
      ∃ s, e = .disconnect p.id ∧ w.socket? p.id = some s := by
  rcases Server.step_sessions_cases w e with ⟨hm, _⟩ | ⟨s, hso, hconn, hm, _⟩
  · rw [hm]; exact Or.inl ⟨session, hsess, hp⟩
  · rw [hm]
    by_cases hmsg : e.isMessage = true
    · exact Or.inl (handle_recordsKept w.gameSessions s e code hmsg session p hsess hp)
    · have hdis : e = .disconnect e.sender := by
        cases e <;> simp_all [Event.isMessage, Event.sender]
      generalize e.sender = gone at hdis hso
      subst hdis
      obtain ⟨_, hsid⟩ := Server.socket?_some w gone s hso
      simp only [handle]
      rcases onDisconnect_cases w.gameSessions s with h | ⟨c, old, _, _, _, _, h⟩
          | ⟨c, old, _, _, hold, _, h⟩
      · rw [h]; exact Or.inl ⟨session, hsess, hp⟩
      · rw [h]
        by_cases hc : code = c
        · subst hc; exact Or.inr (Or.inl (SessionMap.get_delete_self _ _))
        · rw [SessionMap.get_delete_ne _ _ _ hc]
          exact Or.inl ⟨session, hsess, hp⟩
      · rw [h]
        by_cases hc : code = c
        · subst hc
          rw [hold] at hsess
          cases hsess
          by_cases hpid : p.id = s.id
          · right; right
            rw [hpid, hsid]
            exact ⟨s, rfl, hso⟩
          · left
            refine ⟨_, SessionMap.get_set_self _ _ _, ?_⟩
            simp only [List.mem_filter, decide_eq_true_eq]
            exact ⟨hp, hpid⟩
        · rw [SessionMap.get_set_ne _ _ _ _ hc]
          exact Or.inl ⟨session, hsess, hp⟩

theorem Server.listedSocket_step (w : Server) (e : Event) (id code : String) (current : Bool)
    (hlisted : current = true → w.ListedSocket id code) :
    w.joinedAfter id code current e = true → (w.step e).1.ListedSocket id code := by
  intro hafter s' hso' hcode hrole
  have hkept : ¬ (w.deletes code e = true) := by
    intro hd
    simp [Server.joinedAfter, hd] at hafter
  by_cases hjoin : ∃ (name : String) (s0 : Socket) (old : Session),
      e = .joinGame id code name ∧ w.socket? id = some s0 ∧
        w.gameSessions.get code = some old
  · obtain ⟨name, s0, old, he, hs0, hold⟩ := hjoin
    subst he
    obtain ⟨_, hs0id⟩ := Server.socket?_some w id s0 hs0
    rw [Server.step_of_message w (.joinGame id code name) s0 rfl hs0]
    simp only [Server.commit, handle]
    rw [onJoinGame_of_get_some _ s0 code name old hold]
    exact ⟨_, _, SessionMap.get_set_self _ _ _,
      List.mem_append_right _ (List.mem_singleton.2 rfl), hs0id⟩
  · have hcur : current = true := by
      have hdel : w.deletes code e = false := by
        cases hd : w.deletes code e with
        | true => exact absurd hd hkept
        | false => rfl
      cases e with
      | joinGame sender gameCode playerName =>
        simp only [Server.joinedAfter, hdel, Bool.false_eq_true, if_false] at hafter
        by_cases hc : sender = id ∧ gameCode = code ∧ (w.socket? id).isSome = true ∧
            w.gameSessions.has code = true
        · exfalso
          obtain ⟨h1, h2, h3, h4⟩ := hc
          subst h1 h2
          cases hs0 : w.socket? sender with
          | none => rw [hs0] at h3; simp at h3
          | some s0 =>
            cases hold : w.gameSessions.get gameCode with
            | none => simp [SessionMap.has, hold] at h4
            | some old => exact hjoin ⟨playerName, s0, old, rfl, hs0, hold⟩
        · simpa [hc] using hafter
      | connect x => simpa [Server.joinedAfter, hdel] using hafter
      | createGame x c => simpa [Server.joinedAfter, hdel] using hafter
      | buzzIn x => simpa [Server.joinedAfter, hdel] using hafter
      | hostAction x a => simpa [Server.joinedAfter, hdel] using hafter
      | syncState x P => simpa [Server.joinedAfter, hdel] using hafter
      | playerWallAction x a => simpa [Server.joinedAfter, hdel] using hafter
      | disconnect x => simpa [Server.joinedAfter, hdel] using hafter
    have hbefore := hlisted hcur
    have hrecord : ∀ session p, w.gameSessions.get code = some session → p ∈ session.players →
        p.id = id → (w.step e).1.socket? id ≠ none →
          ∃ session' q, (w.step e).1.gameSessions.get code = some session' ∧
            q ∈ session'.players ∧ q.id = id := by
      intro session p hsess hp hpid hconnected
      rcases Server.step_record_cases w e code session p hsess hp with
        ⟨session', hs', hp'⟩ | hnone | ⟨s, he, hs⟩
      · exact ⟨session', p, hs', hp', hpid⟩
      · exfalso
        apply hkept
        simp [Server.deletes, SessionMap.has, hsess, hnone]
      · exfalso
        rw [hpid] at he hs
        subst he
        exact hconnected (Server.socket?_disconnect_self w id s hs)
    have hconnected : (w.step e).1.socket? id ≠ none := by rw [hso']; simp
    rcases Server.socket?_step w e id with ⟨hsame, _⟩ | ⟨_, _, _, hfresh⟩
        | ⟨_, hnone, _⟩ | ⟨s0, hsender, hmsg, hs0, hs'⟩
    · rw [hsame] at hso'
      obtain ⟨session, p, hsess, hp, hpid⟩ := hbefore s' hso' hcode hrole
      exact hrecord session p hsess hp hpid hconnected
    · rw [hfresh] at hso'
      cases hso'
      simp [Socket.fresh] at hcode
    · rw [hnone] at hso'
      cases hso'
    · rw [hs'] at hso'
      cases hso'
      rcases handle_socket_cases w.gameSessions s0 e with
        h | ⟨c, _, _, h⟩ | ⟨c, name, old, hold, he, h⟩
      · rw [h] at hcode hrole
        obtain ⟨session, p, hsess, hp, hpid⟩ := hbefore s0 hs0 hcode hrole
        exact hrecord session p hsess hp hpid hconnected
      · rw [h] at hrole
        exact absurd rfl hrole
      · exfalso
        rw [h] at hcode
        simp only [Option.some.injEq] at hcode
        subst hcode
        rw [hsender] at he
        exact hjoin ⟨name, s0, old, he, hs0, hold⟩

theorem Server.listedSocket_run (es : List Event) (w : Server) (id code : String)
    (current : Bool) (hlisted : current = true → w.ListedSocket id code) :
    w.joinedCurrent id code current es = true → (w.run es).ListedSocket id code := by
  induction es generalizing w current with
  | nil => exact hlisted
  | cons e es ih =>
    exact ih (w.step e).1 _ (Server.listedSocket_step w e id code current hlisted)

/-- C19 as amended: in every state reached from the empty server, a `buzzIn` or
a `playerWallAction` from socket `id` that emits a message to the room of
`code` comes from a socket that has a record in the players list of the session
stored under `code`, provided no session stored under `code` has been deleted
since the latest `joinGame` for `code` that the socket got answered. -/
theorem current_joiner_is_listed (es : List Event) (code id : String) (a : JsValue)
    (hcurrent : Server.init.joinedCurrent id code false es = true) :
    (∀ em ∈ ((Server.init.run es).step (.buzzIn id)).2, em.1 = Target.room code →
        ∃ session p, (Server.init.run es).gameSessions.get code = some session ∧
          p ∈ session.players ∧ p.id = id) ∧
      ∀ em ∈ ((Server.init.run es).step (.playerWallAction id a)).2,
        em.1 = Target.room code →
          ∃ session p, (Server.init.run es).gameSessions.get code = some session ∧
            p ∈ session.players ∧ p.id = id := by
  have hlisted : (Server.init.run es).ListedSocket id code :=
    Server.listedSocket_run es Server.init id code false (fun h => by cases h) hcurrent
  generalize Server.init.run es = w at hlisted
  constructor
  · intro em hem htarget
    cases hso : w.socket? id with
    | none =>
      rw [Server.step_of_socket_none w (.buzzIn id) (by simp) hso] at hem
      simp at hem
    | some s =>
      rw [Server.step_of_message w (.buzzIn id) s rfl hso] at hem
      simp only [Server.commit, handle] at hem
      rcases onBuzzIn_cases w.gameSessions s with h | ⟨c, _, hcode, _, hrole, h⟩
      · rw [h] at hem; simp at hem
      · rw [h] at hem
        simp only [List.mem_singleton] at hem
        subst hem
        simp only [Target.room.injEq] at htarget
        subst htarget
        exact hlisted s hso hcode hrole
  · intro em hem htarget
    cases hso : w.socket? id with
    | none =>
      rw [Server.step_of_socket_none w (.playerWallAction id a) (by simp) hso] at hem
      simp at hem
    | some s =>
      rw [Server.step_of_message w (.playerWallAction id a) s rfl hso] at hem
      simp only [Server.commit, handle] at hem
      rcases onPlayerWallAction_cases w.gameSessions s a with h | ⟨c, _, hcode, _, hrole, h⟩
      · rw [h] at hem; simp at hem
      · rw [h] at hem
        simp only [List.mem_singleton] at hem
        subst hem
        simp only [Target.room.injEq] at htarget
        subst htarget
        exact hlisted s hso hcode hrole

/-- C19 as amended, at Bob who joined `ABCD` after it was deleted and created
again: his buzz comes from a socket with a record in the players of `ABCD`,
while Alice, who joined before the deletion, is not covered. -/
theorem current_joiner_is_listed_witness :
    (Server.init.joinedCurrent "b" "ABCD" false bobJoinsNewGame = true ∧
        Server.init.joinedCurrent "a" "ABCD" false bobJoinsNewGame = false) ∧
      ∃ session p, (Server.init.run bobJoinsNewGame).gameSessions.get "ABCD" = some session ∧
        p ∈ session.players ∧ p.id = "b" :=
  ⟨⟨by decide, by decide⟩,
    (current_joiner_is_listed bobJoinsNewGame "ABCD" "b" JsValue.null (by decide)).1
      (Target.room "ABCD", Msg.playerBuzzed (some "Bob") "b")
      (by
        have hout : ((Server.init.run bobJoinsNewGame).step (.buzzIn "b")).2
            = [(Target.room "ABCD", Msg.playerBuzzed (some "Bob") "b")] := rfl
        rw [hout]
        exact List.mem_singleton.2 rfl)
      rfl⟩

/-! ## Player numbers, joins and leaves -/

theorem handle_players_cases (m : SessionMap) (s : Socket) (e : Event) (code : String) :
    ((handle m s e).1.get code).map (fun x => x.players)
        = (m.get code).map (fun x => x.players) ∨
      (m.get code = none ∧
        ((handle m s e).1.get code).map (fun x => x.players) = some []) ∨
      (∃ l r, (m.get code).map (fun x => x.players) = some l ∧
        ((handle m s e).1.get code).map (fun x => x.players) = some (l ++ [r]) ∧
        r.number = l.length + 1) ∨
      (∃ l gone, (m.get code).map (fun x => x.players) = some l ∧
        ((handle m s e).1.get code).map (fun x => x.players)
          = some (l.filter (fun p => p.id ≠ gone))) ∨
      ∃ l, (m.get code).map (fun x => x.players) = some l ∧
        (handle m s e).1.get code = none := by
  by_cases hother : s.eventCode e = some code
  · cases e with
    | connect id => exact Or.inl rfl
    | createGame id gameCode =>
      simp only [Socket.eventCode, Option.some.injEq] at hother
      subst hother
      simp only [handle]
      rcases onCreateGame_cases m s gameCode with ⟨_, h⟩ | ⟨hnone, h⟩
      · rw [h]; exact Or.inl rfl
      · rw [h, SessionMap.get_set_self]
        exact Or.inr (Or.inl ⟨hnone, rfl⟩)
    | joinGame id gameCode playerName =>
      simp only [Socket.eventCode, Option.some.injEq] at hother
      subst hother
      simp only [handle]
      cases hsess : m.get gameCode with
      | none =>
        rw [onJoinGame_of_get_none m s gameCode playerName hsess, hsess]
        exact Or.inl rfl
      | some old =>
        rw [onJoinGame_of_get_some m s gameCode playerName old hsess, SessionMap.get_set_self]
        exact Or.inr (Or.inr (Or.inl ⟨old.players, _, rfl, rfl, rfl⟩))
    | buzzIn id =>
      simp only [handle]
      rcases onBuzzIn_cases m s with h | ⟨_, _, _, _, _, h⟩ <;> rw [h] <;> exact Or.inl rfl
    | hostAction id action =>
      simp only [handle]
      rcases onHostAction_cases m s action with h | ⟨_, _, _, _, _, h⟩ <;> rw [h] <;>
        exact Or.inl rfl
    | syncState id P =>
      simp only [handle]
      rcases onSyncState_cases m s P with h | ⟨c, old, hcode, hsess, _, h⟩
      · rw [h]; exact Or.inl rfl
      · simp only [Socket.eventCode, hcode, Option.some.injEq] at hother
        subst hother
        rw [h, SessionMap.get_set_self, hsess]
        exact Or.inl rfl
    | playerWallAction id action =>
      simp only [handle]
      rcases onPlayerWallAction_cases m s action with h | ⟨_, _, _, _, _, h⟩ <;> rw [h] <;>
        exact Or.inl rfl
    | disconnect id =>
      simp only [handle]
      rcases onDisconnect_cases m s with h | ⟨c, old, hcode, _, hsess, _, h⟩
          | ⟨c, old, hcode, _, hsess, _, h⟩
      · rw [h]; exact Or.inl rfl
      · simp only [Socket.eventCode, hcode, Option.some.injEq] at hother
        subst hother
        rw [h, SessionMap.get_delete_self, hsess]
        exact Or.inr (Or.inr (Or.inr (Or.inr ⟨old.players, rfl, rfl⟩)))
      · simp only [Socket.eventCode, hcode, Option.some.injEq] at hother
        subst hother
        rw [h, SessionMap.get_set_self, hsess]
        exact Or.inr (Or.inr (Or.inr (Or.inl ⟨old.players, s.id, rfl, rfl⟩)))
  · rw [handle_get_other m s e code hother]
    exact Or.inl rfl

theorem Server.step_players_cases (w : Server) (e : Event) (code : String) :
    (w.step e).1.players code = w.players code ∨
      (w.players code = none ∧ (w.step e).1.players code = some []) ∨
      (∃ l r, w.players code = some l ∧ (w.step e).1.players code = some (l ++ [r]) ∧
        r.number = l.length + 1) ∨
      (∃ l gone, w.players code = some l ∧
        (w.step e).1.players code = some (l.filter (fun p => p.id ≠ gone))) ∨
      ∃ l, w.players code = some l ∧ (w.step e).1.players code = none := by
  unfold Server.players
  rcases Server.step_sessions_cases w e with ⟨hm, _⟩ | ⟨s, _, _, hm, _⟩
  · rw [hm]; exact Or.inl rfl
  · rw [hm]
    rcases handle_players_cases w.gameSessions s e code with
      h | ⟨h1, h2⟩ | ⟨l, r, h1, h2, h3⟩ | ⟨l, gone, h1, h2⟩ | ⟨l, h1, h2⟩
    · exact Or.inl h
    · exact Or.inr (Or.inl ⟨by rw [h1]; rfl, h2⟩)
    · exact Or.inr (Or.inr (Or.inl ⟨l, r, h1, h2, h3⟩))
    · exact Or.inr (Or.inr (Or.inr (Or.inl ⟨l, gone, h1, h2⟩)))
    · exact Or.inr (Or.inr (Or.inr (Or.inr ⟨l, h1, by rw [h2]; rfl⟩)))

theorem Server.counted_step (w : Server) (e : Event) (code : String) (left : Bool)
    (given : List Nat) (hc : w.Counted code left given)
    (hok : (left && w.playerAdded code e) = false) :
    (w.step e).1.Counted code (w.leftAfter code left e) (w.givenAfter code given e) := by
  obtain ⟨hgiven, hstored⟩ := hc
  rcases Server.step_players_cases w e code with
    ha | ⟨hb, ha⟩ | ⟨l, r, hb, ha, hr⟩ | ⟨l, gone, hb, ha⟩ | ⟨l, hb, ha⟩
  · -- the players are as before
    have hopens : w.opens code e = false := by
      simp only [Server.opens, ha]
      cases w.players code <;> rfl
    have hadded : w.playerAdded code e = false := by
      simp [Server.playerAdded, Server.playerCount, ha]
    have hremoved : w.playerRemoved code e = false := by
      simp [Server.playerRemoved, Server.playerCount, ha]
    simp only [Server.leftAfter, Server.givenAfter, hopens, hadded, hremoved,
      Bool.false_eq_true, if_false, Bool.or_false]
    refine ⟨hgiven, ?_⟩
    rw [ha]
    exact hstored
  · -- the session is created
    have hopens : w.opens code e = true := by
      simp [Server.opens, hb, ha]
    simp only [Server.leftAfter, Server.givenAfter, hopens, if_true]
    refine ⟨rfl, ?_⟩
    intro l hl
    rw [ha] at hl
    cases hl
    exact ⟨List.Pairwise.nil, fun _ => rfl⟩
  · -- a record is added
    have hopens : w.opens code e = false := by
      simp [Server.opens, hb]
    have hadded : w.playerAdded code e = true := by
      simp [Server.playerAdded, Server.playerCount, hb, ha]
    have hremoved : w.playerRemoved code e = false := by
      simp [Server.playerRemoved, Server.playerCount, hb, ha]
    have hleft : left = false := by
      cases left with
      | false => rfl
      | true => simp [hadded] at hok
    have hlast : (w.step e).1.lastNumber code = [l.length + 1] := by
      simp [Server.lastNumber, ha, hr]
    have hnum := (hstored l hb).2 hleft
    have hlen : given.length = l.length := by
      rw [← hnum, List.length_map]
    simp only [Server.leftAfter, Server.givenAfter, hopens, hadded, hremoved, hlast, hleft,
      Bool.false_eq_true, if_false, if_true, Bool.or_false]
    have hnew : given ++ [l.length + 1] = List.range' 1 (l.length + 1) := by
      rw [List.range'_1_concat, Nat.add_comm 1, ← hlen, ← hgiven]
    refine ⟨?_, ?_⟩
    · rw [hnew]
      simp
    · intro l' hl'
      rw [ha] at hl'
      cases hl'
      have hmap : (l ++ [r]).map (fun p => p.number) = given ++ [l.length + 1] := by
        rw [List.map_append, hnum, List.map_singleton, hr]
      rw [hmap]
      refine ⟨?_, fun _ => rfl⟩
      rw [hnew]
      exact List.pairwise_lt_range' 1 _
  · -- records are filtered out
    have hopens : w.opens code e = false := by
      simp [Server.opens, hb]
    have hle : (l.filter (fun p => p.id ≠ gone)).length ≤ l.length :=
      List.length_filter_le _ _
    have hadded : w.playerAdded code e = false := by
      simp only [Server.playerAdded, Server.playerCount, hb, ha, decide_eq_false_iff_not]
      omega
    simp only [Server.leftAfter, Server.givenAfter, hopens, hadded, Bool.false_eq_true,
      if_false]
    refine ⟨hgiven, ?_⟩
    intro l' hl'
    rw [ha] at hl'
    cases hl'
    have hsub : ((l.filter (fun p => p.id ≠ gone)).map (fun p => p.number)).Sublist
        (l.map (fun p => p.number)) :=
      List.Sublist.map _ (List.filter_sublist l)
    refine ⟨List.Pairwise.sublist hsub (hstored l hb).1, ?_⟩
    intro hstill
    simp only [Bool.or_eq_false_iff] at hstill
    have hnot : ¬ (l.filter (fun p => p.id ≠ gone)).length < l.length := by
      have := hstill.2
      simpa [Server.playerRemoved, Server.playerCount, hb, ha] using this
    have hsame : l.filter (fun p => p.id ≠ gone) = l :=
      List.Sublist.eq_of_length (List.filter_sublist l) (by omega)
    rw [hsame]
    exact (hstored l hb).2 hstill.1
  · -- the session is deleted
    have hopens : w.opens code e = false := by
      simp [Server.opens, hb]
    have hadded : w.playerAdded code e = false := by
      simp [Server.playerAdded, Server.playerCount, hb, ha]
    simp only [Server.leftAfter, Server.givenAfter, hopens, hadded, Bool.false_eq_true,
      if_false]
    refine ⟨hgiven, ?_⟩
    intro l' hl'
    rw [ha] at hl'
    cases hl'

theorem Server.counted_run (es : List Event) (w : Server) (code : String) (left : Bool)
    (given : List Nat) (hc : w.Counted code left given)
    (hok : w.joinsBeforeLeaves code left es = true) :
    ∃ left', (w.run es).Counted code left' (w.numbersGiven code given es) := by
  induction es generalizing w left given with
  | nil => exact ⟨left, hc⟩
  | cons e es ih =>
    simp only [Server.joinsBeforeLeaves, Bool.and_eq_true, Bool.not_eq_true'] at hok
    exact ih (w.step e).1 _ _ (Server.counted_step w e code left given hc hok.1) hok.2

/-- C6 as amended: in every state reached from the empty server by events among
which no record is added to the players stored under `code` after one has been
taken away from them (counted for each session from its creation), the numbers
of the records in the players list of the session stored under `code` are
strictly increasing in list order, hence pairwise distinct, and the numbers
given to the joiners of that session since its creation are pairwise distinct:
none was given twice. -/
theorem player_numbers_increasing_joins_before_leaves (es : List Event) (code : String)
    (session : Session) (hok : Server.init.joinsBeforeLeaves code false es = true)
    (hsession : (Server.init.run es).gameSessions.get code = some session) :
    (session.players.map (fun p => p.number)).Pairwise (fun x y => x < y) ∧
      (session.players.map (fun p => p.number)).Nodup ∧
      (Server.init.numbersGiven code [] es).Nodup := by
  obtain ⟨left', hgiven, hstored⟩ :=
    Server.counted_run es Server.init code false [] ⟨rfl, by
      intro l hl
      simp [Server.players, Server.init, SessionMap.get] at hl⟩ hok
  have hplayers : (Server.init.run es).players code = some session.players := by
    simp [Server.players, hsession]
  have hpair := (hstored session.players hplayers).1
  refine ⟨hpair, ?_, ?_⟩
  · exact List.Pairwise.imp (fun h => Nat.ne_of_lt h) hpair
  · rw [hgiven]
    exact List.nodup_range' 1 _

/-- C6 as amended, at the run in which Alice, Bob and Carol have joined `ABCD`
and Alice has left: Bob and Carol keep 2 and 3.  The run in which Carol joins
after Alice has left is not among the runs of the amended claim. -/
theorem player_numbers_increasing_joins_before_leaves_witness :
    (Server.init.joinsBeforeLeaves "ABCD" false aliceLeavesThree = true ∧
        Server.init.joinsBeforeLeaves "ABCD" false carolAfterAlice = false) ∧
      List.Pairwise (fun x y => x < y)
        (List.map (fun p : Player => p.number)
          [{ id := "b", name := "Bob", number := 2, role := "Player 2" },
           { id := "c", name := "Carol", number := 3, role := "Player 3" }]) :=
  ⟨⟨by decide, by decide⟩,
    (player_numbers_increasing_joins_before_leaves aliceLeavesThree "ABCD"
      { host := "h",
        players := [{ id := "b", name := "Bob", number := 2, role := "Player 2" },
                    { id := "c", name := "Carol", number := 3, role := "Player 3" }],
        gameState := defaultGameState }
      (by decide) rfl).1⟩

end OnlyConnect
